import Mathlib

/-!
Verification development for the NASL script linter (`nasl/lint.c`).

The linter walks a parsed syntax tree (`tree_cell`: tagged nodes with an
optional string payload, a line number and four ordered children) in five
passes driven by `nasl_lint`:

1. `make_call_func_list` collects the names of all called, non-builtin
   functions;
2. `nasl_lint_def` in mode 1 registers called function definitions, records
   call sites (`func_info`) and rejects duplicate call parameters;
3. `nasl_lint_call` resolves calls, running `reverse_search` over the
   recorded call sites to distinguish top-level-reachable undefined calls
   from dead code, and marks used include files;
4. the unused-include check over `include_files`;
5. `nasl_lint_def` in mode 0 (duplicate function definitions) and
   `nasl_lint_defvar` (undeclared variable reads).

The embedding below is a direct shallow translation of `lint.c`.  GLib hash
tables become association lists with replace semantics, `GSList` prepending
becomes list cons, and the C statics (`current_fun_def`, `defined_flag`, the
variable-pass mode flags and `local_var_list`) are threaded explicitly as
state that survives across invocations (`Statics`).  The only unbounded
recursion in the C code, `reverse_search`, is embedded with an explicit fuel
parameter; `none` means the recursion depth exceeded the fuel, and a run of
the analyzer that returns `none` at every fuel is a run on which the C
program does not terminate.

External collaborators whose sources are not part of the verified tree
(`nasl_func.c`, `nasl_init.c`, `nasl_debug.c`) are modelled from the spec;
each such definition carries a doc comment saying so.
-/

/-- Node kinds of the syntax tree that `lint.c` dispatches on.  All node
kinds the linter does not treat specially are collapsed into `NODE_OTHER`. -/
inductive NodeType where
  | NODE_FUN_CALL
  | NODE_FUN_DEF
  | CONST_DATA
  | CONST_STR
  | NODE_AFF
  | EXPR_NOT
  | EXPR_INCR
  | NODE_PLUS_EQ
  | NODE_LOCAL
  | NODE_GLOBAL
  | NODE_VAR
  | NODE_ARRAY_EL
  | NODE_DECL
  | NODE_FOREACH
  | NODE_ARG
  | NODE_OTHER
deriving Repr, DecidableEq

open NodeType

/-- The parser's `tree_cell`: a tagged node with an optional string payload
(`x.str_val`), a source line number and exactly four ordered children.
`nil` stands for both a NULL child pointer and the FAKE_CELL sentinel,
which the traversals of `lint.c` treat identically (they skip both). -/
inductive tree_cell where
  | nil : tree_cell
  | node (ty : NodeType) (str_val : Option String) (line_nb : Nat)
      (l0 l1 l2 l3 : tree_cell) : tree_cell
deriving Repr, DecidableEq

/-- A recorded call site (struct `st_func_info` in `lint.c`): callee name,
caller function (NULL at top level) and caller file. -/
structure func_info where
  func_name : Option String
  caller_func : Option String
  caller_file : String
deriving Repr, DecidableEq

/-- The diagnostics the linter can emit through its error sink. -/
inductive Diag where
  | dupParam (file : String) (line : Nat) (param : String) (func : Option String)
  | undefFunc (file : String) (line : Nat) (name : Option String)
  | unusedInc (file : String)
  | undeclVar (file : String) (line : Nat) (name : Option String)
  | redefFunc (name : Option String)
deriving Repr, DecidableEq

/-- The function-local static variables of `lint.c` that survive across
invocations of `nasl_lint` within one process: `current_fun_def` in
`nasl_lint_def`, `defined_flag` in `nasl_lint_call`, and the four statics
of `nasl_lint_defvar`. -/
structure Statics where
  current_fun_def : Option String
  defined_flag : Bool
  defined_fn_mode : Bool
  defined_var_mode : Bool
  def_glob_var : Bool
  local_var_list : List String
deriving Repr, DecidableEq

/-- The pristine static state of a process that has not run the linter yet. -/
def initStatics : Statics := ⟨none, false, false, false, false, []⟩

/-- The environment of external collaborators: the builtin-function registry
seeded into every fresh lexical context by `init_nasl_library`, the
include-filename resolver (function name to owning file), and the list of
library identifier names that `add_nasl_library` adds to the predefined
variable set. -/
structure Env where
  builtins : String → Bool
  fileOf : String → Option String
  lib_names : List String

/-- The mutable state threaded through one `nasl_lint` invocation, plus the
process statics.  `aux_funcs` is the function table of the fresh
`lexic_aux` context, `out_funcs` the one of the caller's `lexic` context
(used by the mode-0 duplicate check).  `cur_file` is the runtime's current
filename (`nasl_get_filename (NULL)` / `nasl_set_filename`). -/
structure St where
  aux_funcs : List String
  out_funcs : List String
  cur_file : String
  include_files : List (String × Bool)
  func_fnames_tab : List (String × Option String)
  def_func_tree : List func_info
  defined_var : List String
  diags : List Diag
  current_fun_def : Option String
  defined_flag : Bool
  defined_fn_mode : Bool
  defined_var_mode : Bool
  def_glob_var : Bool
  local_var_list : List String
deriving Repr, DecidableEq

/-- Result of one linter pass: `failed s` is the C functions returning NULL
with sink state `s`, `ok s` is returning FAKE_CELL. -/
inductive DefRes where
  | failed (s : St)
  | ok (s : St)
deriving Repr, DecidableEq

/-- `g_slist_find_custom` with `list_cmp`: membership of an optional string
in a string list; a NULL search datum never matches (`list_cmp` returns -1). -/
def memOpt (sv : Option String) (l : List String) : Bool :=
  match sv with
  | none => false
  | some v => l.contains v

/-- `g_hash_table_replace` / `g_hash_table_insert` on a string-keyed table
modelled as an association list with unique keys. -/
def hash_replace {β : Type} : List (String × β) → String → β → List (String × β)
  | [], k, v => [(k, v)]
  | (k1, v1) :: t, k, v =>
      if k1 = k then (k, v) :: t else (k1, v1) :: hash_replace t k v

/-- `g_hash_table_lookup`. -/
def hash_lookup {β : Type} : List (String × β) → String → Option β
  | [], _ => none
  | (k1, v1) :: t, k => if k1 = k then some v1 else hash_lookup t k

/-- `g_str_has_suffix`, evaluated over the underlying character list so
that concrete runs reduce inside the kernel. -/
def g_str_has_suffix (s sfx : String) : Bool :=
  List.isSuffixOf sfx.data s.data

/-- `g_slist_find_custom` with `list_cmp1`: find the first recorded call
site whose callee name equals the datum; a NULL datum never matches. -/
def find_custom1 (l : List func_info) : Option String → Option func_info
  | none => none
  | some d => l.find? (fun r => r.func_name = some d)

/-- Modelled from the spec: the builtin-function resolver
(`get_func_ref_by_name`, `nasl_func.c` is not part of the verified tree).
A name resolves if it is a builtin of the language runtime or was declared
in the given context's function table; a NULL name resolves to nothing. -/
def get_func_ref_by_name (env : Env) (funcs : List String) : Option String → Bool
  | none => false
  | some n => env.builtins n || funcs.contains n

/-- Modelled from the spec: `decl_nasl_func` (`nasl_func.c` is not part of
the verified tree) registers a function record under the node's name; in
lint mode 0 (the duplicate-check pass) registration fails when a record
with that name already exists. -/
def decl_nasl_func (funcs : List String) (sv : Option String) (lint_mode : Nat) :
    Option (List String) :=
  match sv with
  | none => some funcs
  | some n => if lint_mode = 0 ∧ funcs.contains n then none else some (n :: funcs)

/-- Modelled from the spec: the include-filename resolver
(`nasl_get_filename`, `nasl_debug.c` is not part of the verified tree) maps
a function name to its owning source file and falls back to the current
filename for NULL or unknown names. -/
def nasl_get_filename (env : Env) (cur_file : String) : Option String → String
  | none => cur_file
  | some n => (env.fileOf n).getD cur_file

/-- The keyword list of `add_predef_varname`. -/
def predef_keywords : List String :=
  ["ACT_UNKNOWN", "description", "NULL", "SCRIPT_NAME", "COMMAND_LINE",
   "_FCT_ANON_ARGS"]

/-- Modelled from the spec: `add_nasl_library` (`nasl_init.c` is not part of
the verified tree) adds the names of the NASL library to the predefined
variable list. -/
def add_nasl_library (env : Env) (l : List String) : List String :=
  env.lib_names ++ l

/-- `add_predef_varname`: the predefined identifier set seeding the
variable-scope pass's defined list. -/
def add_predef_varname (env : Env) : List String :=
  add_nasl_library env (predef_keywords.foldl (fun acc k => k :: acc) [])

/-- Which context the definition pass works on: `nasl_lint` hands `lexic`
(the caller's context) to lint mode 0 and the fresh `lexic_aux` to mode 1. -/
def ctx_funcs (lint_mode : Nat) (s : St) : List String :=
  if lint_mode = 0 then s.out_funcs else s.aux_funcs

/-- Write back the context chosen by `ctx_funcs`. -/
def set_ctx_funcs (lint_mode : Nat) (s : St) (f : List String) : St :=
  if lint_mode = 0 then { s with out_funcs := f } else { s with aux_funcs := f }

/-- The duplicate-parameter scan of `nasl_lint_def`: walk the call's
argument chain (`st.link[0]`, then `link[1]` of each argument), collecting
named arguments; return the first name already seen. -/
def scan_params : tree_cell → List String → Option String
  | tree_cell.nil, _ => none
  | tree_cell.node _ sv _ _ c1 _ _, seen =>
      match sv with
      | none => scan_params c1 seen
      | some v => if seen.contains v then some v else scan_params c1 (v :: seen)

/-- The `NODE_FUN_CALL` entry block of `nasl_lint_def`: record the callee in
`func_fnames_tab` when it does not resolve, prepend a `func_info` call-site
record, and in lint mode 1 reject duplicate call parameters. -/
def nasl_lint_def_call (env : Env) (lint_mode : Nat) (nasl_name : String)
    (sv : Option String) (ln : Nat) (c0 : tree_cell) (err_fname : Option String)
    (s : St) : DefRes :=
  let pf := get_func_ref_by_name env (ctx_funcs lint_mode s) sv
  let s :=
    if pf then s
    else
      match sv with
      | some v => { s with func_fnames_tab := hash_replace s.func_fnames_tab v err_fname }
      | none => s
  let finfo : func_info := ⟨sv, s.current_fun_def, err_fname.getD nasl_name⟩
  let s := { s with def_func_tree := finfo :: s.def_func_tree }
  if lint_mode = 1 then
    match scan_params c0 [] with
    | some p =>
        DefRes.failed { s with diags := Diag.dupParam finfo.caller_file ln p sv :: s.diags }
    | none => DefRes.ok s
  else DefRes.ok s

/-- `nasl_lint_def`: loads function definitions and the call-site tree.
In mode 1 it registers only called definitions (skipping uncalled ones) and
rejects duplicate call parameters; in mode 0 it only re-declares every
definition it reaches, failing on a duplicate, and does not descend into
definition bodies. -/
def nasl_lint_def (env : Env) (lint_mode : Nat) (called_funcs : List String)
    (nasl_name : String) : tree_cell → Option String → St → DefRes
  | tree_cell.nil, _, s => DefRes.ok s
  | tree_cell.node ty sv ln c0 c1 c2 c3, err_fname, s =>
    match
      (if ty = NODE_FUN_CALL then
        nasl_lint_def_call env lint_mode nasl_name sv ln c0 err_fname s
      else DefRes.ok s) with
    | DefRes.failed s1 => DefRes.failed s1
    | DefRes.ok s1 =>
      if ty = NODE_FUN_DEF then
        if lint_mode = 0 then
          match decl_nasl_func (ctx_funcs 0 s1) sv 0 with
          | none => DefRes.failed { s1 with diags := Diag.redefFunc sv :: s1.diags }
          | some f => DefRes.ok (set_ctx_funcs 0 s1 f)
        else if memOpt sv called_funcs = false then DefRes.ok s1
        else
          let f := (decl_nasl_func (ctx_funcs lint_mode s1) sv lint_mode).getD
            (ctx_funcs lint_mode s1)
          let s2 := set_ctx_funcs lint_mode s1 f
          let s2 := { s2 with current_fun_def := sv }
          let incname := nasl_get_filename env s2.cur_file sv
          let s2 := { s2 with include_files := hash_replace s2.include_files incname false }
          let tmp := s2.cur_file
          let err2 := some incname
          match nasl_lint_def env lint_mode called_funcs nasl_name c0 err2 s2 with
          | DefRes.failed s3 => DefRes.failed s3
          | DefRes.ok s3 =>
            match nasl_lint_def env lint_mode called_funcs nasl_name c1 err2 s3 with
            | DefRes.failed s4 => DefRes.failed s4
            | DefRes.ok s4 =>
              match nasl_lint_def env lint_mode called_funcs nasl_name c2 err2 s4 with
              | DefRes.failed s5 => DefRes.failed s5
              | DefRes.ok s5 =>
                match nasl_lint_def env lint_mode called_funcs nasl_name c3 err2 s5 with
                | DefRes.failed s6 => DefRes.failed s6
                | DefRes.ok s6 => DefRes.ok { s6 with cur_file := tmp }
      else
        match nasl_lint_def env lint_mode called_funcs nasl_name c0 err_fname s1 with
        | DefRes.failed s3 => DefRes.failed s3
        | DefRes.ok s3 =>
          match nasl_lint_def env lint_mode called_funcs nasl_name c1 err_fname s3 with
          | DefRes.failed s4 => DefRes.failed s4
          | DefRes.ok s4 =>
            match nasl_lint_def env lint_mode called_funcs nasl_name c2 err_fname s4 with
            | DefRes.failed s5 => DefRes.failed s5
            | DefRes.ok s5 =>
              match nasl_lint_def env lint_mode called_funcs nasl_name c3 err_fname s5 with
              | DefRes.failed s6 => DefRes.failed s6
              | DefRes.ok s6 => DefRes.ok s6

/-- `reverse_search`: walk the caller chain of a recorded call site toward
the program entry.  Returns `some true` when a site recorded in the
top-level file (whose name does not end in ".inc") is reached, `some false`
when the chain stops (self-reference or no caller record), and `none` when
the recursion exceeds the fuel — the C function recursing beyond any depth
bound, i.e. not terminating. -/
def reverse_search (nasl_name : String) (tree : List func_info) :
    Nat → func_info → Option Bool
  | 0, _ => none
  | Nat.succ fuel, fdata =>
    if fdata.caller_file = nasl_name ∧ ¬ g_str_has_suffix nasl_name (".inc") then some true
    else if fdata.func_name = fdata.caller_func then some false
    else
      match find_custom1 tree fdata.caller_func with
      | some finfo =>
        match reverse_search nasl_name tree fuel finfo with
        | none => none
        | some true => some true
        | some false => some false
      | none => some false

/-- For an unresolved callee, switch the current filename to the one
recorded in `func_fnames_tab` (when a non-NULL one was recorded). -/
def call_fn_setfile (sv : Option String) (s : St) : St :=
  match sv with
  | some v =>
    match hash_lookup s.func_fnames_tab v with
    | some (some f) => { s with cur_file := f }
    | _ => s
  | none => s

/-- The undefined-function check of `nasl_lint_call`'s call case: for an
unresolved callee, switch the current filename to the recorded one, run
`reverse_search` from the most recent call-site record, and report an
undefined function when the chain reaches the program entry. -/
def call_fn_check (env : Env) (fuel : Nat) (nasl_name : String)
    (sv : Option String) (ln : Nat) (s : St) : Option DefRes :=
  if get_func_ref_by_name env s.aux_funcs sv then some (DefRes.ok s)
  else
    match find_custom1 (call_fn_setfile sv s).def_func_tree sv with
    | some finfo =>
      match reverse_search nasl_name (call_fn_setfile sv s).def_func_tree fuel finfo with
      | none => none
      | some true =>
          some (DefRes.failed
            { call_fn_setfile sv s with
              diags := Diag.undefFunc (call_fn_setfile sv s).cur_file ln sv ::
                (call_fn_setfile sv s).diags })
      | some false => some (DefRes.ok (call_fn_setfile sv s))
    | none => some (DefRes.ok (call_fn_setfile sv s))

/-- Mark the callee's owning include file used. -/
def call_fn_mark (env : Env) (sv : Option String) (s : St) : St :=
  match sv with
  | some v =>
    let fn := nasl_get_filename env s.cur_file (some v)
    match hash_lookup s.include_files fn with
    | some _ => { s with include_files := hash_replace s.include_files fn true }
    | none => s
  | none => s

/-- Arm the `defined_func` one-shot flag. -/
def call_fn_flag (sv : Option String) (s : St) : St :=
  if sv = some ("defined_func") then { s with defined_flag := true } else s

/-- The `NODE_FUN_CALL` case of `nasl_lint_call`: run the
undefined-function check, then the include marking and the `defined_func`
flag arming. -/
def nasl_lint_call_fn (env : Env) (fuel : Nat) (nasl_name : String)
    (sv : Option String) (ln : Nat) (s : St) : Option DefRes :=
  match call_fn_check env fuel nasl_name sv ln s with
  | none => none
  | some (DefRes.failed s1) => some (DefRes.failed s1)
  | some (DefRes.ok s1) =>
    some (DefRes.ok (call_fn_flag sv (call_fn_mark env sv s1)))

/-- `nasl_lint_call`: checks that every reachable called function is
defined.  Skips uncalled definition subtrees, handles the `defined_func`
one-shot registration on constants, and otherwise recurses over the four
children.  `none` is a run whose `reverse_search` exceeded the fuel. -/
def nasl_lint_call (env : Env) (fuel : Nat) (called_funcs : List String)
    (nasl_name : String) : tree_cell → St → Option DefRes
  | tree_cell.nil, s => some (DefRes.ok s)
  | tree_cell.node ty sv ln c0 c1 c2 c3, s =>
    if ty = NODE_FUN_DEF ∧ memOpt sv called_funcs = false then some (DefRes.ok s)
    else if ty = CONST_DATA ∨ ty = CONST_STR then
      if sv.isSome ∧ s.defined_flag then
        some (DefRes.ok { s with
          aux_funcs := (decl_nasl_func s.aux_funcs sv 1).getD s.aux_funcs,
          defined_flag := false })
      else some (DefRes.ok s)
    else
      match
        (if ty = NODE_FUN_CALL then nasl_lint_call_fn env fuel nasl_name sv ln s
         else some (DefRes.ok s)) with
      | none => none
      | some (DefRes.failed s1) => some (DefRes.failed s1)
      | some (DefRes.ok s1) =>
        match nasl_lint_call env fuel called_funcs nasl_name c0 s1 with
        | none => none
        | some (DefRes.failed s2) => some (DefRes.failed s2)
        | some (DefRes.ok s2) =>
          match nasl_lint_call env fuel called_funcs nasl_name c1 s2 with
          | none => none
          | some (DefRes.failed s3) => some (DefRes.failed s3)
          | some (DefRes.ok s3) =>
            match nasl_lint_call env fuel called_funcs nasl_name c2 s3 with
            | none => none
            | some (DefRes.failed s4) => some (DefRes.failed s4)
            | some (DefRes.ok s4) =>
              match nasl_lint_call env fuel called_funcs nasl_name c3 s4 with
              | none => none
              | some (DefRes.failed s5) => some (DefRes.failed s5)
              | some (DefRes.ok s5) => some (DefRes.ok s5)

/-- The per-node flag machine of `nasl_lint_defvar`: clears the
function/global one-shot flags, arms them on assignment, definition, local
and global nodes, registers defined variables, and reports a plain-variable
read whose name is in neither the defined list nor the local list. -/
def nasl_lint_defvar_step (ty : NodeType) (sv : Option String) (ln : Nat)
    (s : St) : DefRes :=
  let s :=
    if (s.defined_fn_mode || s.def_glob_var) ∧ ty ≠ NODE_DECL then
      { s with defined_fn_mode := false, def_glob_var := false }
    else s
  if (ty = NODE_AFF ∨ ty = EXPR_NOT ∨ ty = EXPR_INCR ∨ ty = NODE_PLUS_EQ)
      ∧ s.defined_var_mode = false then
    DefRes.ok { s with defined_var_mode := true }
  else if (ty = NODE_FUN_DEF ∨ ty = NODE_LOCAL) ∧ s.defined_fn_mode = false then
    DefRes.ok { s with defined_fn_mode := true }
  else if ty = NODE_GLOBAL then
    DefRes.ok { s with def_glob_var := true }
  else if (ty = NODE_VAR ∨ ty = NODE_ARRAY_EL)
      ∧ (s.defined_var_mode || s.defined_fn_mode) then
    match sv with
    | some v =>
        let s :=
          if s.local_var_list.contains v then s
          else { s with defined_var := v :: s.defined_var }
        DefRes.ok { s with defined_var_mode := false }
    | none => DefRes.ok s
  else if ty = NODE_DECL ∧ sv.isSome then
    let s :=
      if s.defined_fn_mode then
        { s with local_var_list := sv.getD default :: s.local_var_list }
      else s
    let s :=
      if s.def_glob_var then
        { s with defined_var := sv.getD default :: s.defined_var }
      else s
    DefRes.ok s
  else if ty = NODE_FOREACH then
    match sv with
    | some v => DefRes.ok { s with defined_var := v :: s.defined_var }
    | none => DefRes.ok s
  else if ty = NODE_VAR ∧ s.defined_var_mode = false then
    if memOpt sv s.defined_var || memOpt sv s.local_var_list then DefRes.ok s
    else DefRes.failed { s with diags := Diag.undeclVar s.cur_file ln sv :: s.diags }
  else DefRes.ok s

/-- `nasl_lint_defvar`: the variable-scope pass.  Skips uncalled definition
subtrees, runs the flag machine on each node, recurses over the children
and discards the local variable list when leaving a definition subtree. -/
def nasl_lint_defvar (env : Env) (called_funcs : List String)
    (nasl_name : String) : tree_cell → St → DefRes
  | tree_cell.nil, s => DefRes.ok s
  | tree_cell.node ty sv ln c0 c1 c2 c3, s =>
    if ty = NODE_FUN_DEF ∧ memOpt sv called_funcs = false then DefRes.ok s
    else
      match nasl_lint_defvar_step ty sv ln s with
      | DefRes.failed s1 => DefRes.failed s1
      | DefRes.ok s1 =>
        match nasl_lint_defvar env called_funcs nasl_name c0 s1 with
        | DefRes.failed s2 => DefRes.failed s2
        | DefRes.ok s2 =>
          match nasl_lint_defvar env called_funcs nasl_name c1 s2 with
          | DefRes.failed s3 => DefRes.failed s3
          | DefRes.ok s3 =>
            match nasl_lint_defvar env called_funcs nasl_name c2 s3 with
            | DefRes.failed s4 => DefRes.failed s4
            | DefRes.ok s4 =>
              match nasl_lint_defvar env called_funcs nasl_name c3 s4 with
              | DefRes.failed s5 => DefRes.failed s5
              | DefRes.ok s5 =>
                DefRes.ok
                  (if ty = NODE_FUN_DEF then { s5 with local_var_list := [] } else s5)

/-- `make_call_func_list`: prepend the name of every called function that
does not resolve against the fresh context (i.e. is not a builtin). -/
def make_call_func_list (env : Env) (aux_funcs : List String) :
    tree_cell → List String → List String
  | tree_cell.nil, acc => acc
  | tree_cell.node ty sv _ c0 c1 c2 c3, acc =>
    let acc :=
      if ty = NODE_FUN_CALL then
        match sv with
        | some v =>
            if get_func_ref_by_name env aux_funcs sv then acc else v :: acc
        | none => acc
      else acc
    make_call_func_list env aux_funcs c3
      (make_call_func_list env aux_funcs c2
        (make_call_func_list env aux_funcs c1
          (make_call_func_list env aux_funcs c0 acc)))

/-- `check_called_files` over the whole table: the include files still
marked unused ("NO"), in table order. -/
def unusedOf (inc : List (String × Bool)) : List String :=
  (inc.filter (fun kv => kv.2 = false)).map (fun kv => kv.1)

/-- The outcome of one `nasl_lint` invocation: the verdict, the diagnostic
sink (most recent first), the static state left behind for the next
invocation, and the process-wide `nasl_name`. -/
structure LintOut where
  success : Bool
  diags : List Diag
  statics : Statics
  nasl_name : String
deriving Repr, DecidableEq

/-- Project the surviving statics out of the run state. -/
def staticsOf (s : St) : Statics :=
  ⟨s.current_fun_def, s.defined_flag, s.defined_fn_mode, s.defined_var_mode,
   s.def_glob_var, s.local_var_list⟩

/-- Package a verdict. -/
def mkOut (b : Bool) (s : St) (nn : String) : LintOut :=
  ⟨b, s.diags, staticsOf s, nn⟩

/-- The fresh per-invocation state of `nasl_lint`: empty tables, a fresh
`lexic_aux` context, plus the incoming statics and external state. -/
def initSt (out_funcs0 : List String) (st0 : Statics) (cur_file0 : String) : St :=
  ⟨[], out_funcs0, cur_file0, [], [], [], [], [], st0.current_fun_def,
   st0.defined_flag, st0.defined_fn_mode, st0.defined_var_mode,
   st0.def_glob_var, st0.local_var_list⟩

/-- The string payload of the root node, handed to `nasl_get_filename` to
compute `nasl_name` at the start of each run. -/
def rootSv : tree_cell → Option String
  | tree_cell.nil => none
  | tree_cell.node _ sv _ _ _ _ _ => sv

/-- `nasl_lint`: the orchestrator.  Overwrites `nasl_name`, builds fresh
tables, then runs the five passes in order, short-circuiting on the first
failing pass; unused-include diagnostics are batched.  `none` is a run on
which `reverse_search` exceeded the fuel at some call site. -/
def nasl_lint (env : Env) (fuel : Nat) (st : tree_cell)
    (out_funcs0 : List String) (st0 : Statics) (cur_file0 : String) :
    Option LintOut :=
  let nn := nasl_get_filename env cur_file0 (rootSv st)
  let s0 := initSt out_funcs0 st0 cur_file0
  let called := make_call_func_list env [] st []
  match nasl_lint_def env 1 called nn st none s0 with
  | DefRes.failed s1 => some (mkOut false s1 nn)
  | DefRes.ok s1 =>
    match nasl_lint_call env fuel called nn st s1 with
    | none => none
    | some (DefRes.failed s2) => some (mkOut false s2 nn)
    | some (DefRes.ok s2) =>
      let unused := unusedOf s2.include_files
      if unused ≠ [] then
        some (mkOut false
          { s2 with diags := unused.map Diag.unusedInc ++ s2.diags } nn)
      else
        match nasl_lint_def env 0 called nn st none s2 with
        | DefRes.failed s3 => some (mkOut false s3 nn)
        | DefRes.ok s3 =>
          let s4 := { s3 with defined_var := add_predef_varname env }
          match nasl_lint_defvar env called nn st s4 with
          | DefRes.failed s5 => some (mkOut false s5 nn)
          | DefRes.ok s5 => some (mkOut true s5 nn)

/-- The verdict of a run, `false` also for a diverging run. -/
def runSuccess (r : Option LintOut) : Bool :=
  match r with
  | some o => o.success
  | none => false

/-- The diagnostics of a run. -/
def runDiags (r : Option LintOut) : List Diag :=
  match r with
  | some o => o.diags
  | none => []

/-- The statics left behind by a run (the incoming ones if it diverged). -/
def runStatics (r : Option LintOut) (d : Statics) : Statics :=
  match r with
  | some o => o.statics
  | none => d

/-! ## Structural predicates over syntax trees used to state the claims -/

/-- The names of all call nodes anywhere in the tree. -/
def callNames : tree_cell → List (Option String)
  | tree_cell.nil => []
  | tree_cell.node ty sv _ c0 c1 c2 c3 =>
    (if ty = NODE_FUN_CALL then [sv] else []) ++
      callNames c0 ++ callNames c1 ++ callNames c2 ++ callNames c3

/-- The names of all function-definition nodes anywhere in the tree. -/
def defNames : tree_cell → List (Option String)
  | tree_cell.nil => []
  | tree_cell.node ty sv _ c0 c1 c2 c3 =>
    (if ty = NODE_FUN_DEF then [sv] else []) ++
      defNames c0 ++ defNames c1 ++ defNames c2 ++ defNames c3

/-- The names of the call nodes the definition pass reaches when every
definition subtree is skipped: calls not nested inside any
function-definition subtree. -/
def topCallNamesD : tree_cell → List (Option String)
  | tree_cell.nil => []
  | tree_cell.node ty sv _ c0 c1 c2 c3 =>
    if ty = NODE_FUN_DEF then []
    else
      (if ty = NODE_FUN_CALL then [sv] else []) ++
        topCallNamesD c0 ++ topCallNamesD c1 ++ topCallNamesD c2 ++ topCallNamesD c3

/-- The names of the call nodes the call-validation pass reaches when every
definition subtree is skipped: calls not nested inside any
function-definition subtree nor inside a constant node (whose children the
call pass does not visit). -/
def topCallNamesC : tree_cell → List (Option String)
  | tree_cell.nil => []
  | tree_cell.node ty sv _ c0 c1 c2 c3 =>
    if ty = NODE_FUN_DEF then []
    else if ty = CONST_DATA ∨ ty = CONST_STR then []
    else
      (if ty = NODE_FUN_CALL then [sv] else []) ++
        topCallNamesC c0 ++ topCallNamesC c1 ++ topCallNamesC c2 ++ topCallNamesC c3

/-- The definition names the duplicate-check pass (lint mode 0) actually
visits: definitions not nested inside another definition's body, in
traversal order, dropping NULL names (whose registration is a no-op). -/
def visibleDefs : tree_cell → List String
  | tree_cell.nil => []
  | tree_cell.node ty sv _ c0 c1 c2 c3 =>
    if ty = NODE_FUN_DEF then sv.toList
    else visibleDefs c0 ++ visibleDefs c1 ++ visibleDefs c2 ++ visibleDefs c3

/-- Every function-definition node reached from the root without entering
another definition is skipped by the reachability-gated passes (its name is
not in the called set). -/
def topDefsSkipped (called : List String) : tree_cell → Bool
  | tree_cell.nil => true
  | tree_cell.node ty sv _ c0 c1 c2 c3 =>
    if ty = NODE_FUN_DEF then !(memOpt sv called)
    else
      topDefsSkipped called c0 && topDefsSkipped called c1 &&
        topDefsSkipped called c2 && topDefsSkipped called c3

/-- The call names the call-validation pass visits under its reachability
gating: definition subtrees whose name is not in the called set are
skipped, and constants are not descended into. -/
def visitedCallNamesC (called : List String) : tree_cell → List (Option String)
  | tree_cell.nil => []
  | tree_cell.node ty sv _ c0 c1 c2 c3 =>
    if ty = NODE_FUN_DEF ∧ memOpt sv called = false then []
    else if ty = CONST_DATA ∨ ty = CONST_STR then []
    else
      (if ty = NODE_FUN_CALL then [sv] else []) ++
        visitedCallNamesC called c0 ++ visitedCallNamesC called c1 ++
        visitedCallNamesC called c2 ++ visitedCallNamesC called c3

/-- The call names reachable without entering any definition named `a`. -/
def callsNotUnderDef (a : String) : tree_cell → List (Option String)
  | tree_cell.nil => []
  | tree_cell.node ty sv _ c0 c1 c2 c3 =>
    if ty = NODE_FUN_DEF ∧ sv = some a then []
    else
      (if ty = NODE_FUN_CALL then [sv] else []) ++
        callsNotUnderDef a c0 ++ callsNotUnderDef a c1 ++
        callsNotUnderDef a c2 ++ callsNotUnderDef a c3

/-- Some call node visited by the mode-1 definition pass (under its
reachability gating) has a repeated argument identifier. -/
def hasVisitedDupCall (called : List String) : tree_cell → Bool
  | tree_cell.nil => false
  | tree_cell.node ty sv _ c0 c1 c2 c3 =>
    if ty = NODE_FUN_DEF ∧ memOpt sv called = false then false
    else
      (if ty = NODE_FUN_CALL then (scan_params c0 []).isSome else false) ||
        hasVisitedDupCall called c0 || hasVisitedDupCall called c1 ||
        hasVisitedDupCall called c2 || hasVisitedDupCall called c3

/-- No call node outside any definition subtree has repeated parameters. -/
def dupFreeOutsideDefs : tree_cell → Bool
  | tree_cell.nil => true
  | tree_cell.node ty _ _ c0 c1 c2 c3 =>
    if ty = NODE_FUN_DEF then true
    else
      (if ty = NODE_FUN_CALL then (scan_params c0 []).isNone else true) &&
        dupFreeOutsideDefs c0 && dupFreeOutsideDefs c1 &&
        dupFreeOutsideDefs c2 && dupFreeOutsideDefs c3

/-- The call-site records the mode-1 definition pass produces for a tree in
which every definition is skipped: one record per top-level call, with the
static caller marker and the top-level file. -/
def topCallRecs (nn : String) (cfd : Option String) (t : tree_cell) :
    List func_info :=
  (topCallNamesD t).map (fun sv => ⟨sv, cfd, nn⟩)

/-- Is a diagnostic an UndefinedFunction report? -/
def diagIsUndef : Diag → Bool
  | Diag.undefFunc _ _ _ => true
  | _ => false

/-- Is a diagnostic an UndefinedFunction report naming `b`? -/
def diagNamesUndef (b : String) : Diag → Bool
  | Diag.undefFunc _ _ sv => sv = some b
  | _ => false

/-- The `nasl_name` of a run. -/
def runName (r : Option LintOut) : Option String :=
  Option.map LintOut.nasl_name r

/-! ## Concrete scripts and environments used as counterexamples and
witnesses -/

/-- A childless tree node. -/
def leaf (ty : NodeType) (sv : Option String) (ln : Nat) : tree_cell :=
  tree_cell.node ty sv ln tree_cell.nil tree_cell.nil tree_cell.nil tree_cell.nil

/-- A generic statement-sequence node with three children. -/
def seq3 (a b c : tree_cell) : tree_cell :=
  tree_cell.node NODE_OTHER none 0 a b c tree_cell.nil

/-- An environment with no builtins and no include attribution. -/
def envP : Env := ⟨fun _ => false, fun _ => none, []⟩

/-- The environment of the C1 counterexample: no builtins; `g`, `h`, `k`
are attributed to the include file "x.inc". -/
def envC1 : Env :=
  ⟨fun _ => false,
   fun n => if n = ("g") ∨ n = ("h") ∨ n = ("k") then some ("x.inc") else none,
   []⟩

/-- Include-file definition `function g() { b(); }`. -/
def defG : tree_cell :=
  tree_cell.node NODE_FUN_DEF (some ("g")) 3 tree_cell.nil
    (leaf NODE_FUN_CALL (some ("b")) 3) tree_cell.nil tree_cell.nil

/-- Include-file definition `function h() { g(); }`; `h` is never called. -/
def defH : tree_cell :=
  tree_cell.node NODE_FUN_DEF (some ("h")) 4 tree_cell.nil
    (leaf NODE_FUN_CALL (some ("g")) 4) tree_cell.nil tree_cell.nil

/-- Include-file definition `function k() { }`. -/
def defK : tree_cell :=
  tree_cell.node NODE_FUN_DEF (some ("k")) 5 tree_cell.nil
    tree_cell.nil tree_cell.nil tree_cell.nil

/-- The C1 counterexample script: top-level `b(); k();` followed by the
include-file definitions of `g`, `h`, `k`.  `b` is undefined and called at
top level, but the most recent call-site record for `b` is the one inside
`g`, whose caller chain dead-ends at the uncalled `h`. -/
def TC1 : tree_cell :=
  seq3 (leaf NODE_FUN_CALL (some ("b")) 1)
       (leaf NODE_FUN_CALL (some ("k")) 2)
       (seq3 defG defH defK)

/-- A call `f(a: 1, a: 2);` with a repeated named argument. -/
def dupCall : tree_cell :=
  tree_cell.node NODE_FUN_CALL (some ("f")) 2
    (tree_cell.node NODE_ARG (some ("a")) 2 tree_cell.nil
      (leaf NODE_ARG (some ("a")) 2) tree_cell.nil tree_cell.nil)
    tree_cell.nil tree_cell.nil tree_cell.nil

/-- The C4 counterexample: the duplicate-parameter call occurs only inside
the body of `dead`, which is never called. -/
def TC4 : tree_cell :=
  tree_cell.node NODE_FUN_DEF (some ("dead")) 1 tree_cell.nil dupCall
    tree_cell.nil tree_cell.nil

/-- The C3 counterexample: `x` is defined twice, once nested inside the
body of `a` and once at top level; the mode-0 pass never reaches the
nested one. -/
def TC3 : tree_cell :=
  seq3 (tree_cell.node NODE_FUN_DEF (some ("a")) 1 tree_cell.nil
          (leaf NODE_FUN_DEF (some ("x")) 2) tree_cell.nil tree_cell.nil)
       (leaf NODE_FUN_DEF (some ("x")) 3)
       tree_cell.nil

/-- The C5 counterexample: a top-level array-element read `y[..]` of a name
never assigned, declared or predefined. -/
def TC5 : tree_cell := leaf NODE_ARRAY_EL (some ("y")) 1

/-- The environment of the C6 examples: `g` owned by "x.inc". -/
def envC6 : Env :=
  ⟨fun _ => false, fun n => if n = ("g") then some ("x.inc") else none, []⟩

/-- Include "x.inc" (defining `g`), call `g()` — and also read the
undeclared variable `y`. -/
def TC6 : tree_cell :=
  seq3 (leaf NODE_FUN_DEF (some ("g")) 1)
       (leaf NODE_FUN_CALL (some ("g")) 2)
       (leaf NODE_VAR (some ("y")) 3)

/-- Include "x.inc" (defining `g`), call `g()` and nothing else. -/
def TC6ok : tree_cell :=
  seq3 (leaf NODE_FUN_DEF (some ("g")) 1)
       (leaf NODE_FUN_CALL (some ("g")) 2)
       tree_cell.nil

/-- The environment of the C7/C8 runs: only `defined_func` is a builtin. -/
def envC7 : Env := ⟨fun n => n = ("defined_func"), fun _ => none, []⟩

/-- The C7/C8 script: `x = "b"; defined_func(); b();`.  The first run ends
in the call pass with `defined_flag` still armed; the leftover static makes
a second identical run register `b` from the constant and succeed. -/
def TC7 : tree_cell :=
  seq3 (tree_cell.node NODE_AFF none 1
         (leaf NODE_VAR (some ("x")) 1)
         (leaf CONST_STR (some ("b")) 1) tree_cell.nil tree_cell.nil)
       (leaf NODE_FUN_CALL (some ("defined_func")) 2)
       (leaf NODE_FUN_CALL (some ("b")) 3)

/-- The example script of the spec: `function a() { b(); }` with `b`
undefined and `a` never called. -/
def Tex : tree_cell :=
  tree_cell.node NODE_FUN_DEF (some ("a")) 1 tree_cell.nil
    (leaf NODE_FUN_CALL (some ("b")) 1) tree_cell.nil tree_cell.nil

/-- The spec's example extended with a top-level call `a();`. -/
def TexCalled : tree_cell :=
  seq3 Tex (leaf NODE_FUN_CALL (some ("a")) 2) tree_cell.nil

/-- The C2 counterexample: the dead-code-tolerance scenario of the spec's
example, plus an unrelated read of the undeclared variable `y`. -/
def TexBad : tree_cell :=
  seq3 Tex (leaf NODE_VAR (some ("y")) 2) tree_cell.nil

/-- The diverging `reverse_search` instance: call-site records for the
two-hop mutual recursion `f() { g(); b(); }`, `g() { f(); }` inside the
include file "x.inc", with no caller reaching the top-level file. -/
def recB : func_info := ⟨some ("b"), some ("f"), "x.inc"⟩

/-- Record of the call `g()` made from `f`. -/
def recF : func_info := ⟨some ("f"), some ("g"), "x.inc"⟩

/-- Record of the call `f()` made from `g`. -/
def recG : func_info := ⟨some ("g"), some ("f"), "x.inc"⟩

/-- The call-site list containing the two-hop cycle. -/
def LC9 : List func_info := [recB, recF, recG]

/-- `reverse_search` on this list and start record exceeds every recursion
bound: the C function does not terminate on it. -/
def rsDiverges (nn : String) (l : List func_info) (r : func_info) : Prop :=
  ∀ n, reverse_search nn l n r = none

/-! ## Helper lemmas on `reverse_search` -/

/-- Collapsing the result match in the recursive case of `reverse_search`. -/
theorem rs_match_id (o : Option Bool) :
    (match o with
     | none => (none : Option Bool)
     | some true => some true
     | some false => some false) = o := by
  cases o with
  | none => rfl
  | some b => cases b <;> rfl

/-- One unfolding step of `reverse_search`. -/
theorem reverse_search_succ (nn : String) (tree : List func_info) (n : Nat)
    (fdata : func_info) :
    reverse_search nn tree (n + 1) fdata =
      (if fdata.caller_file = nn ∧ ¬ g_str_has_suffix nn (".inc") then some true
       else if fdata.func_name = fdata.caller_func then some false
       else
         match find_custom1 tree fdata.caller_func with
         | some finfo => reverse_search nn tree n finfo
         | none => some false) := by
  show (if fdata.caller_file = nn ∧ ¬ g_str_has_suffix nn (".inc") then some true
       else if fdata.func_name = fdata.caller_func then some false
       else
         match find_custom1 tree fdata.caller_func with
         | some finfo =>
           match reverse_search nn tree n finfo with
           | none => none
           | some true => some true
           | some false => some false
         | none => some false) = _
  cases h : find_custom1 tree fdata.caller_func with
  | none => rfl
  | some finfo => simp only [rs_match_id]

/-- On the cyclic list `LC9`, the search starting from either cycle record
runs out of any fuel. -/
theorem rs_cycle_aux (n : Nat) :
    reverse_search ("t.nasl") LC9 n recF = none ∧
      reverse_search ("t.nasl") LC9 n recG = none := by
  induction n with
  | zero => exact ⟨rfl, rfl⟩
  | succ n ih =>
    constructor
    · rw [reverse_search_succ]
      rw [if_neg (by decide), if_neg (by decide)]
      have h : find_custom1 LC9 recF.caller_func = some recG := by decide
      rw [h]
      exact ih.2
    · rw [reverse_search_succ]
      rw [if_neg (by decide), if_neg (by decide)]
      have h : find_custom1 LC9 recG.caller_func = some recF := by decide
      rw [h]
      exact ih.1

/-! ## Counterexample and code-bug theorems (concrete runs) -/

/-- C1 counterexample: `TC1` contains a top-level call to `b`, `b` is
neither a builtin nor defined anywhere, and the top-level file is not an
include, yet the analysis succeeds — the most recent call-site record for
`b` sits inside `g`, whose only caller `h` is dead code, so
`reverse_search` never reaches the program entry. -/
theorem C1_counterexample :
    some ("b") ∈ topCallNamesC TC1 ∧ envC1.builtins ("b") = false ∧
      some ("b") ∉ defNames TC1 ∧ g_str_has_suffix ("t.nasl") (".inc") = false ∧
      runSuccess (nasl_lint envC1 3 TC1 [] initStatics ("t.nasl")) = true := by
  decide

/-- C2 counterexample: in `TexBad`, `a` is defined and never called, the
only call to the undefined non-builtin `b` is inside `a`'s body, yet the
verdict is not success (an unrelated undeclared-variable read fails the
script), contradicting the claim's "the analyzer's verdict is success". -/
theorem C2_counterexample :
    some ("a") ∉ callNames TexBad ∧ envP.builtins ("b") = false ∧
      some ("b") ∉ defNames TexBad ∧
      some ("b") ∉ callsNotUnderDef ("a") TexBad ∧
      some ("b") ∈ callNames TexBad ∧
      runSuccess (nasl_lint envP 3 TexBad [] initStatics ("script.nasl")) = false := by
  decide

/-- C3 counterexample: `TC3` declares `x` twice, but one definition is
nested inside the body of `a`, which the mode-0 pass does not enter; the
whole analysis succeeds instead of failing with
DuplicateFunctionDefinition. -/
theorem C3_counterexample :
    ¬ (defNames TC3).Nodup ∧
      runSuccess (nasl_lint envP 3 TC3 [] initStatics ("t.nasl")) = true := by
  decide

/-- C4 counterexample: `TC4` contains the call `f(a: 1, a: 2)` with a
repeated argument identifier, but the call sits inside the body of the
never-called `dead`, which the mode-1 pass skips; the analysis succeeds
instead of failing with DuplicateCallParameter. -/
theorem C4_counterexample :
    (scan_params (tree_cell.node NODE_ARG (some ("a")) 2 tree_cell.nil
        (leaf NODE_ARG (some ("a")) 2) tree_cell.nil tree_cell.nil) []).isSome = true ∧
      runSuccess (nasl_lint envP 3 TC4 [] initStatics ("t.nasl")) = true := by
  decide

/-- C5 counterexample: a top-level array-element read of `y`, a name in
none of the three sets, is accepted — the read check of
`nasl_lint_defvar` fires for `NODE_VAR` only, never for `NODE_ARRAY_EL`. -/
theorem C5_counterexample :
    memOpt (some ("y")) (add_predef_varname envP) = false ∧
      runSuccess (nasl_lint envP 3 TC5 [] initStatics ("t.nasl")) = true := by
  decide

/-- C6 counterexample: `TC6` includes "x.inc" and calls its function `g`,
but the verdict is not acceptance — an unrelated undeclared-variable read
fails the script, contradicting the claim's unconditional "yields
acceptance". -/
theorem C6_counterexample :
    some ("g") ∈ callNames TC6 ∧ envC6.fileOf ("g") = some ("x.inc") ∧
      runSuccess (nasl_lint envC6 3 TC6 [] initStatics ("t.nasl")) = false := by
  decide

/-- C7: two consecutive invocations on the unchanged tree `TC7` return
different verdicts.  The first run fails with UndefinedFunction for `b`
and leaves the static `defined_flag` armed (the script ends after a
`defined_func` call with no following constant); the second run consumes
the leftover flag at the constant "b", registers `b`, and succeeds. -/
theorem C7_two_runs_differ :
    runSuccess (nasl_lint envC7 3 TC7 [] initStatics ("t.nasl")) = false ∧
      (runDiags (nasl_lint envC7 3 TC7 [] initStatics ("t.nasl"))).any
        (diagNamesUndef ("b")) = true ∧
      runSuccess (nasl_lint envC7 3 TC7 []
        (runStatics (nasl_lint envC7 3 TC7 [] initStatics ("t.nasl")) initStatics)
        ("t.nasl")) = true := by
  decide

/-- C8 counterexample: after the run of `TC7` the process-wide static state
differs from the pristine state — `defined_flag` survives armed — so the
top-level file name is not the only state surviving the invocation. -/
theorem C8_counterexample :
    (runStatics (nasl_lint envC7 3 TC7 [] initStatics ("t.nasl"))
        initStatics).defined_flag = true ∧
      initStatics.defined_flag = false := by
  decide

/-- C9 counterexample: on the finite call-site list `LC9`, whose records
form the two-hop mutual-recursion cycle `f → g → f` among functions not
reaching the program entry, `reverse_search` started at the record for `b`
exceeds every recursion bound — the C function does not terminate on it. -/
theorem C9_counterexample : rsDiverges ("t.nasl") LC9 recB := by
  intro n
  cases n with
  | zero => rfl
  | succ n =>
    rw [reverse_search_succ]
    rw [if_neg (by decide), if_neg (by decide)]
    have h : find_custom1 LC9 recB.caller_func = some recF := by decide
    rw [h]
    exact (rs_cycle_aux n).1

/-! ## Projections on pass results, used by witnesses -/

/-- Did the pass fail? -/
def resFailed (r : DefRes) : Bool :=
  match r with
  | DefRes.failed _ => true
  | DefRes.ok _ => false

/-- The diagnostic sink after a pass. -/
def resDiags (r : DefRes) : List Diag :=
  match r with
  | DefRes.failed s => s.diags
  | DefRes.ok s => s.diags

/-! ## C8: what survives one invocation -/

/-- C8 (amended, provable part): `nasl_name` is overwritten at the start of
every run — whatever the incoming state, the surviving `nasl_name` of any
completed run is the resolver applied to the root payload and the current
filename.  (The claim's "only surviving state" part is refuted by
`C8_counterexample`: the six function-local statics survive as well.) -/
theorem C8_amended (env : Env) (fuel : Nat) (t : tree_cell) (F0 : List String)
    (st0 : Statics) (cf : String) (out : LintOut)
    (h : nasl_lint env fuel t F0 st0 cf = some out) :
    out.nasl_name = nasl_get_filename env cf (rootSv t) := by
  unfold nasl_lint at h
  simp only [mkOut] at h
  repeat' split at h
  all_goals (try exact Option.noConfusion h)
  all_goals (injection h with h; subst h; rfl)

/-- Witness for C8: on the empty script with fresh statics, the surviving
`nasl_name` is the current filename handed to the run. -/
theorem C8_amended_witness :
    runName (nasl_lint envP 1 tree_cell.nil [] initStatics ("f.nasl")) =
      some ("f.nasl") := by
  cases h : nasl_lint envP 1 tree_cell.nil [] initStatics ("f.nasl") with
  | none =>
    exact absurd h (by decide)
  | some out =>
    have h2 := C8_amended envP 1 tree_cell.nil [] initStatics ("f.nasl") out h
    simp [runName, h2, nasl_get_filename, rootSv]

/-! ## C5: the variable-scope read check -/

/-- An armed-flag-free plain-variable read of an unknown name fails at the
node, before any child is visited. -/
theorem C5_var_read_fails (env : Env) (called : List String) (nn : String)
    (y : String) (ln : Nat) (c0 c1 c2 c3 : tree_cell) (s : St)
    (hm : s.defined_var_mode = false)
    (h1 : memOpt (some y) s.defined_var = false)
    (h2 : memOpt (some y) s.local_var_list = false) :
    ∃ s1, nasl_lint_defvar env called nn
        (tree_cell.node NODE_VAR (some y) ln c0 c1 c2 c3) s = DefRes.failed s1 ∧
      s1.diags = Diag.undeclVar s.cur_file ln (some y) :: s.diags := by
  by_cases hc : (s.defined_fn_mode || s.def_glob_var : Bool) = true
  · refine ⟨{ s with defined_fn_mode := false, def_glob_var := false, diags := Diag.undeclVar s.cur_file ln (some y) :: s.diags }, ?_, ?_⟩ <;>
      simp [nasl_lint_defvar, nasl_lint_defvar_step, hc, hm, h1, h2]
  · have hfn : s.defined_fn_mode = false := by
      cases hfn : s.defined_fn_mode <;> simp_all
    have hgl : s.def_glob_var = false := by
      cases hgl : s.def_glob_var <;> simp_all
    refine ⟨{ s with diags := Diag.undeclVar s.cur_file ln (some y) :: s.diags }, ?_, ?_⟩ <;>
      simp [nasl_lint_defvar, nasl_lint_defvar_step, hfn, hgl, hm, h1, h2]

/-- An armed-flag-free plain-variable read of a name present in the defined
list (globals and predefined identifiers) or the local list passes the node
without emitting anything. -/
theorem C5_var_read_ok (env : Env) (called : List String) (nn : String)
    (y : String) (ln : Nat) (s : St)
    (hm : s.defined_var_mode = false)
    (h1 : memOpt (some y) s.defined_var = true ∨ memOpt (some y) s.local_var_list = true) :
    ∃ s1, nasl_lint_defvar env called nn (leaf NODE_VAR (some y) ln) s = DefRes.ok s1 ∧
      s1.diags = s.diags := by
  have hor : (memOpt (some y) s.defined_var || memOpt (some y) s.local_var_list : Bool) = true := by
    rcases h1 with h1 | h1 <;> simp [h1]
  by_cases hc : (s.defined_fn_mode || s.def_glob_var : Bool) = true
  · refine ⟨{ s with defined_fn_mode := false, def_glob_var := false }, ?_, ?_⟩ <;>
      simp [nasl_lint_defvar, leaf, nasl_lint_defvar_step, hc, hm, hor]
  · have hfn : s.defined_fn_mode = false := by
      cases hfn : s.defined_fn_mode <;> simp_all
    have hgl : s.def_glob_var = false := by
      cases hgl : s.def_glob_var <;> simp_all
    refine ⟨s, ?_, ?_⟩ <;>
      simp [nasl_lint_defvar, leaf, nasl_lint_defvar_step, hfn, hgl, hm, hor]

/-- An armed-flag-free array-element read is never checked: whatever the
name, the pass continues without emitting anything. -/
theorem C5_array_read_ok (env : Env) (called : List String) (nn : String)
    (sv : Option String) (ln : Nat) (s : St)
    (hm : s.defined_var_mode = false) :
    ∃ s1, nasl_lint_defvar env called nn (leaf NODE_ARRAY_EL sv ln) s = DefRes.ok s1 ∧
      s1.diags = s.diags := by
  by_cases hc : (s.defined_fn_mode || s.def_glob_var : Bool) = true
  · refine ⟨{ s with defined_fn_mode := false, def_glob_var := false }, ?_, ?_⟩ <;>
      cases sv <;> simp [nasl_lint_defvar, leaf, nasl_lint_defvar_step, hc, hm]
  · have hfn : s.defined_fn_mode = false := by
      cases hfn : s.defined_fn_mode <;> simp_all
    have hgl : s.def_glob_var = false := by
      cases hgl : s.def_glob_var <;> simp_all
    refine ⟨s, ?_, ?_⟩ <;>
      cases sv <;> simp [nasl_lint_defvar, leaf, nasl_lint_defvar_step, hfn, hgl, hm]

/-- C5 (amended): in the variable-scope pass, a plain-variable (`NODE_VAR`)
read reached with no assignment flag armed fails immediately with
UndeclaredVariable at the read's line when its name is in neither the
defined list (global scope plus predefined identifiers) nor the local
list, and never fails when the name is present; array-element
(`NODE_ARRAY_EL`) reads, however, are never checked. -/
theorem C5_amended :
    (∀ (env : Env) (called : List String) (nn y : String) (ln : Nat)
       (c0 c1 c2 c3 : tree_cell) (s : St), s.defined_var_mode = false →
       memOpt (some y) s.defined_var = false →
       memOpt (some y) s.local_var_list = false →
       ∃ s1, nasl_lint_defvar env called nn
           (tree_cell.node NODE_VAR (some y) ln c0 c1 c2 c3) s = DefRes.failed s1 ∧
         s1.diags = Diag.undeclVar s.cur_file ln (some y) :: s.diags) ∧
    (∀ (env : Env) (called : List String) (nn y : String) (ln : Nat) (s : St),
       s.defined_var_mode = false →
       (memOpt (some y) s.defined_var = true ∨ memOpt (some y) s.local_var_list = true) →
       ∃ s1, nasl_lint_defvar env called nn (leaf NODE_VAR (some y) ln) s = DefRes.ok s1 ∧
         s1.diags = s.diags) ∧
    (∀ (env : Env) (called : List String) (nn : String) (sv : Option String)
       (ln : Nat) (s : St), s.defined_var_mode = false →
       ∃ s1, nasl_lint_defvar env called nn (leaf NODE_ARRAY_EL sv ln) s = DefRes.ok s1 ∧
         s1.diags = s.diags) :=
  ⟨fun env called nn y ln c0 c1 c2 c3 s hm h1 h2 =>
      C5_var_read_fails env called nn y ln c0 c1 c2 c3 s hm h1 h2,
   fun env called nn y ln s hm h1 => C5_var_read_ok env called nn y ln s hm h1,
   fun env called nn sv ln s hm => C5_array_read_ok env called nn sv ln s hm⟩

/-- Witness for C5: a read of the unknown `y` fails, the same read with `y`
in the defined list passes, and the array-element read of unknown `y`
passes. -/
theorem C5_amended_witness :
    resFailed (nasl_lint_defvar envP [] ("t.nasl") (leaf NODE_VAR (some ("y")) 1)
        (initSt [] initStatics ("f.nasl"))) = true ∧
      resFailed (nasl_lint_defvar envP [] ("t.nasl") (leaf NODE_VAR (some ("y")) 1)
        { initSt [] initStatics ("f.nasl") with defined_var := [("y")] }) = false ∧
      resFailed (nasl_lint_defvar envP [] ("t.nasl") (leaf NODE_ARRAY_EL (some ("y")) 1)
        (initSt [] initStatics ("f.nasl"))) = false := by
  obtain ⟨s1, h1, -⟩ := C5_amended.1 envP [] ("t.nasl") ("y") 1
    tree_cell.nil tree_cell.nil tree_cell.nil tree_cell.nil
    (initSt [] initStatics ("f.nasl")) rfl (by decide) (by decide)
  obtain ⟨s2, h2, -⟩ := C5_amended.2.1 envP [] ("t.nasl") ("y") 1
    { initSt [] initStatics ("f.nasl") with defined_var := [("y")] } rfl
    (Or.inl (by decide))
  obtain ⟨s3, h3, -⟩ := C5_amended.2.2 envP [] ("t.nasl") (some ("y")) 1
    (initSt [] initStatics ("f.nasl")) rfl
  refine ⟨?_, ?_, ?_⟩
  · rw [show leaf NODE_VAR (some ("y")) 1 =
      tree_cell.node NODE_VAR (some ("y")) 1 tree_cell.nil tree_cell.nil
        tree_cell.nil tree_cell.nil from rfl, h1]
    rfl
  · rw [h2]
    rfl
  · rw [h3]
    rfl

/-! ## C6: batched unused-include failure -/

/-- Include "x.inc" (defining `g`), where `g` is called only from the dead
function `h`: the definition pass still registers "x.inc" (because `g` is
in the called set), but no visited call resolves into it. -/
def TC6unused : tree_cell :=
  seq3 (leaf NODE_FUN_DEF (some ("g")) 1)
       (tree_cell.node NODE_FUN_DEF (some ("h")) 2 tree_cell.nil
         (leaf NODE_FUN_CALL (some ("g")) 2) tree_cell.nil tree_cell.nil)
       tree_cell.nil

/-- C6 (amended): when the definition and call-validation passes complete
and some tracked include file is still marked unused, the analyzer emits
one UnusedIncludeFile diagnostic per unused file — batched after those
passes rather than at detection — and the whole analysis fails; and
including a file and calling one of its functions yields acceptance when
the remaining passes also pass (e.g. the minimal include-and-call script
`TC6ok`). -/
theorem C6_amended :
    (∀ (env : Env) (fuel : Nat) (t : tree_cell) (F0 : List String)
       (st0 : Statics) (cf : String) (s1 s2 : St),
       nasl_lint_def env 1 (make_call_func_list env [] t [])
           (nasl_get_filename env cf (rootSv t)) t none (initSt F0 st0 cf) =
           DefRes.ok s1 →
       nasl_lint_call env fuel (make_call_func_list env [] t [])
           (nasl_get_filename env cf (rootSv t)) t s1 = some (DefRes.ok s2) →
       unusedOf s2.include_files ≠ [] →
       runSuccess (nasl_lint env fuel t F0 st0 cf) = false ∧
         runDiags (nasl_lint env fuel t F0 st0 cf) =
           (unusedOf s2.include_files).map Diag.unusedInc ++ s2.diags ∧
         (∀ f, f ∈ unusedOf s2.include_files →
           Diag.unusedInc f ∈ runDiags (nasl_lint env fuel t F0 st0 cf))) ∧
      runSuccess (nasl_lint envC6 2 TC6ok [] initStatics ("t.nasl")) = true := by
  constructor
  · intro env fuel t F0 st0 cf s1 s2 h1 h2 h3
    have key : nasl_lint env fuel t F0 st0 cf =
        some (mkOut false
          { s2 with diags := (unusedOf s2.include_files).map Diag.unusedInc ++ s2.diags }
          (nasl_get_filename env cf (rootSv t))) := by
      unfold nasl_lint
      simp only [h1, h2, h3]
      simp [h3]
    refine ⟨?_, ?_, ?_⟩
    · rw [key]
      rfl
    · rw [key]
      rfl
    · intro f hf
      rw [key]
      exact List.mem_append_left _ (List.mem_map_of_mem Diag.unusedInc hf)
  · decide

/-- The state carried by a pass result. -/
def resSt (r : DefRes) : St :=
  match r with
  | DefRes.failed s => s
  | DefRes.ok s => s

/-- The state carried by a fuelled pass result, with a default for
divergence. -/
def optResSt (r : Option DefRes) (d : St) : St :=
  match r with
  | some x => resSt x
  | none => d

/-- The state after the mode-1 definition pass on `TC6unused`. -/
def C6wS1 : St :=
  resSt (nasl_lint_def envC6 1 (make_call_func_list envC6 [] TC6unused [])
    (nasl_get_filename envC6 ("t.nasl") (rootSv TC6unused)) TC6unused none
    (initSt [] initStatics ("t.nasl")))

/-- The state after the call-validation pass on `TC6unused`. -/
def C6wS2 : St :=
  optResSt (nasl_lint_call envC6 2 (make_call_func_list envC6 [] TC6unused [])
    (nasl_get_filename envC6 ("t.nasl") (rootSv TC6unused)) TC6unused C6wS1) C6wS1

/-- Witness for C6: on `TC6unused` both passes complete, "x.inc" is still
unused, and the run fails carrying the batched UnusedIncludeFile
diagnostic. -/
theorem C6_amended_witness :
    runSuccess (nasl_lint envC6 2 TC6unused [] initStatics ("t.nasl")) = false ∧
      Diag.unusedInc ("x.inc") ∈
        runDiags (nasl_lint envC6 2 TC6unused [] initStatics ("t.nasl")) := by
  have h1 : nasl_lint_def envC6 1 (make_call_func_list envC6 [] TC6unused [])
      (nasl_get_filename envC6 ("t.nasl") (rootSv TC6unused)) TC6unused none
      (initSt [] initStatics ("t.nasl")) = DefRes.ok C6wS1 := by decide
  have h2 : nasl_lint_call envC6 2 (make_call_func_list envC6 [] TC6unused [])
      (nasl_get_filename envC6 ("t.nasl") (rootSv TC6unused)) TC6unused C6wS1 =
      some (DefRes.ok C6wS2) := by decide
  have h3 : unusedOf C6wS2.include_files ≠ [] := by decide
  obtain ⟨a, b, c⟩ := C6_amended.1 envC6 2 TC6unused [] initStatics ("t.nasl")
    C6wS1 C6wS2 h1 h2 h3
  exact ⟨a, c ("x.inc") (by decide)⟩

/-! ## Sequencing combinators and node-level equations for the passes -/

/-- The four-child sequencing of the definition and variable passes,
short-circuiting on failure. -/
def chainDef (f : tree_cell → Option String → St → DefRes)
    (c0 c1 c2 c3 : tree_cell) (err : Option String) (s : St) : DefRes :=
  match f c0 err s with
  | DefRes.failed s1 => DefRes.failed s1
  | DefRes.ok s1 =>
    match f c1 err s1 with
    | DefRes.failed s2 => DefRes.failed s2
    | DefRes.ok s2 =>
      match f c2 err s2 with
      | DefRes.failed s3 => DefRes.failed s3
      | DefRes.ok s3 =>
        match f c3 err s3 with
        | DefRes.failed s4 => DefRes.failed s4
        | DefRes.ok s4 => DefRes.ok s4

/-- The state mutation performed when the mode-1 definition pass enters a
called function definition: register the function in the `lexic_aux`
context, set the static current-function marker, and track the owning file
as a (so far unused) include. -/
def defEnterSt (env : Env) (sv : Option String) (s : St) : St :=
  { s with aux_funcs := (decl_nasl_func s.aux_funcs sv 1).getD s.aux_funcs,
           current_fun_def := sv,
           include_files :=
             hash_replace s.include_files (nasl_get_filename env s.cur_file sv) false }

/-- Node equation of `nasl_lint_def` for non-definition nodes. -/
theorem nasl_lint_def_eq_default (env : Env) (mode : Nat) (called : List String)
    (nn : String) (ty : NodeType) (sv : Option String) (ln : Nat)
    (c0 c1 c2 c3 : tree_cell) (err : Option String) (s : St)
    (hty : ty ≠ NODE_FUN_DEF) :
    nasl_lint_def env mode called nn (tree_cell.node ty sv ln c0 c1 c2 c3) err s =
      match (if ty = NODE_FUN_CALL then
          nasl_lint_def_call env mode nn sv ln c0 err s else DefRes.ok s) with
      | DefRes.failed s1 => DefRes.failed s1
      | DefRes.ok s1 => chainDef (nasl_lint_def env mode called nn) c0 c1 c2 c3 err s1 := by
  simp only [nasl_lint_def]
  cases hb : (if ty = NODE_FUN_CALL then
      nasl_lint_def_call env mode nn sv ln c0 err s else DefRes.ok s) with
  | failed s1 => rfl
  | ok s1 =>
    show (if ty = NODE_FUN_DEF then _ else _) = _
    rw [if_neg hty]
    rfl

/-- Node equation of `nasl_lint_def` in mode 1 on a skipped (uncalled)
definition. -/
theorem nasl_lint_def_eq_def1_skip (env : Env) (called : List String)
    (nn : String) (sv : Option String) (ln : Nat) (c0 c1 c2 c3 : tree_cell)
    (err : Option String) (s : St) (hc : memOpt sv called = false) :
    nasl_lint_def env 1 called nn (tree_cell.node NODE_FUN_DEF sv ln c0 c1 c2 c3) err s =
      DefRes.ok s := by
  simp only [nasl_lint_def]
  simp [hc]

/-- Four-child sequencing with the filename restoration of a definition
subtree appended on the success path. -/
def chainDefRestore (f : tree_cell → Option String → St → DefRes)
    (c0 c1 c2 c3 : tree_cell) (err : Option String) (s : St) (tmp : String) : DefRes :=
  match f c0 err s with
  | DefRes.failed s1 => DefRes.failed s1
  | DefRes.ok s1 =>
    match f c1 err s1 with
    | DefRes.failed s2 => DefRes.failed s2
    | DefRes.ok s2 =>
      match f c2 err s2 with
      | DefRes.failed s3 => DefRes.failed s3
      | DefRes.ok s3 =>
        match f c3 err s3 with
        | DefRes.failed s4 => DefRes.failed s4
        | DefRes.ok s4 => DefRes.ok { s4 with cur_file := tmp }

/-- The restoring chain is the plain chain with the filename reset applied
to a successful outcome. -/
theorem chainDefRestore_eq (f : tree_cell → Option String → St → DefRes)
    (c0 c1 c2 c3 : tree_cell) (err : Option String) (s : St) (tmp : String) :
    chainDefRestore f c0 c1 c2 c3 err s tmp =
      match chainDef f c0 c1 c2 c3 err s with
      | DefRes.failed s1 => DefRes.failed s1
      | DefRes.ok s6 => DefRes.ok { s6 with cur_file := tmp } := by
  cases h0 : f c0 err s with
  | failed s1 => simp [chainDefRestore, chainDef, h0]
  | ok s1 =>
    cases h1 : f c1 err s1 with
    | failed s2 => simp [chainDefRestore, chainDef, h0, h1]
    | ok s2 =>
      cases h2 : f c2 err s2 with
      | failed s3 => simp [chainDefRestore, chainDef, h0, h1, h2]
      | ok s3 =>
        cases h3 : f c3 err s3 with
        | failed s4 => simp [chainDefRestore, chainDef, h0, h1, h2, h3]
        | ok s4 => simp [chainDefRestore, chainDef, h0, h1, h2, h3]

/-- Node equation of `nasl_lint_def` in mode 1 on a visited (called)
definition: enter the definition's file context, recurse with the new
error filename, and restore the current filename on the way out. -/
theorem nasl_lint_def_eq_def1_visit (env : Env) (called : List String)
    (nn : String) (sv : Option String) (ln : Nat) (c0 c1 c2 c3 : tree_cell)
    (err : Option String) (s : St) (hc : memOpt sv called = true) :
    nasl_lint_def env 1 called nn (tree_cell.node NODE_FUN_DEF sv ln c0 c1 c2 c3) err s =
      chainDefRestore (nasl_lint_def env 1 called nn) c0 c1 c2 c3
        (some (nasl_get_filename env s.cur_file sv)) (defEnterSt env sv s) s.cur_file := by
  simp only [nasl_lint_def]
  simp [hc, defEnterSt, chainDefRestore, ctx_funcs, set_ctx_funcs]

/-- Node equation of `nasl_lint_def` in mode 0 on a definition: only the
duplicate registration, no recursion into the body. -/
theorem nasl_lint_def_eq_def0 (env : Env) (called : List String)
    (nn : String) (sv : Option String) (ln : Nat) (c0 c1 c2 c3 : tree_cell)
    (err : Option String) (s : St) :
    nasl_lint_def env 0 called nn (tree_cell.node NODE_FUN_DEF sv ln c0 c1 c2 c3) err s =
      match decl_nasl_func s.out_funcs sv 0 with
      | none => DefRes.failed { s with diags := Diag.redefFunc sv :: s.diags }
      | some f => DefRes.ok { s with out_funcs := f } := by
  cases hd : decl_nasl_func s.out_funcs sv 0 with
  | none => simp [nasl_lint_def, ctx_funcs, set_ctx_funcs, hd]
  | some f => simp [nasl_lint_def, ctx_funcs, set_ctx_funcs, hd]

/-- List form of the four-child sequencing, convenient for induction. -/
def chainList (f : tree_cell → Option String → St → DefRes) :
    List tree_cell → Option String → St → DefRes
  | [], _, s => DefRes.ok s
  | c :: cs, err, s =>
    match f c err s with
    | DefRes.failed s1 => DefRes.failed s1
    | DefRes.ok s1 => chainList f cs err s1

/-- The two chain forms agree. -/
theorem chainDef_eq_chainList (f : tree_cell → Option String → St → DefRes)
    (c0 c1 c2 c3 : tree_cell) (err : Option String) (s : St) :
    chainDef f c0 c1 c2 c3 err s = chainList f [c0, c1, c2, c3] err s := by
  cases h0 : f c0 err s with
  | failed s1 => simp [chainDef, chainList, h0]
  | ok s1 =>
    cases h1 : f c1 err s1 with
    | failed s2 => simp [chainDef, chainList, h0, h1]
    | ok s2 =>
      cases h2 : f c2 err s2 with
      | failed s3 => simp [chainDef, chainList, h0, h1, h2]
      | ok s3 =>
        cases h3 : f c3 err s3 with
        | failed s4 => simp [chainDef, chainList, h0, h1, h2, h3]
        | ok s4 => simp [chainDef, chainList, h0, h1, h2, h3]

/-- Dichotomy for a chain whose every element either fails (when a flag
holds of it) or succeeds (when it does not). -/
theorem chainList_cases (f : tree_cell → Option String → St → DefRes)
    (g : tree_cell → Bool) (err : Option String) (cs : List tree_cell)
    (H : ∀ c, c ∈ cs → ∀ s, (g c = true → ∃ s1, f c err s = DefRes.failed s1) ∧
      (g c = false → ∃ s1, f c err s = DefRes.ok s1)) :
    ∀ s, (cs.any g = true → ∃ s1, chainList f cs err s = DefRes.failed s1) ∧
      (cs.any g = false → ∃ s1, chainList f cs err s = DefRes.ok s1) := by
  induction cs with
  | nil =>
    intro s
    refine ⟨?_, ?_⟩
    · intro h
      simp at h
    · intro _
      exact ⟨s, rfl⟩
  | cons c cs ih =>
    intro s
    have Hc := H c (List.mem_cons_self c cs) s
    constructor
    · intro h
      by_cases hg : g c = true
      · obtain ⟨s1, hf⟩ := Hc.1 hg
        exact ⟨s1, by simp [chainList, hf]⟩
      · have hg2 : g c = false := by simpa using hg
        obtain ⟨s1, hok⟩ := Hc.2 hg2
        have hrest : cs.any g = true := by
          simp only [List.any_cons, hg2, Bool.false_or] at h
          exact h
        obtain ⟨s2, hf⟩ := (ih (fun d hd => H d (List.mem_cons_of_mem c hd)) s1).1 hrest
        exact ⟨s2, by simp [chainList, hok, hf]⟩
    · intro h
      have hboth := Bool.or_eq_false_iff.mp (by simpa only [List.any_cons] using h)
      have hg2 : g c = false := hboth.1
      have hrest : cs.any g = false := hboth.2
      obtain ⟨s1, hok⟩ := Hc.2 hg2
      obtain ⟨s2, hok2⟩ := (ih (fun d hd => H d (List.mem_cons_of_mem c hd)) s1).2 hrest
      exact ⟨s2, by simp [chainList, hok, hok2]⟩

/-- A failing chain fails at one of its elements, with the same final
state. -/
theorem chainList_failed_ex (f : tree_cell → Option String → St → DefRes)
    (err : Option String) (cs : List tree_cell) :
    ∀ s s1, chainList f cs err s = DefRes.failed s1 →
      ∃ c, c ∈ cs ∧ ∃ s0, f c err s0 = DefRes.failed s1 := by
  induction cs with
  | nil =>
    intro s s1 h
    exact absurd h (by simp [chainList])
  | cons c cs ih =>
    intro s s1 h
    cases hc : f c err s with
    | failed s2 =>
      simp only [chainList, hc] at h
      cases h
      exact ⟨c, List.mem_cons_self c cs, s, hc⟩
    | ok s2 =>
      simp only [chainList, hc] at h
      obtain ⟨d, hd, s0, hf⟩ := ih s2 s1 h
      exact ⟨d, List.mem_cons_of_mem c hd, s0, hf⟩

/-- A visited call node at line `l` whose parameter scan reports the
repeated identifier `p`. -/
def visitedDupAt (called : List String) (l : Nat) (p : String) : tree_cell → Bool
  | tree_cell.nil => false
  | tree_cell.node ty sv ln c0 c1 c2 c3 =>
    if ty = NODE_FUN_DEF ∧ memOpt sv called = false then false
    else
      (if ty = NODE_FUN_CALL then decide (ln = l ∧ scan_params c0 [] = some p)
       else false) ||
        visitedDupAt called l p c0 || visitedDupAt called l p c1 ||
        visitedDupAt called l p c2 || visitedDupAt called l p c3

/-- In lint mode 1, the call block fails exactly on a repeated parameter,
prepending the DuplicateCallParameter diagnostic. -/
theorem def_call1_scan_some (env : Env) (nn : String) (sv : Option String)
    (ln : Nat) (c0 : tree_cell) (err : Option String) (s : St) (p : String)
    (hs : scan_params c0 [] = some p) :
    ∃ s1, nasl_lint_def_call env 1 nn sv ln c0 err s = DefRes.failed s1 ∧
      s1.diags.head? = some (Diag.dupParam (err.getD nn) ln p sv) := by
  cases hpf : get_func_ref_by_name env (ctx_funcs 1 s) sv with
  | true =>
    refine ⟨{ s with def_func_tree := (⟨sv, s.current_fun_def, err.getD nn⟩ : func_info) :: s.def_func_tree, diags := Diag.dupParam (err.getD nn) ln p sv :: s.diags }, ?_, ?_⟩
    · simp [nasl_lint_def_call, hpf, hs]
    · rfl
  | false =>
    cases sv with
    | none =>
      refine ⟨{ s with def_func_tree := (⟨none, s.current_fun_def, err.getD nn⟩ : func_info) :: s.def_func_tree, diags := Diag.dupParam (err.getD nn) ln p none :: s.diags }, ?_, ?_⟩
      · simp [nasl_lint_def_call, hpf, hs]
      · rfl
    | some v =>
      refine ⟨{ s with func_fnames_tab := hash_replace s.func_fnames_tab v err, def_func_tree := (⟨some v, s.current_fun_def, err.getD nn⟩ : func_info) :: s.def_func_tree, diags := Diag.dupParam (err.getD nn) ln p (some v) :: s.diags }, ?_, ?_⟩
      · simp [nasl_lint_def_call, hpf, hs]
      · rfl

/-- In lint mode 1, a call block with no repeated parameter succeeds. -/
theorem def_call1_scan_none (env : Env) (nn : String) (sv : Option String)
    (ln : Nat) (c0 : tree_cell) (err : Option String) (s : St)
    (hs : scan_params c0 [] = none) :
    ∃ s1, nasl_lint_def_call env 1 nn sv ln c0 err s = DefRes.ok s1 := by
  cases hpf : get_func_ref_by_name env (ctx_funcs 1 s) sv with
  | true =>
    exact ⟨{ s with def_func_tree := (⟨sv, s.current_fun_def, err.getD nn⟩ : func_info) :: s.def_func_tree }, by simp [nasl_lint_def_call, hpf, hs]⟩
  | false =>
    cases sv with
    | none =>
      exact ⟨{ s with def_func_tree := (⟨none, s.current_fun_def, err.getD nn⟩ : func_info) :: s.def_func_tree }, by simp [nasl_lint_def_call, hpf, hs]⟩
    | some v =>
      exact ⟨{ s with func_fnames_tab := hash_replace s.func_fnames_tab v err, def_func_tree := (⟨some v, s.current_fun_def, err.getD nn⟩ : func_info) :: s.def_func_tree }, by simp [nasl_lint_def_call, hpf, hs]⟩

/-- Dichotomy of the mode-1 definition pass: it fails exactly when some
visited call has a repeated parameter. -/
theorem lint_def1_dup (env : Env) (called : List String) (nn : String) :
    ∀ t : tree_cell, ∀ err s,
      (hasVisitedDupCall called t = true →
        ∃ s1, nasl_lint_def env 1 called nn t err s = DefRes.failed s1) ∧
      (hasVisitedDupCall called t = false →
        ∃ s1, nasl_lint_def env 1 called nn t err s = DefRes.ok s1) := by
  intro t
  induction t with
  | nil =>
    intro err s
    exact ⟨fun h => absurd h (by simp [hasVisitedDupCall]),
           fun _ => ⟨s, rfl⟩⟩
  | node ty sv ln c0 c1 c2 c3 ih0 ih1 ih2 ih3 =>
    intro err s
    by_cases hskip : ty = NODE_FUN_DEF ∧ memOpt sv called = false
    · have hv : hasVisitedDupCall called (tree_cell.node ty sv ln c0 c1 c2 c3) = false := by
        simp only [hasVisitedDupCall]
        simp [hskip]
      have hpass : nasl_lint_def env 1 called nn
          (tree_cell.node ty sv ln c0 c1 c2 c3) err s = DefRes.ok s := by
        rcases hskip with ⟨h1, h2⟩
        subst h1
        exact nasl_lint_def_eq_def1_skip env called nn sv ln c0 c1 c2 c3 err s h2
      exact ⟨fun h => absurd h (by simp [hv]), fun _ => ⟨s, hpass⟩⟩
    · by_cases hdef : ty = NODE_FUN_DEF
      · -- visited definition subtree
        have hmem : memOpt sv called = true := by
          rcases Bool.eq_false_or_eq_true (memOpt sv called) with h | h
          · exact h
          · exact absurd ⟨hdef, h⟩ hskip
        subst hdef
        have hveq : hasVisitedDupCall called
            (tree_cell.node NODE_FUN_DEF sv ln c0 c1 c2 c3) =
            ([c0, c1, c2, c3].any (hasVisitedDupCall called)) := by
          simp [hasVisitedDupCall, hmem, List.any_cons, Bool.or_assoc]
        have hpass := nasl_lint_def_eq_def1_visit env called nn sv ln c0 c1 c2 c3 err s hmem
        rw [chainDefRestore_eq] at hpass
        have hcs := chainList_cases (nasl_lint_def env 1 called nn)
          (hasVisitedDupCall called) (some (nasl_get_filename env s.cur_file sv))
          [c0, c1, c2, c3]
          (by
            intro c hc s2
            simp only [List.mem_cons, List.not_mem_nil, or_false] at hc
            rcases hc with rfl | rfl | rfl | rfl
            · exact ih0 _ s2
            · exact ih1 _ s2
            · exact ih2 _ s2
            · exact ih3 _ s2)
          (defEnterSt env sv s)
        rw [← chainDef_eq_chainList] at hcs
        constructor
        · intro h
          rw [hveq] at h
          obtain ⟨s1, hf⟩ := hcs.1 h
          exact ⟨s1, by rw [hpass, hf]⟩
        · intro h
          rw [hveq] at h
          obtain ⟨s1, hok⟩ := hcs.2 h
          exact ⟨{ s1 with cur_file := s.cur_file }, by rw [hpass, hok]⟩
      · -- non-definition node
        have hveq : hasVisitedDupCall called (tree_cell.node ty sv ln c0 c1 c2 c3) =
            ((if ty = NODE_FUN_CALL then (scan_params c0 []).isSome else false) ||
              [c0, c1, c2, c3].any (hasVisitedDupCall called)) := by
          simp [hasVisitedDupCall, hdef, List.any_cons, Bool.or_assoc]
        have hpass := nasl_lint_def_eq_default env 1 called nn ty sv ln c0 c1 c2 c3 err s hdef
        have hcs := chainList_cases (nasl_lint_def env 1 called nn)
          (hasVisitedDupCall called) err [c0, c1, c2, c3]
          (by
            intro c hc s2
            simp only [List.mem_cons, List.not_mem_nil, or_false] at hc
            rcases hc with rfl | rfl | rfl | rfl
            · exact ih0 _ s2
            · exact ih1 _ s2
            · exact ih2 _ s2
            · exact ih3 _ s2)
        by_cases hcall : ty = NODE_FUN_CALL
        · subst hcall
          cases hsc : scan_params c0 [] with
          | some p =>
            obtain ⟨s1, hf, -⟩ :=
              def_call1_scan_some env nn sv ln c0 err s p hsc
            have hfail : nasl_lint_def env 1 called nn
                (tree_cell.node NODE_FUN_CALL sv ln c0 c1 c2 c3) err s =
                DefRes.failed s1 := by
              rw [hpass]
              simp [hf]
            constructor
            · intro _
              exact ⟨s1, hfail⟩
            · intro h
              rw [hveq] at h
              simp [hsc] at h
          | none =>
            obtain ⟨s1, hok⟩ := def_call1_scan_none env nn sv ln c0 err s hsc
            have hveq2 : hasVisitedDupCall called
                (tree_cell.node NODE_FUN_CALL sv ln c0 c1 c2 c3) =
                [c0, c1, c2, c3].any (hasVisitedDupCall called) := by
              rw [hveq]
              simp [hsc]
            constructor
            · intro h
              rw [hveq2] at h
              obtain ⟨s2, hf⟩ := (hcs s1).1 h
              refine ⟨s2, ?_⟩
              rw [hpass]
              simp only [hok]
              rw [← chainDef_eq_chainList] at hf
              simp [hf]
            · intro h
              rw [hveq2] at h
              obtain ⟨s2, hok2⟩ := (hcs s1).2 h
              refine ⟨s2, ?_⟩
              rw [hpass]
              simp only [hok]
              rw [← chainDef_eq_chainList] at hok2
              simp [hok2]
        · have hveq2 : hasVisitedDupCall called
              (tree_cell.node ty sv ln c0 c1 c2 c3) =
              [c0, c1, c2, c3].any (hasVisitedDupCall called) := by
            rw [hveq]
            simp [hcall]
          have hblock : (if ty = NODE_FUN_CALL then
              nasl_lint_def_call env 1 nn sv ln c0 err s else DefRes.ok s) =
              DefRes.ok s := by simp [hcall]
          constructor
          · intro h
            rw [hveq2] at h
            obtain ⟨s2, hf⟩ := (hcs s).1 h
            refine ⟨s2, ?_⟩
            rw [hpass, hblock]
            rw [← chainDef_eq_chainList] at hf
            simp [hf]
          · intro h
            rw [hveq2] at h
            obtain ⟨s2, hok2⟩ := (hcs s).2 h
            refine ⟨s2, ?_⟩
            rw [hpass, hblock]
            rw [← chainDef_eq_chainList] at hok2
            simp [hok2]

/-- Provenance of a mode-1 failure: the freshest diagnostic is a
DuplicateCallParameter whose line and repeated identifier come from a
visited call node of the tree. -/
theorem lint_def1_failed_diag (env : Env) (called : List String) (nn : String) :
    ∀ t : tree_cell, ∀ err s s1,
      nasl_lint_def env 1 called nn t err s = DefRes.failed s1 →
      ∃ f l p fn, s1.diags.head? = some (Diag.dupParam f l p fn) ∧
        visitedDupAt called l p t = true := by
  intro t
  induction t with
  | nil =>
    intro err s s1 h
    exact absurd h (by simp [nasl_lint_def])
  | node ty sv ln c0 c1 c2 c3 ih0 ih1 ih2 ih3 =>
    intro err s s1 h
    by_cases hskip : ty = NODE_FUN_DEF ∧ memOpt sv called = false
    · rcases hskip with ⟨h1, h2⟩
      subst h1
      rw [nasl_lint_def_eq_def1_skip env called nn sv ln c0 c1 c2 c3 err s h2] at h
      exact absurd h (by simp)
    · by_cases hdef : ty = NODE_FUN_DEF
      · have hmem : memOpt sv called = true := by
          rcases Bool.eq_false_or_eq_true (memOpt sv called) with hx | hx
          · exact hx
          · exact absurd ⟨hdef, hx⟩ hskip
        subst hdef
        rw [nasl_lint_def_eq_def1_visit env called nn sv ln c0 c1 c2 c3 err s hmem,
          chainDefRestore_eq, chainDef_eq_chainList] at h
        have hfail : chainList (nasl_lint_def env 1 called nn) [c0, c1, c2, c3]
            (some (nasl_get_filename env s.cur_file sv)) (defEnterSt env sv s) =
            DefRes.failed s1 := by
          cases hc : chainList (nasl_lint_def env 1 called nn) [c0, c1, c2, c3]
              (some (nasl_get_filename env s.cur_file sv)) (defEnterSt env sv s) with
          | failed s2 =>
            rw [hc] at h
            cases h
            rfl
          | ok s2 =>
            rw [hc] at h
            exact absurd h (by simp)
        obtain ⟨c, hcmem, s0, hcf⟩ := chainList_failed_ex _ _ _ _ _ hfail
        simp only [List.mem_cons, List.not_mem_nil, or_false] at hcmem
        rcases hcmem with rfl | rfl | rfl | rfl
        · obtain ⟨f, l, p, fn, hh, hAt⟩ := ih0 _ s0 s1 hcf
          exact ⟨f, l, p, fn, hh, by simp [visitedDupAt, hmem, hAt]⟩
        · obtain ⟨f, l, p, fn, hh, hAt⟩ := ih1 _ s0 s1 hcf
          exact ⟨f, l, p, fn, hh, by simp [visitedDupAt, hmem, hAt]⟩
        · obtain ⟨f, l, p, fn, hh, hAt⟩ := ih2 _ s0 s1 hcf
          exact ⟨f, l, p, fn, hh, by simp [visitedDupAt, hmem, hAt]⟩
        · obtain ⟨f, l, p, fn, hh, hAt⟩ := ih3 _ s0 s1 hcf
          exact ⟨f, l, p, fn, hh, by simp [visitedDupAt, hmem, hAt]⟩
      · rw [nasl_lint_def_eq_default env 1 called nn ty sv ln c0 c1 c2 c3 err s hdef] at h
        cases hb : (if ty = NODE_FUN_CALL then
            nasl_lint_def_call env 1 nn sv ln c0 err s else DefRes.ok s) with
        | failed s2 =>
          rw [hb] at h
          have h2 : DefRes.failed s2 = DefRes.failed s1 := h
          have hs1 : s2 = s1 := by injection h2
          subst hs1
          have hcall : ty = NODE_FUN_CALL := by
            by_contra hc
            rw [if_neg hc] at hb
            exact absurd hb (by simp)
          subst hcall
          rw [if_pos rfl] at hb
          cases hsc : scan_params c0 [] with
          | none =>
            obtain ⟨s3, hok⟩ := def_call1_scan_none env nn sv ln c0 err s hsc
            rw [hok] at hb
            exact absurd hb (by simp)
          | some p =>
            obtain ⟨s3, hf, hh⟩ := def_call1_scan_some env nn sv ln c0 err s p hsc
            rw [hf] at hb
            cases hb
            refine ⟨err.getD nn, ln, p, sv, hh, ?_⟩
            simp [visitedDupAt, hsc]
        | ok s2 =>
          rw [hb] at h
          have h2 : chainDef (nasl_lint_def env 1 called nn) c0 c1 c2 c3 err s2 =
              DefRes.failed s1 := h
          have hfail : chainList (nasl_lint_def env 1 called nn) [c0, c1, c2, c3]
              err s2 = DefRes.failed s1 := by
            rw [← chainDef_eq_chainList]
            exact h2
          obtain ⟨c, hcmem, s0, hcf⟩ := chainList_failed_ex _ _ _ _ _ hfail
          simp only [List.mem_cons, List.not_mem_nil, or_false] at hcmem
          rcases hcmem with rfl | rfl | rfl | rfl
          · obtain ⟨f, l, p, fn, hh, hAt⟩ := ih0 _ s0 s1 hcf
            exact ⟨f, l, p, fn, hh, by simp [visitedDupAt, hskip, hAt]⟩
          · obtain ⟨f, l, p, fn, hh, hAt⟩ := ih1 _ s0 s1 hcf
            exact ⟨f, l, p, fn, hh, by simp [visitedDupAt, hskip, hAt]⟩
          · obtain ⟨f, l, p, fn, hh, hAt⟩ := ih2 _ s0 s1 hcf
            exact ⟨f, l, p, fn, hh, by simp [visitedDupAt, hskip, hAt]⟩
          · obtain ⟨f, l, p, fn, hh, hAt⟩ := ih3 _ s0 s1 hcf
            exact ⟨f, l, p, fn, hh, by simp [visitedDupAt, hskip, hAt]⟩

/-- C4 (amended): when a call with a repeated argument identifier is
visited by the mode-1 definition pass — i.e. does not sit inside an
uncalled function definition — the whole analysis fails at that pass, and
the freshest diagnostic is a DuplicateCallParameter whose line number and
repeated identifier come from a visited offending call, independent of
whether the called function is ever defined. -/
theorem C4_amended (env : Env) (fuel : Nat) (t : tree_cell) (F0 : List String)
    (st0 : Statics) (cf : String)
    (hd : hasVisitedDupCall (make_call_func_list env [] t []) t = true) :
    runSuccess (nasl_lint env fuel t F0 st0 cf) = false ∧
      ∃ f l p fn, (runDiags (nasl_lint env fuel t F0 st0 cf)).head? =
          some (Diag.dupParam f l p fn) ∧
        visitedDupAt (make_call_func_list env [] t []) l p t = true := by
  obtain ⟨s1, hf⟩ := (lint_def1_dup env (make_call_func_list env [] t [])
    (nasl_get_filename env cf (rootSv t)) t none (initSt F0 st0 cf)).1 hd
  obtain ⟨f, l, p, fn, hh, hAt⟩ :=
    lint_def1_failed_diag env _ _ t none (initSt F0 st0 cf) s1 hf
  have key : nasl_lint env fuel t F0 st0 cf =
      some (mkOut false s1 (nasl_get_filename env cf (rootSv t))) := by
    unfold nasl_lint
    simp only [hf]
  rw [key]
  exact ⟨rfl, f, l, p, fn, hh, hAt⟩

/-- Witness for C4: the top-level call `f(a: 1, a: 2)` is visited and makes
the analysis fail. -/
theorem C4_amended_witness :
    hasVisitedDupCall (make_call_func_list envP [] dupCall []) dupCall = true ∧
      runSuccess (nasl_lint envP 1 dupCall [] initStatics ("t.nasl")) = false :=
  ⟨by decide, (C4_amended envP 1 dupCall [] initStatics ("t.nasl") (by decide)).1⟩

/-! ## C3: the duplicate-check pass -/

/-- Sequential registration: `declsOk F l` is true when declaring the
names of `l` in order, starting from table `F`, never hits an existing
name. -/
def declsOk : List String → List String → Bool
  | _, [] => true
  | F, n :: l => if F.contains n then false else declsOk (n :: F) l

/-- Names contained in no list member. -/
theorem contains_false_of_not_mem {m : String} {F : List String} (h : m ∉ F) :
    F.contains m = false := by
  simpa using h

/-- Splitting a registration sequence. -/
theorem declsOk_append (l1 : List String) :
    ∀ (F l2 : List String),
      declsOk F (l1 ++ l2) = (declsOk F l1 && declsOk (l1.reverse ++ F) l2) := by
  induction l1 with
  | nil => intro F l2; simp [declsOk]
  | cons n l1 ih =>
    intro F l2
    have he : (n :: l1) ++ l2 = n :: (l1 ++ l2) := rfl
    rw [he]
    show (if F.contains n = true then false else declsOk (n :: F) (l1 ++ l2)) =
      ((if F.contains n = true then false else declsOk (n :: F) l1) &&
        declsOk ((n :: l1).reverse ++ F) l2)
    by_cases hc : F.contains n = true
    · rw [if_pos hc, if_pos hc]
      rfl
    · rw [if_neg hc, if_neg hc, ih (n :: F) l2]
      have h2 : (n :: l1).reverse ++ F = l1.reverse ++ (n :: F) := by
        simp [List.reverse_cons, List.append_assoc]
      rw [h2]

/-- A successful registration sequence has pairwise distinct names. -/
theorem declsOk_true_nodup (l : List String) :
    ∀ F, declsOk F l = true → l.Nodup ∧ ∀ n ∈ l, F.contains n = false := by
  induction l with
  | nil => intro F _; simp
  | cons n l ih =>
    intro F h
    rw [show declsOk F (n :: l) =
      (if F.contains n = true then false else declsOk (n :: F) l) from rfl] at h
    by_cases hc : F.contains n = true
    · rw [if_pos hc] at h
      exact absurd h (by simp)
    · rw [if_neg hc] at h
      obtain ⟨hnd, hmem⟩ := ih (n :: F) h
      refine ⟨?_, ?_⟩
      · refine List.nodup_cons.mpr ⟨?_, hnd⟩
        intro hin
        have h2 := hmem n hin
        simp [List.contains_cons] at h2
      · intro m hm
        rcases List.mem_cons.mp hm with rfl | hm2
        · exact Bool.eq_false_iff.mpr hc
        · have h2 := hmem m hm2
          simp [List.contains_cons] at h2
          exact contains_false_of_not_mem h2.2

/-- The mode-0 call block never fails and does not touch the outer
function table or the diagnostics. -/
theorem def_call0_ok (env : Env) (nn : String) (sv : Option String) (ln : Nat)
    (c0 : tree_cell) (err : Option String) (s : St) :
    ∃ s1, nasl_lint_def_call env 0 nn sv ln c0 err s = DefRes.ok s1 ∧
      s1.out_funcs = s.out_funcs ∧ s1.diags = s.diags := by
  cases hpf : get_func_ref_by_name env (ctx_funcs 0 s) sv with
  | true =>
    exact ⟨{ s with def_func_tree := (⟨sv, s.current_fun_def, err.getD nn⟩ : func_info) :: s.def_func_tree }, by simp [nasl_lint_def_call, hpf], rfl, rfl⟩
  | false =>
    cases sv with
    | none =>
      exact ⟨{ s with def_func_tree := (⟨none, s.current_fun_def, err.getD nn⟩ : func_info) :: s.def_func_tree }, by simp [nasl_lint_def_call, hpf], rfl, rfl⟩
    | some v =>
      exact ⟨{ s with func_fnames_tab := hash_replace s.func_fnames_tab v err, def_func_tree := (⟨some v, s.current_fun_def, err.getD nn⟩ : func_info) :: s.def_func_tree }, by simp [nasl_lint_def_call, hpf], rfl, rfl⟩

/-- The names the duplicate-check pass registers over a list of subtrees. -/
def visibleDefsList (cs : List tree_cell) : List String :=
  match cs with
  | [] => []
  | c :: cs => visibleDefs c ++ visibleDefsList cs

/-- Dichotomy of the duplicate-check pass over a list of subtrees. -/
theorem chainList_def0_spec (env : Env) (called : List String) (nn : String)
    (err : Option String) :
    ∀ cs : List tree_cell,
      (∀ c ∈ cs, ∀ s : St,
        (declsOk s.out_funcs (visibleDefs c) = true →
          ∃ s1, nasl_lint_def env 0 called nn c err s = DefRes.ok s1 ∧
            s1.out_funcs = (visibleDefs c).reverse ++ s.out_funcs ∧ s1.diags = s.diags) ∧
        (declsOk s.out_funcs (visibleDefs c) = false →
          ∃ s1, nasl_lint_def env 0 called nn c err s = DefRes.failed s1 ∧
            ∃ n, s1.diags.head? = some (Diag.redefFunc (some n)))) →
      ∀ s : St,
        (declsOk s.out_funcs (visibleDefsList cs) = true →
          ∃ s1, chainList (nasl_lint_def env 0 called nn) cs err s = DefRes.ok s1 ∧
            s1.out_funcs = (visibleDefsList cs).reverse ++ s.out_funcs ∧
            s1.diags = s.diags) ∧
        (declsOk s.out_funcs (visibleDefsList cs) = false →
          ∃ s1, chainList (nasl_lint_def env 0 called nn) cs err s = DefRes.failed s1 ∧
            ∃ n, s1.diags.head? = some (Diag.redefFunc (some n))) := by
  intro cs
  induction cs with
  | nil =>
    intro H s
    refine ⟨fun _ => ⟨s, rfl, by simp [visibleDefsList], rfl⟩, fun h => ?_⟩
    simp [visibleDefsList, declsOk] at h
  | cons c cs ih =>
    intro H s
    have hc := H c (List.mem_cons_self c cs) s
    have hsplit : declsOk s.out_funcs (visibleDefsList (c :: cs)) =
        (declsOk s.out_funcs (visibleDefs c) &&
          declsOk ((visibleDefs c).reverse ++ s.out_funcs) (visibleDefsList cs)) := by
      show declsOk s.out_funcs (visibleDefs c ++ visibleDefsList cs) = _
      exact declsOk_append _ _ _
    constructor
    · intro h
      rw [hsplit] at h
      have h1 : declsOk s.out_funcs (visibleDefs c) = true := by
        cases hx : declsOk s.out_funcs (visibleDefs c) <;> simp [hx] at h ⊢
      have h2 : declsOk ((visibleDefs c).reverse ++ s.out_funcs)
          (visibleDefsList cs) = true := by
        rw [h1] at h
        simpa using h
      obtain ⟨s1, hok, hout, hdg⟩ := hc.1 h1
      have h2a : declsOk s1.out_funcs (visibleDefsList cs) = true := by
        rw [hout]; exact h2
      obtain ⟨s2, hok2, hout2, hdg2⟩ :=
        (ih (fun d hd => H d (List.mem_cons_of_mem c hd)) s1).1 h2a
      refine ⟨s2, ?_, ?_, ?_⟩
      · simp [chainList, hok, hok2]
      · rw [hout2, hout]
        show _ = (visibleDefs c ++ visibleDefsList cs).reverse ++ s.out_funcs
        simp [List.reverse_append, List.append_assoc]
      · rw [hdg2, hdg]
    · intro h
      rw [hsplit] at h
      by_cases h1 : declsOk s.out_funcs (visibleDefs c) = true
      · have h2 : declsOk ((visibleDefs c).reverse ++ s.out_funcs)
            (visibleDefsList cs) = false := by
          rw [h1] at h
          simpa using h
        obtain ⟨s1, hok, hout, hdg⟩ := hc.1 h1
        have h2a : declsOk s1.out_funcs (visibleDefsList cs) = false := by
          rw [hout]; exact h2
        obtain ⟨s2, hf, n, hh⟩ :=
          (ih (fun d hd => H d (List.mem_cons_of_mem c hd)) s1).2 h2a
        exact ⟨s2, by simp [chainList, hok, hf], n, hh⟩
      · obtain ⟨s1, hf, n, hh⟩ := hc.2 (Bool.eq_false_iff.mpr h1)
        exact ⟨s1, by simp [chainList, hf], n, hh⟩

/-- Dichotomy of the duplicate-check pass: starting from function table
`F`, it succeeds when registering the visible definition names in order
never hits an existing name — extending the table by exactly those names —
and otherwise fails with a DuplicateFunctionDefinition diagnostic. -/
theorem lint_def0_spec (env : Env) (called : List String) (nn : String) :
    ∀ t : tree_cell, ∀ (err : Option String) (s : St),
      (declsOk s.out_funcs (visibleDefs t) = true →
        ∃ s1, nasl_lint_def env 0 called nn t err s = DefRes.ok s1 ∧
          s1.out_funcs = (visibleDefs t).reverse ++ s.out_funcs ∧
          s1.diags = s.diags) ∧
      (declsOk s.out_funcs (visibleDefs t) = false →
        ∃ s1, nasl_lint_def env 0 called nn t err s = DefRes.failed s1 ∧
          ∃ n, s1.diags.head? = some (Diag.redefFunc (some n))) := by
  intro t
  induction t with
  | nil =>
    intro err s
    refine ⟨fun _ => ⟨s, rfl, by simp [visibleDefs], rfl⟩, fun h => ?_⟩
    simp [visibleDefs, declsOk] at h
  | node ty sv ln c0 c1 c2 c3 ih0 ih1 ih2 ih3 =>
    intro err s
    by_cases hdef : ty = NODE_FUN_DEF
    · subst hdef
      have hpass := nasl_lint_def_eq_def0 env called nn sv ln c0 c1 c2 c3 err s
      have hvis : visibleDefs (tree_cell.node NODE_FUN_DEF sv ln c0 c1 c2 c3) =
          sv.toList := by simp [visibleDefs]
      cases sv with
      | none =>
        have hd : decl_nasl_func s.out_funcs none 0 = some s.out_funcs := rfl
        rw [hd] at hpass
        have hpass2 : nasl_lint_def env 0 called nn
            (tree_cell.node NODE_FUN_DEF none ln c0 c1 c2 c3) err s =
            DefRes.ok { s with out_funcs := s.out_funcs } := hpass
        refine ⟨fun _ => ⟨{ s with out_funcs := s.out_funcs }, hpass2, by simp [hvis], rfl⟩,
          fun h => ?_⟩
        rw [hvis] at h
        simp [declsOk] at h
      | some n =>
        by_cases hcon : s.out_funcs.contains n = true
        · have hmem : n ∈ s.out_funcs := by simpa using hcon
          have hd : decl_nasl_func s.out_funcs (some n) 0 = none := by
            simp [decl_nasl_func, hmem]
          rw [hd] at hpass
          have hpass2 : nasl_lint_def env 0 called nn
              (tree_cell.node NODE_FUN_DEF (some n) ln c0 c1 c2 c3) err s =
              DefRes.failed { s with diags := Diag.redefFunc (some n) :: s.diags } := hpass
          refine ⟨fun h => ?_, fun _ => ?_⟩
          · rw [hvis] at h
            simp [declsOk] at h
            exact absurd hmem h
          · exact ⟨_, hpass2, n, rfl⟩
        · have hmem : ¬ n ∈ s.out_funcs := by
            intro hm
            exact hcon (by simpa using hm)
          have hd : decl_nasl_func s.out_funcs (some n) 0 = some (n :: s.out_funcs) := by
            simp [decl_nasl_func, hmem]
          rw [hd] at hpass
          have hpass2 : nasl_lint_def env 0 called nn
              (tree_cell.node NODE_FUN_DEF (some n) ln c0 c1 c2 c3) err s =
              DefRes.ok { s with out_funcs := n :: s.out_funcs } := hpass
          refine ⟨fun _ => ⟨{ s with out_funcs := n :: s.out_funcs }, hpass2, ?_, rfl⟩,
            fun h => ?_⟩
          · simp [hvis]
          · rw [hvis] at h
            simp [declsOk] at h
            exact absurd h hmem
    · have hpass := nasl_lint_def_eq_default env 0 called nn ty sv ln c0 c1 c2 c3 err s hdef
      obtain ⟨s1, hb, hbo, hbd⟩ := def_call0_ok env nn sv ln c0 err s
      have hblock : (if ty = NODE_FUN_CALL then
          nasl_lint_def_call env 0 nn sv ln c0 err s else DefRes.ok s) = DefRes.ok s1 ∨
          (if ty = NODE_FUN_CALL then
          nasl_lint_def_call env 0 nn sv ln c0 err s else DefRes.ok s) = DefRes.ok s := by
        by_cases hcl : ty = NODE_FUN_CALL
        · left; rw [if_pos hcl]; exact hb
        · right; rw [if_neg hcl]
      have hvis : visibleDefs (tree_cell.node ty sv ln c0 c1 c2 c3) =
          visibleDefsList [c0, c1, c2, c3] := by
        simp [visibleDefs, hdef, visibleDefsList]
      have hcs := chainList_def0_spec env called nn err [c0, c1, c2, c3]
        (by
          intro c hcmem s2
          simp only [List.mem_cons, List.not_mem_nil, or_false] at hcmem
          rcases hcmem with rfl | rfl | rfl | rfl
          · exact ih0 err s2
          · exact ih1 err s2
          · exact ih2 err s2
          · exact ih3 err s2)
      rcases hblock with hblock | hblock
      · constructor
        · intro h
          rw [hvis] at h
          have h2 : declsOk s1.out_funcs (visibleDefsList [c0, c1, c2, c3]) = true := by
            rw [hbo]; exact h
          obtain ⟨s2, hok, hout, hdg⟩ := (hcs s1).1 h2
          refine ⟨s2, ?_, ?_, ?_⟩
          · rw [hpass, hblock]
            rw [← chainDef_eq_chainList] at hok
            simp [hok]
          · rw [hout, hbo, hvis]
          · rw [hdg, hbd]
        · intro h
          rw [hvis] at h
          have h2 : declsOk s1.out_funcs (visibleDefsList [c0, c1, c2, c3]) = false := by
            rw [hbo]; exact h
          obtain ⟨s2, hf, n, hh⟩ := (hcs s1).2 h2
          refine ⟨s2, ?_, n, hh⟩
          rw [hpass, hblock]
          rw [← chainDef_eq_chainList] at hf
          simp [hf]
      · constructor
        · intro h
          rw [hvis] at h
          obtain ⟨s2, hok, hout, hdg⟩ := (hcs s).1 h
          refine ⟨s2, ?_, ?_, ?_⟩
          · rw [hpass, hblock]
            rw [← chainDef_eq_chainList] at hok
            simp [hok]
          · rw [hout, hvis]
          · exact hdg
        · intro h
          rw [hvis] at h
          obtain ⟨s2, hf, n, hh⟩ := (hcs s).2 h
          refine ⟨s2, ?_, n, hh⟩
          rw [hpass, hblock]
          rw [← chainDef_eq_chainList] at hf
          simp [hf]

/-- Chains of pointwise-equal runners agree. -/
theorem chainList_congr (f g : tree_cell → Option String → St → DefRes) :
    ∀ cs : List tree_cell, (∀ c ∈ cs, ∀ err s, f c err s = g c err s) →
      ∀ err s, chainList f cs err s = chainList g cs err s := by
  intro cs
  induction cs with
  | nil => intro _ err s; rfl
  | cons c cs ih =>
    intro h err s
    have hc := h c (List.mem_cons_self c cs) err s
    simp only [chainList]
    rw [← hc]
    cases f c err s with
    | failed s1 => rfl
    | ok s1 => exact ih (fun d hd => h d (List.mem_cons_of_mem c hd)) err s1

/-- The duplicate-check pass never reads the called-function set. -/
theorem lint_def0_called_irrel (env : Env) (nn : String) :
    ∀ t : tree_cell, ∀ (called called2 : List String) (err : Option String) (s : St),
      nasl_lint_def env 0 called nn t err s = nasl_lint_def env 0 called2 nn t err s := by
  intro t
  induction t with
  | nil => intro called called2 err s; rfl
  | node ty sv ln c0 c1 c2 c3 ih0 ih1 ih2 ih3 =>
    intro called called2 err s
    by_cases hdef : ty = NODE_FUN_DEF
    · subst hdef
      rw [nasl_lint_def_eq_def0 env called nn sv ln c0 c1 c2 c3 err s,
        nasl_lint_def_eq_def0 env called2 nn sv ln c0 c1 c2 c3 err s]
    · rw [nasl_lint_def_eq_default env 0 called nn ty sv ln c0 c1 c2 c3 err s hdef,
        nasl_lint_def_eq_default env 0 called2 nn ty sv ln c0 c1 c2 c3 err s hdef]
      cases hb : (if ty = NODE_FUN_CALL then
          nasl_lint_def_call env 0 nn sv ln c0 err s else DefRes.ok s) with
      | failed s1 => rfl
      | ok s1 =>
        show chainDef _ _ _ _ _ _ _ = chainDef _ _ _ _ _ _ _
        rw [chainDef_eq_chainList, chainDef_eq_chainList]
        refine chainList_congr _ _ [c0, c1, c2, c3] ?_ err s1
        intro c hcm err2 s2
        simp only [List.mem_cons, List.not_mem_nil, or_false] at hcm
        rcases hcm with rfl | rfl | rfl | rfl
        · exact ih0 called called2 err2 s2
        · exact ih1 called called2 err2 s2
        · exact ih2 called called2 err2 s2
        · exact ih3 called called2 err2 s2

/-- C3 (amended): the duplicate-check pass rejects, with a
DuplicateFunctionDefinition diagnostic, every script whose definitions
*not nested inside another definition's body* repeat a name — starting
from a fresh outer context — and the pass makes no use of the
called-function set.  (Nested definitions are never visited by this pass:
`C3_counterexample`.) -/
theorem C3_amended :
    (∀ (env : Env) (called : List String) (nn : String) (t : tree_cell)
       (err : Option String) (s : St), s.out_funcs = [] →
       ¬ (visibleDefs t).Nodup →
       ∃ s1, nasl_lint_def env 0 called nn t err s = DefRes.failed s1 ∧
         ∃ n, s1.diags.head? = some (Diag.redefFunc (some n))) ∧
    (∀ (env : Env) (called called2 : List String) (nn : String) (t : tree_cell)
       (err : Option String) (s : St),
       nasl_lint_def env 0 called nn t err s = nasl_lint_def env 0 called2 nn t err s) := by
  constructor
  · intro env called nn t err s hout hnd
    have hfalse : declsOk s.out_funcs (visibleDefs t) = false := by
      rw [hout]
      cases hx : declsOk [] (visibleDefs t) with
      | false => rfl
      | true => exact absurd (declsOk_true_nodup (visibleDefs t) [] hx).1 hnd
    exact (lint_def0_spec env called nn t err s).2 hfalse
  · exact fun env called called2 nn t err s =>
      lint_def0_called_irrel env nn t called called2 err s

/-- Two sibling definitions of `x`. -/
def TC3dup : tree_cell :=
  seq3 (leaf NODE_FUN_DEF (some ("x")) 1) (leaf NODE_FUN_DEF (some ("x")) 2)
    tree_cell.nil

/-- Witness for C3: two sibling definitions of `x` make the mode-0 pass
fail, with any called-function set. -/
theorem C3_amended_witness :
    ¬ (visibleDefs TC3dup).Nodup ∧
      resFailed (nasl_lint_def envP 0 [] ("t.nasl") TC3dup none
        (initSt [] initStatics ("t.nasl"))) = true := by
  obtain ⟨s1, hf, -⟩ := C3_amended.1 envP [] ("t.nasl") TC3dup none
    (initSt [] initStatics ("t.nasl")) rfl (by decide)
  refine ⟨by decide, ?_⟩
  rw [hf]
  rfl

/-! ## The call-validation pass: reachability and diagnostics -/

/-- When the top-level file is an include (".inc" suffix), the reverse
search never classifies a call site as reachable. -/
theorem rs_no_true (nn : String) (tree : List func_info)
    (hsuf : g_str_has_suffix nn (".inc") = true) :
    ∀ n r, reverse_search nn tree n r ≠ some true := by
  intro n
  induction n with
  | zero => intro r h; exact Option.noConfusion h
  | succ n ih =>
    intro r h
    rw [reverse_search_succ] at h
    rw [if_neg (by simp [hsuf])] at h
    by_cases hself : r.func_name = r.caller_func
    · rw [if_pos hself] at h
      exact Bool.noConfusion (Option.some.inj h)
    · rw [if_neg hself] at h
      cases hf : find_custom1 tree r.caller_func with
      | none =>
        rw [hf] at h
        exact Bool.noConfusion (Option.some.inj h)
      | some r2 =>
        rw [hf] at h
        exact ih r2 h

/-- The include-marking stage changes only the include table. -/
theorem call_fn_mark_fields (env : Env) (sv : Option String) (s : St) :
    (call_fn_mark env sv s).diags = s.diags ∧
      (call_fn_mark env sv s).aux_funcs = s.aux_funcs ∧
      (call_fn_mark env sv s).def_func_tree = s.def_func_tree ∧
      (call_fn_mark env sv s).cur_file = s.cur_file ∧
      (call_fn_mark env sv s).defined_flag = s.defined_flag ∧
      (call_fn_mark env sv s).func_fnames_tab = s.func_fnames_tab := by
  cases sv with
  | none => exact ⟨rfl, rfl, rfl, rfl, rfl, rfl⟩
  | some v =>
    cases hl : hash_lookup s.include_files (nasl_get_filename env s.cur_file (some v)) with
    | none => simp [call_fn_mark, hl]
    | some b => simp [call_fn_mark, hl]

/-- The flag stage changes only the `defined_func` flag. -/
theorem call_fn_flag_fields (sv : Option String) (s : St) :
    (call_fn_flag sv s).diags = s.diags ∧
      (call_fn_flag sv s).aux_funcs = s.aux_funcs ∧
      (call_fn_flag sv s).def_func_tree = s.def_func_tree ∧
      (call_fn_flag sv s).cur_file = s.cur_file ∧
      (call_fn_flag sv s).func_fnames_tab = s.func_fnames_tab ∧
      (call_fn_flag sv s).include_files = s.include_files := by
  unfold call_fn_flag
  by_cases hv : sv = some ("defined_func")
  · rw [if_pos hv]; exact ⟨rfl, rfl, rfl, rfl, rfl, rfl⟩
  · rw [if_neg hv]; exact ⟨rfl, rfl, rfl, rfl, rfl, rfl⟩

/-- Diagnostics through the undefined-function check: success preserves
them, failure prepends exactly one UndefinedFunction naming the call. -/
theorem call_fn_check_diags (env : Env) (fuel : Nat) (nn : String)
    (sv : Option String) (ln : Nat) (s : St) :
    (∀ s1, call_fn_check env fuel nn sv ln s = some (DefRes.ok s1) →
      s1.diags = s.diags) ∧
    (∀ s1, call_fn_check env fuel nn sv ln s = some (DefRes.failed s1) →
      ∃ f, s1.diags = Diag.undefFunc f ln sv :: s.diags) := by
  have hd2 : (call_fn_setfile sv s).diags = s.diags := by
    cases sv with
    | none => rfl
    | some v =>
      cases hl : hash_lookup s.func_fnames_tab v with
      | none => simp [call_fn_setfile, hl]
      | some o =>
        cases o with
        | none => simp [call_fn_setfile, hl]
        | some f => simp [call_fn_setfile, hl]
  unfold call_fn_check
  by_cases hpf : get_func_ref_by_name env s.aux_funcs sv = true
  · rw [if_pos hpf]
    constructor
    · intro s1 h
      cases DefRes.ok.inj (Option.some.inj h)
      rfl
    · intro s1 h
      exact DefRes.noConfusion (Option.some.inj h)
  · rw [if_neg hpf]
    cases hf : find_custom1 (call_fn_setfile sv s).def_func_tree sv with
    | none =>
      simp only [hf]
      constructor
      · intro s1 h
        cases DefRes.ok.inj (Option.some.inj h)
        exact hd2
      · intro s1 h
        exact DefRes.noConfusion (Option.some.inj h)
    | some finfo =>
      simp only [hf]
      cases hr : reverse_search nn (call_fn_setfile sv s).def_func_tree fuel finfo with
      | none =>
        simp only [hr]
        exact ⟨fun s1 h => Option.noConfusion h, fun s1 h => Option.noConfusion h⟩
      | some b =>
        cases b with
        | true =>
          simp only [hr]
          constructor
          · intro s1 h
            exact DefRes.noConfusion (Option.some.inj h)
          · intro s1 h
            cases DefRes.failed.inj (Option.some.inj h)
            exact ⟨(call_fn_setfile sv s).cur_file, by rw [hd2]⟩
        | false =>
          simp only [hr]
          constructor
          · intro s1 h
            cases DefRes.ok.inj (Option.some.inj h)
            exact hd2
          · intro s1 h
            exact DefRes.noConfusion (Option.some.inj h)

/-- Under an ".inc" top-level file, the undefined-function check can
diverge or succeed but never fail. -/
theorem call_fn_check_inc_no_fail (env : Env) (fuel : Nat) (nn : String)
    (sv : Option String) (ln : Nat) (s : St)
    (hsuf : g_str_has_suffix nn (".inc") = true) :
    ∀ s1, call_fn_check env fuel nn sv ln s ≠ some (DefRes.failed s1) := by
  intro s1 h
  unfold call_fn_check at h
  by_cases hpf : get_func_ref_by_name env s.aux_funcs sv = true
  · rw [if_pos hpf] at h
    exact DefRes.noConfusion (Option.some.inj h)
  · rw [if_neg hpf] at h
    cases hf : find_custom1 (call_fn_setfile sv s).def_func_tree sv with
    | none =>
      simp [hf] at h
    | some finfo =>
      cases hr : reverse_search nn (call_fn_setfile sv s).def_func_tree fuel finfo with
      | none =>
        simp [hf, hr] at h
      | some b =>
        cases b with
        | true => exact rs_no_true nn _ hsuf fuel finfo hr
        | false =>
          simp [hf, hr] at h

/-- Diagnostics through the whole call case: success preserves them,
failure prepends exactly one UndefinedFunction naming the call. -/
theorem call_fn_diags (env : Env) (fuel : Nat) (nn : String)
    (sv : Option String) (ln : Nat) (s : St) :
    (∀ s1, nasl_lint_call_fn env fuel nn sv ln s = some (DefRes.ok s1) →
      s1.diags = s.diags) ∧
    (∀ s1, nasl_lint_call_fn env fuel nn sv ln s = some (DefRes.failed s1) →
      ∃ f, s1.diags = Diag.undefFunc f ln sv :: s.diags) := by
  unfold nasl_lint_call_fn
  cases hc : call_fn_check env fuel nn sv ln s with
  | none => exact ⟨fun s1 h => Option.noConfusion h, fun s1 h => Option.noConfusion h⟩
  | some r =>
    cases r with
    | failed s2 =>
      constructor
      · intro s1 h
        exact DefRes.noConfusion (Option.some.inj h)
      · intro s1 h
        cases DefRes.failed.inj (Option.some.inj h)
        exact (call_fn_check_diags env fuel nn sv ln s).2 s2 hc
    | ok s2 =>
      constructor
      · intro s1 h
        cases DefRes.ok.inj (Option.some.inj h)
        rw [(call_fn_flag_fields sv (call_fn_mark env sv s2)).1,
          (call_fn_mark_fields env sv s2).1]
        exact (call_fn_check_diags env fuel nn sv ln s).1 s2 hc
      · intro s1 h
        exact DefRes.noConfusion (Option.some.inj h)

/-- Under an ".inc" top-level file, the whole call case never fails. -/
theorem call_fn_inc_no_fail (env : Env) (fuel : Nat) (nn : String)
    (sv : Option String) (ln : Nat) (s : St)
    (hsuf : g_str_has_suffix nn (".inc") = true) :
    ∀ s1, nasl_lint_call_fn env fuel nn sv ln s ≠ some (DefRes.failed s1) := by
  intro s1 h
  unfold nasl_lint_call_fn at h
  cases hc : call_fn_check env fuel nn sv ln s with
  | none =>
    rw [hc] at h
    exact Option.noConfusion h
  | some r =>
    cases r with
    | failed s2 => exact call_fn_check_inc_no_fail env fuel nn sv ln s hsuf s2 hc
    | ok s2 =>
      rw [hc] at h
      exact DefRes.noConfusion (Option.some.inj h)

/-- Four-child sequencing of the call pass, short-circuiting on failure
and divergence. -/
def chainCallList (f : tree_cell → St → Option DefRes) :
    List tree_cell → St → Option DefRes
  | [], s => some (DefRes.ok s)
  | c :: cs, s =>
    match f c s with
    | none => none
    | some (DefRes.failed s1) => some (DefRes.failed s1)
    | some (DefRes.ok s1) => chainCallList f cs s1

/-- Node equation of `nasl_lint_call` on a skipped definition. -/
theorem nasl_lint_call_eq_skip (env : Env) (fuel : Nat) (called : List String)
    (nn : String) (sv : Option String) (ln : Nat) (c0 c1 c2 c3 : tree_cell)
    (s : St) (hc : memOpt sv called = false) :
    nasl_lint_call env fuel called nn
      (tree_cell.node NODE_FUN_DEF sv ln c0 c1 c2 c3) s = some (DefRes.ok s) := by
  simp [nasl_lint_call, hc]

/-- Node equation of `nasl_lint_call` on a constant. -/
theorem nasl_lint_call_eq_const (env : Env) (fuel : Nat) (called : List String)
    (nn : String) (ty : NodeType) (sv : Option String) (ln : Nat)
    (c0 c1 c2 c3 : tree_cell) (s : St)
    (hty : ty = CONST_DATA ∨ ty = CONST_STR) :
    nasl_lint_call env fuel called nn (tree_cell.node ty sv ln c0 c1 c2 c3) s =
      (if sv.isSome ∧ s.defined_flag then
        some (DefRes.ok { s with
          aux_funcs := (decl_nasl_func s.aux_funcs sv 1).getD s.aux_funcs,
          defined_flag := false })
      else some (DefRes.ok s)) := by
  have hnd : ¬ (ty = NODE_FUN_DEF ∧ memOpt sv called = false) := by
    rcases hty with h | h <;> subst h <;> simp
  simp only [nasl_lint_call]
  rw [if_neg hnd, if_pos hty]

/-- Node equation of `nasl_lint_call` on other nodes (including visited
definitions): the call block when applicable, then the four children. -/
theorem nasl_lint_call_eq_node (env : Env) (fuel : Nat) (called : List String)
    (nn : String) (ty : NodeType) (sv : Option String) (ln : Nat)
    (c0 c1 c2 c3 : tree_cell) (s : St)
    (hskip : ¬ (ty = NODE_FUN_DEF ∧ memOpt sv called = false))
    (hconst : ¬ (ty = CONST_DATA ∨ ty = CONST_STR)) :
    nasl_lint_call env fuel called nn (tree_cell.node ty sv ln c0 c1 c2 c3) s =
      match (if ty = NODE_FUN_CALL then nasl_lint_call_fn env fuel nn sv ln s
             else some (DefRes.ok s)) with
      | none => none
      | some (DefRes.failed s1) => some (DefRes.failed s1)
      | some (DefRes.ok s1) =>
        chainCallList (nasl_lint_call env fuel called nn) [c0, c1, c2, c3] s1 := by
  simp only [nasl_lint_call]
  rw [if_neg hskip, if_neg hconst]
  cases hb : (if ty = NODE_FUN_CALL then nasl_lint_call_fn env fuel nn sv ln s
      else some (DefRes.ok s)) with
  | none => rfl
  | some r =>
    cases r with
    | failed s1 => rfl
    | ok s1 =>
      show (match nasl_lint_call env fuel called nn c0 s1 with
        | none => none
        | some (DefRes.failed s2) => some (DefRes.failed s2)
        | some (DefRes.ok s2) =>
          match nasl_lint_call env fuel called nn c1 s2 with
          | none => none
          | some (DefRes.failed s3) => some (DefRes.failed s3)
          | some (DefRes.ok s3) =>
            match nasl_lint_call env fuel called nn c2 s3 with
            | none => none
            | some (DefRes.failed s4) => some (DefRes.failed s4)
            | some (DefRes.ok s4) =>
              match nasl_lint_call env fuel called nn c3 s4 with
              | none => none
              | some (DefRes.failed s5) => some (DefRes.failed s5)
              | some (DefRes.ok s5) => some (DefRes.ok s5)) = _
      cases h0 : nasl_lint_call env fuel called nn c0 s1 with
      | none => simp [chainCallList, h0]
      | some r0 =>
        cases r0 with
        | failed s2 => simp [chainCallList, h0]
        | ok s2 =>
          cases h1 : nasl_lint_call env fuel called nn c1 s2 with
          | none => simp [chainCallList, h0, h1]
          | some r1 =>
            cases r1 with
            | failed s3 => simp [chainCallList, h0, h1]
            | ok s3 =>
              cases h2 : nasl_lint_call env fuel called nn c2 s3 with
              | none => simp [chainCallList, h0, h1, h2]
              | some r2 =>
                cases r2 with
                | failed s4 => simp [chainCallList, h0, h1, h2]
                | ok s4 =>
                  cases h3 : nasl_lint_call env fuel called nn c3 s4 with
                  | none => simp [chainCallList, h0, h1, h2, h3]
                  | some r3 =>
                    cases r3 with
                    | failed s5 => simp [chainCallList, h0, h1, h2, h3]
                    | ok s5 => simp [chainCallList, h0, h1, h2, h3]

/-- Diagnostic extension through a `DefRes` chain: success preserves the
sink, failure prepends exactly one diagnostic satisfying `P`. -/
theorem chainList_diags_ext (f : tree_cell → Option String → St → DefRes)
    (err : Option String) (P : Diag → Prop) :
    ∀ cs : List tree_cell,
      (∀ c ∈ cs, ∀ (s s1 : St),
        (f c err s = DefRes.ok s1 → s1.diags = s.diags) ∧
        (f c err s = DefRes.failed s1 → ∃ d, s1.diags = d :: s.diags ∧ P d)) →
      ∀ s s1 : St,
        (chainList f cs err s = DefRes.ok s1 → s1.diags = s.diags) ∧
        (chainList f cs err s = DefRes.failed s1 →
          ∃ d, s1.diags = d :: s.diags ∧ P d) := by
  intro cs
  induction cs with
  | nil =>
    intro H s s1
    constructor
    · intro h
      cases DefRes.ok.inj h
      rfl
    · intro h
      exact DefRes.noConfusion h
  | cons c cs ih =>
    intro H s s1
    have Hc := H c (List.mem_cons_self c cs) s
    cases hc : f c err s with
    | failed s2 =>
      constructor
      · intro h
        simp only [chainList, hc] at h
        exact DefRes.noConfusion h
      · intro h
        simp only [chainList, hc] at h
        obtain ⟨d, hdd, hp⟩ := (Hc s2).2 hc
        cases DefRes.failed.inj h
        exact ⟨d, hdd, hp⟩
    | ok s2 =>
      have hd2 := (Hc s2).1 hc
      constructor
      · intro h
        simp only [chainList, hc] at h
        have := ((ih (fun d hd => H d (List.mem_cons_of_mem c hd)) s2 s1).1) h
        rw [this, hd2]
      · intro h
        simp only [chainList, hc] at h
        obtain ⟨d, hdd, hp⟩ := ((ih (fun d hd => H d (List.mem_cons_of_mem c hd)) s2 s1).2) h
        exact ⟨d, by rw [hdd, hd2], hp⟩

/-- Diagnostic extension through the definition pass's call block: success
preserves the sink, failure prepends one DuplicateCallParameter. -/
theorem def_call_diags (env : Env) (mode : Nat) (nn : String) (sv : Option String)
    (ln : Nat) (c0 : tree_cell) (err : Option String) (s s1 : St) :
    (nasl_lint_def_call env mode nn sv ln c0 err s = DefRes.ok s1 →
      s1.diags = s.diags) ∧
    (nasl_lint_def_call env mode nn sv ln c0 err s = DefRes.failed s1 →
      ∃ d, s1.diags = d :: s.diags ∧ diagIsUndef d = false) := by
  unfold nasl_lint_def_call
  by_cases hm : mode = 1
  · subst hm
    cases hsc : scan_params c0 [] with
    | some p =>
      simp only [hsc]
      by_cases hpf : get_func_ref_by_name env (ctx_funcs 1 s) sv = true
      · simp only [hpf, if_true, reduceIte]
        constructor
        · intro h
          exact DefRes.noConfusion h
        · intro h
          cases DefRes.failed.inj h
          exact ⟨_, rfl, rfl⟩
      · simp only [hpf, if_false, Bool.false_eq_true, reduceIte]
        cases sv with
        | none =>
          constructor
          · intro h
            exact DefRes.noConfusion h
          · intro h
            cases DefRes.failed.inj h
            exact ⟨_, rfl, rfl⟩
        | some v =>
          constructor
          · intro h
            exact DefRes.noConfusion h
          · intro h
            cases DefRes.failed.inj h
            exact ⟨_, rfl, rfl⟩
    | none =>
      simp only [hsc]
      by_cases hpf : get_func_ref_by_name env (ctx_funcs 1 s) sv = true
      · simp only [hpf, if_true, reduceIte]
        constructor
        · intro h
          cases DefRes.ok.inj h
          rfl
        · intro h
          exact DefRes.noConfusion h
      · simp only [hpf, if_false, Bool.false_eq_true, reduceIte]
        cases sv with
        | none =>
          constructor
          · intro h
            cases DefRes.ok.inj h
            rfl
          · intro h
            exact DefRes.noConfusion h
        | some v =>
          constructor
          · intro h
            cases DefRes.ok.inj h
            rfl
          · intro h
            exact DefRes.noConfusion h
  · simp only [hm, reduceIte]
    by_cases hpf : get_func_ref_by_name env (ctx_funcs mode s) sv = true
    · simp only [hpf, if_true, reduceIte]
      constructor
      · intro h
        cases DefRes.ok.inj h
        rfl
      · intro h
        exact DefRes.noConfusion h
    · simp only [hpf, if_false, Bool.false_eq_true, reduceIte]
      cases sv with
      | none =>
        constructor
        · intro h
          cases DefRes.ok.inj h
          rfl
        · intro h
          exact DefRes.noConfusion h
      | some v =>
        constructor
        · intro h
          cases DefRes.ok.inj h
          rfl
        · intro h
          exact DefRes.noConfusion h

/-- Diagnostic extension through the definition pass (both lint modes):
success preserves the sink, failure prepends one DuplicateCallParameter or
DuplicateFunctionDefinition — never an UndefinedFunction. -/
theorem lint_def_diags_ext (env : Env) (mode : Nat) (called : List String)
    (nn : String) (hmode : mode = 0 ∨ mode = 1) :
    ∀ t : tree_cell, ∀ (err : Option String) (s s1 : St),
      (nasl_lint_def env mode called nn t err s = DefRes.ok s1 →
        s1.diags = s.diags) ∧
      (nasl_lint_def env mode called nn t err s = DefRes.failed s1 →
        ∃ d, s1.diags = d :: s.diags ∧ diagIsUndef d = false) := by
  intro t
  induction t with
  | nil =>
    intro err s s1
    constructor
    · intro h
      cases DefRes.ok.inj h
      rfl
    · intro h
      exact DefRes.noConfusion h
  | node ty sv ln c0 c1 c2 c3 ih0 ih1 ih2 ih3 =>
    intro err s s1
    by_cases hdef : ty = NODE_FUN_DEF
    · subst hdef
      rcases hmode with hm | hm
      · subst hm
        rw [nasl_lint_def_eq_def0 env called nn sv ln c0 c1 c2 c3 err s]
        cases hd : decl_nasl_func s.out_funcs sv 0 with
        | none =>
          constructor
          · intro h
            exact DefRes.noConfusion h
          · intro h
            cases DefRes.failed.inj h
            exact ⟨_, rfl, rfl⟩
        | some f =>
          constructor
          · intro h
            cases DefRes.ok.inj h
            rfl
          · intro h
            exact DefRes.noConfusion h
      · subst hm
        by_cases hc : memOpt sv called = true
        · rw [nasl_lint_def_eq_def1_visit env called nn sv ln c0 c1 c2 c3 err s hc,
            chainDefRestore_eq, chainDef_eq_chainList]
          have hch := chainList_diags_ext (nasl_lint_def env 1 called nn)
            (some (nasl_get_filename env s.cur_file sv))
            (fun d => diagIsUndef d = false) [c0, c1, c2, c3]
            (by
              intro c hcm s2 s3
              simp only [List.mem_cons, List.not_mem_nil, or_false] at hcm
              rcases hcm with rfl | rfl | rfl | rfl
              · exact ih0 _ s2 s3
              · exact ih1 _ s2 s3
              · exact ih2 _ s2 s3
              · exact ih3 _ s2 s3)
          cases hcl : chainList (nasl_lint_def env 1 called nn) [c0, c1, c2, c3]
              (some (nasl_get_filename env s.cur_file sv)) (defEnterSt env sv s) with
          | failed s2 =>
            constructor
            · intro h
              simp only [hcl] at h
              exact DefRes.noConfusion h
            · intro h
              simp only [hcl] at h
              obtain ⟨d, hdd, hp⟩ := (hch (defEnterSt env sv s) s2).2 hcl
              cases DefRes.failed.inj h
              exact ⟨d, hdd, hp⟩
          | ok s2 =>
            constructor
            · intro h
              simp only [hcl] at h
              cases DefRes.ok.inj h
              exact (hch (defEnterSt env sv s) s2).1 hcl
            · intro h
              simp only [hcl] at h
              exact DefRes.noConfusion h
        · have hc2 : memOpt sv called = false := by
            cases hx : memOpt sv called
            · rfl
            · exact absurd hx hc
          rw [nasl_lint_def_eq_def1_skip env called nn sv ln c0 c1 c2 c3 err s hc2]
          constructor
          · intro h
            cases DefRes.ok.inj h
            rfl
          · intro h
            exact DefRes.noConfusion h
    · rw [nasl_lint_def_eq_default env mode called nn ty sv ln c0 c1 c2 c3 err s hdef]
      have hch := chainList_diags_ext (nasl_lint_def env mode called nn) err
        (fun d => diagIsUndef d = false) [c0, c1, c2, c3]
        (by
          intro c hcm s2 s3
          simp only [List.mem_cons, List.not_mem_nil, or_false] at hcm
          rcases hcm with rfl | rfl | rfl | rfl
          · exact ih0 _ s2 s3
          · exact ih1 _ s2 s3
          · exact ih2 _ s2 s3
          · exact ih3 _ s2 s3)
      cases hb : (if ty = NODE_FUN_CALL then
          nasl_lint_def_call env mode nn sv ln c0 err s else DefRes.ok s) with
      | failed s2 =>
        have hbd : ∃ d, s2.diags = d :: s.diags ∧ diagIsUndef d = false := by
          by_cases hcall : ty = NODE_FUN_CALL
          · rw [if_pos hcall] at hb
            exact (def_call_diags env mode nn sv ln c0 err s s2).2 hb
          · rw [if_neg hcall] at hb
            exact absurd hb (by simp)
        constructor
        · intro h
          simp only [hb] at h
          exact DefRes.noConfusion h
        · intro h
          simp only [hb] at h
          obtain ⟨d, hdd, hp⟩ := hbd
          cases DefRes.failed.inj h
          exact ⟨d, hdd, hp⟩
      | ok s2 =>
        have hbd : s2.diags = s.diags := by
          by_cases hcall : ty = NODE_FUN_CALL
          · rw [if_pos hcall] at hb
            exact (def_call_diags env mode nn sv ln c0 err s s2).1 hb
          · rw [if_neg hcall] at hb
            cases DefRes.ok.inj hb
            rfl
        constructor
        · intro h
          simp only [hb] at h
          rw [chainDef_eq_chainList] at h
          have := (hch s2 s1).1 h
          rw [this, hbd]
        · intro h
          simp only [hb] at h
          rw [chainDef_eq_chainList] at h
          obtain ⟨d, hdd, hp⟩ := (hch s2 s1).2 h
          exact ⟨d, by rw [hdd, hbd], hp⟩

/-- The variable-pass flag machine never emits an UndefinedFunction:
success keeps the diagnostic sink, failure prepends one UndeclaredVariable. -/
theorem defvar_step_diags (ty : NodeType) (sv : Option String) (ln : Nat)
    (s s1 : St) :
    (nasl_lint_defvar_step ty sv ln s = DefRes.ok s1 → s1.diags = s.diags) ∧
    (nasl_lint_defvar_step ty sv ln s = DefRes.failed s1 →
      ∃ d, s1.diags = d :: s.diags ∧ diagIsUndef d = false) := by
  constructor <;>
  · intro h
    simp only [nasl_lint_defvar_step] at h
    generalize hR : (if (s.defined_fn_mode || s.def_glob_var) = true ∧ ty ≠ NODE_DECL
      then { s with defined_fn_mode := false, def_glob_var := false } else s) = R at h
    have hRd : R.diags = s.diags := by
      rw [← hR]
      split <;> rfl
    repeat' split at h
    all_goals first
      | (cases DefRes.ok.inj h; exact hRd)
      | exact DefRes.noConfusion h
      | (cases DefRes.failed.inj h;
         exact ⟨Diag.undeclVar R.cur_file ln sv, by rw [hRd], rfl⟩)

/-- Node equation of `nasl_lint_defvar` on a skipped (uncalled) definition. -/
theorem nasl_lint_defvar_eq_skip (env : Env) (called : List String)
    (nn : String) (sv : Option String) (ln : Nat) (c0 c1 c2 c3 : tree_cell)
    (s : St) (hc : memOpt sv called = false) :
    nasl_lint_defvar env called nn
      (tree_cell.node NODE_FUN_DEF sv ln c0 c1 c2 c3) s = DefRes.ok s := by
  simp [nasl_lint_defvar, hc]

/-- Node equation of `nasl_lint_defvar` on a visited node: flag step, the
four children in order, and the local list cleared when leaving a
definition. -/
theorem nasl_lint_defvar_eq_node (env : Env) (called : List String)
    (nn : String) (ty : NodeType) (sv : Option String) (ln : Nat)
    (c0 c1 c2 c3 : tree_cell) (s : St)
    (hns : ¬(ty = NODE_FUN_DEF ∧ memOpt sv called = false)) :
    nasl_lint_defvar env called nn (tree_cell.node ty sv ln c0 c1 c2 c3) s =
      match nasl_lint_defvar_step ty sv ln s with
      | DefRes.failed s1 => DefRes.failed s1
      | DefRes.ok s1 =>
        match chainList (fun c _ st => nasl_lint_defvar env called nn c st)
            [c0, c1, c2, c3] none s1 with
        | DefRes.failed s5 => DefRes.failed s5
        | DefRes.ok s5 =>
          DefRes.ok (if ty = NODE_FUN_DEF then
            { s5 with local_var_list := [] } else s5) := by
  show (if ty = NODE_FUN_DEF ∧ memOpt sv called = false then _ else _) = _
  rw [if_neg hns]
  cases hst : nasl_lint_defvar_step ty sv ln s with
  | failed s1 => simp [hst]
  | ok s1 =>
    simp only [hst]
    cases h0 : nasl_lint_defvar env called nn c0 s1 with
    | failed s2 => simp [chainList, h0]
    | ok s2 =>
      cases h1 : nasl_lint_defvar env called nn c1 s2 with
      | failed s3 => simp [chainList, h0, h1]
      | ok s3 =>
        cases h2 : nasl_lint_defvar env called nn c2 s3 with
        | failed s4 => simp [chainList, h0, h1, h2]
        | ok s4 =>
          cases h3 : nasl_lint_defvar env called nn c3 s4 with
          | failed s5 => simp [chainList, h0, h1, h2, h3]
          | ok s5 => simp [chainList, h0, h1, h2, h3]

/-- Diagnostic extension through the variable-scope pass: success preserves
the sink, failure prepends one UndeclaredVariable — never an
UndefinedFunction. -/
theorem lint_defvar_diags_ext (env : Env) (called : List String) (nn : String) :
    ∀ t : tree_cell, ∀ s s1 : St,
      (nasl_lint_defvar env called nn t s = DefRes.ok s1 →
        s1.diags = s.diags) ∧
      (nasl_lint_defvar env called nn t s = DefRes.failed s1 →
        ∃ d, s1.diags = d :: s.diags ∧ diagIsUndef d = false) := by
  intro t
  induction t with
  | nil =>
    intro s s1
    constructor
    · intro h
      cases DefRes.ok.inj h
      rfl
    · intro h
      exact DefRes.noConfusion h
  | node ty sv ln c0 c1 c2 c3 ih0 ih1 ih2 ih3 =>
    intro s s1
    by_cases hns : ty = NODE_FUN_DEF ∧ memOpt sv called = false
    · rw [show ty = NODE_FUN_DEF from hns.1,
        nasl_lint_defvar_eq_skip env called nn sv ln c0 c1 c2 c3 s hns.2]
      constructor
      · intro h
        cases DefRes.ok.inj h
        rfl
      · intro h
        exact DefRes.noConfusion h
    · rw [nasl_lint_defvar_eq_node env called nn ty sv ln c0 c1 c2 c3 s hns]
      have hch := chainList_diags_ext
        (fun c _ st => nasl_lint_defvar env called nn c st) none
        (fun d => diagIsUndef d = false) [c0, c1, c2, c3]
        (by
          intro c hcm s2 s3
          simp only [List.mem_cons, List.not_mem_nil, or_false] at hcm
          rcases hcm with rfl | rfl | rfl | rfl
          · exact ih0 s2 s3
          · exact ih1 s2 s3
          · exact ih2 s2 s3
          · exact ih3 s2 s3)
      cases hst : nasl_lint_defvar_step ty sv ln s with
      | failed s2 =>
        constructor
        · intro h
          simp only [hst] at h
          exact DefRes.noConfusion h
        · intro h
          simp only [hst] at h
          obtain ⟨d, hdd, hp⟩ := (defvar_step_diags ty sv ln s s2).2 hst
          cases DefRes.failed.inj h
          exact ⟨d, hdd, hp⟩
      | ok s2 =>
        have hsd := (defvar_step_diags ty sv ln s s2).1 hst
        cases hcl : chainList (fun c _ st => nasl_lint_defvar env called nn c st)
            [c0, c1, c2, c3] none s2 with
        | failed s3 =>
          constructor
          · intro h
            simp only [hst, hcl] at h
            exact DefRes.noConfusion h
          · intro h
            simp only [hst, hcl] at h
            obtain ⟨d, hdd, hp⟩ := (hch s2 s3).2 hcl
            cases DefRes.failed.inj h
            exact ⟨d, by rw [hdd, hsd], hp⟩
        | ok s3 =>
          constructor
          · intro h
            simp only [hst, hcl] at h
            have h3 := (hch s2 s3).1 hcl
            cases DefRes.ok.inj h
            by_cases hdf : ty = NODE_FUN_DEF
            · rw [if_pos hdf]
              show s3.diags = s.diags
              rw [h3, hsd]
            · rw [if_neg hdf]
              rw [h3, hsd]
          · intro h
            simp only [hst, hcl] at h
            exact DefRes.noConfusion h

/-- Diagnostic extension through a child chain of the call pass. -/
theorem chainCallList_diags_ext (f : tree_cell → St → Option DefRes)
    (P : Diag → Prop) :
    ∀ cs : List tree_cell,
      (∀ c ∈ cs, ∀ s s1 : St,
        (f c s = some (DefRes.ok s1) → s1.diags = s.diags) ∧
        (f c s = some (DefRes.failed s1) → ∃ d, s1.diags = d :: s.diags ∧ P d)) →
      ∀ s s1 : St,
        (chainCallList f cs s = some (DefRes.ok s1) → s1.diags = s.diags) ∧
        (chainCallList f cs s = some (DefRes.failed s1) →
          ∃ d, s1.diags = d :: s.diags ∧ P d) := by
  intro cs
  induction cs with
  | nil =>
    intro H s s1
    constructor
    · intro h
      cases DefRes.ok.inj (Option.some.inj h)
      rfl
    · intro h
      exact DefRes.noConfusion (Option.some.inj h)
  | cons c cs ih =>
    intro H s s1
    have Hc := H c (List.mem_cons_self c cs)
    have Hcs := ih (fun c2 hc2 => H c2 (List.mem_cons_of_mem c hc2))
    cases hc : f c s with
    | none =>
      constructor
      · intro h
        simp only [chainCallList, hc] at h
        exact Option.noConfusion h
      · intro h
        simp only [chainCallList, hc] at h
        exact Option.noConfusion h
    | some r =>
      cases r with
      | failed s2 =>
        constructor
        · intro h
          simp only [chainCallList, hc] at h
          exact absurd h (by simp)
        · intro h
          simp only [chainCallList, hc] at h
          obtain ⟨d, hdd, hp⟩ := (Hc s s2).2 hc
          cases DefRes.failed.inj (Option.some.inj h)
          exact ⟨d, hdd, hp⟩
      | ok s2 =>
        constructor
        · intro h
          simp only [chainCallList, hc] at h
          have := (Hcs s2 s1).1 h
          rw [this, (Hc s s2).1 hc]
        · intro h
          simp only [chainCallList, hc] at h
          obtain ⟨d, hdd, hp⟩ := (Hcs s2 s1).2 h
          exact ⟨d, by rw [hdd, (Hc s s2).1 hc], hp⟩

/-- The visited call names of a child are visited call names of the node,
for a node the pass does not skip. -/
theorem visited_sub (called : List String) (ty : NodeType) (sv : Option String)
    (ln : Nat) (c0 c1 c2 c3 : tree_cell)
    (hskip : ¬ (ty = NODE_FUN_DEF ∧ memOpt sv called = false))
    (hconst : ¬ (ty = CONST_DATA ∨ ty = CONST_STR)) :
    ∀ c ∈ [c0, c1, c2, c3], ∀ v, v ∈ visitedCallNamesC called c →
      v ∈ visitedCallNamesC called (tree_cell.node ty sv ln c0 c1 c2 c3) := by
  intro c hcm v hv
  simp only [visitedCallNamesC, if_neg hskip, if_neg hconst, List.mem_append]
  simp only [List.mem_cons, List.not_mem_nil, or_false] at hcm
  rcases hcm with rfl | rfl | rfl | rfl
  · exact Or.inl (Or.inl (Or.inl (Or.inr hv)))
  · exact Or.inl (Or.inl (Or.inr hv))
  · exact Or.inl (Or.inr hv)
  · exact Or.inr hv

/-- Diagnostics through the call-validation pass: success preserves the
sink; failure prepends exactly one UndefinedFunction, and the name it
reports is one of the call names the pass visits. -/
theorem lint_call_diags (env : Env) (fuel : Nat) (called : List String)
    (nn : String) :
    ∀ t : tree_cell, ∀ s s1 : St,
      (nasl_lint_call env fuel called nn t s = some (DefRes.ok s1) →
        s1.diags = s.diags) ∧
      (nasl_lint_call env fuel called nn t s = some (DefRes.failed s1) →
        ∃ f l v, s1.diags = Diag.undefFunc f l v :: s.diags ∧
          v ∈ visitedCallNamesC called t) := by
  intro t
  induction t with
  | nil =>
    intro s s1
    constructor
    · intro h
      cases DefRes.ok.inj (Option.some.inj h)
      rfl
    · intro h
      exact DefRes.noConfusion (Option.some.inj h)
  | node ty sv ln c0 c1 c2 c3 ih0 ih1 ih2 ih3 =>
    intro s s1
    by_cases hskip : ty = NODE_FUN_DEF ∧ memOpt sv called = false
    · obtain ⟨hty, hmem⟩ := hskip
      subst hty
      rw [nasl_lint_call_eq_skip env fuel called nn sv ln c0 c1 c2 c3 s hmem]
      constructor
      · intro h
        cases DefRes.ok.inj (Option.some.inj h)
        rfl
      · intro h
        exact DefRes.noConfusion (Option.some.inj h)
    · by_cases hconst : ty = CONST_DATA ∨ ty = CONST_STR
      · rw [nasl_lint_call_eq_const env fuel called nn ty sv ln c0 c1 c2 c3 s hconst]
        constructor
        · intro h
          split at h
          · cases DefRes.ok.inj (Option.some.inj h)
            rfl
          · cases DefRes.ok.inj (Option.some.inj h)
            rfl
        · intro h
          split at h
          · exact DefRes.noConfusion (Option.some.inj h)
          · exact DefRes.noConfusion (Option.some.inj h)
      · rw [nasl_lint_call_eq_node env fuel called nn ty sv ln c0 c1 c2 c3 s hskip hconst]
        have hch := chainCallList_diags_ext (nasl_lint_call env fuel called nn)
          (fun d => ∃ f l v, d = Diag.undefFunc f l v ∧
            v ∈ visitedCallNamesC called (tree_cell.node ty sv ln c0 c1 c2 c3))
          [c0, c1, c2, c3]
          (by
            intro c hcm s2 s3
            have hsub := visited_sub called ty sv ln c0 c1 c2 c3 hskip hconst c hcm
            constructor
            · intro h
              simp only [List.mem_cons, List.not_mem_nil, or_false] at hcm
              rcases hcm with rfl | rfl | rfl | rfl
              · exact (ih0 s2 s3).1 h
              · exact (ih1 s2 s3).1 h
              · exact (ih2 s2 s3).1 h
              · exact (ih3 s2 s3).1 h
            · intro h
              have hfl : ∃ f l v, s3.diags = Diag.undefFunc f l v :: s2.diags ∧
                  v ∈ visitedCallNamesC called c := by
                simp only [List.mem_cons, List.not_mem_nil, or_false] at hcm
                rcases hcm with rfl | rfl | rfl | rfl
                · exact (ih0 s2 s3).2 h
                · exact (ih1 s2 s3).2 h
                · exact (ih2 s2 s3).2 h
                · exact (ih3 s2 s3).2 h
              obtain ⟨f, l, v, hdd, hv⟩ := hfl
              exact ⟨Diag.undefFunc f l v, hdd, f, l, v, rfl, hsub v hv⟩)
        cases hb : (if ty = NODE_FUN_CALL then nasl_lint_call_fn env fuel nn sv ln s
            else some (DefRes.ok s)) with
        | none =>
          constructor
          · intro h
            simp only [hb] at h
            exact Option.noConfusion h
          · intro h
            simp only [hb] at h
            exact Option.noConfusion h
        | some r =>
          cases r with
          | failed s2 =>
            have hcall : ty = NODE_FUN_CALL := by
              by_contra hnc
              rw [if_neg hnc] at hb
              exact DefRes.noConfusion (Option.some.inj hb)
            rw [if_pos hcall] at hb
            obtain ⟨f, hdd⟩ := (call_fn_diags env fuel nn sv ln s).2 s2 hb
            have hmem : sv ∈ visitedCallNamesC called
                (tree_cell.node ty sv ln c0 c1 c2 c3) := by
              simp only [visitedCallNamesC, if_neg hskip, if_neg hconst,
                if_pos hcall, List.mem_append]
              exact Or.inl (Or.inl (Or.inl (Or.inl (List.mem_cons_self sv []))))
            constructor
            · intro h
              simp only [hb] at h
              exact absurd h (by simp)
            · intro h
              simp only [hb] at h
              cases DefRes.failed.inj (Option.some.inj h)
              exact ⟨f, ln, sv, hdd, hmem⟩
          | ok s2 =>
            have hbd : s2.diags = s.diags := by
              by_cases hcall : ty = NODE_FUN_CALL
              · rw [if_pos hcall] at hb
                exact (call_fn_diags env fuel nn sv ln s).1 s2 hb
              · rw [if_neg hcall] at hb
                cases DefRes.ok.inj (Option.some.inj hb)
                rfl
            constructor
            · intro h
              simp only [hb] at h
              have := (hch s2 s1).1 h
              rw [this, hbd]
            · intro h
              simp only [hb] at h
              obtain ⟨d, hdd, f, l, v, hdv, hv⟩ := (hch s2 s1).2 h
              subst hdv
              exact ⟨f, l, v, by rw [hdd, hbd], hv⟩

/-- A chain of children none of which can fail cannot fail. -/
theorem chainCallList_no_fail (f : tree_cell → St → Option DefRes) :
    ∀ cs : List tree_cell,
      (∀ c ∈ cs, ∀ s s1 : St, f c s ≠ some (DefRes.failed s1)) →
      ∀ s s1 : St, chainCallList f cs s ≠ some (DefRes.failed s1) := by
  intro cs
  induction cs with
  | nil =>
    intro H s s1 h
    exact DefRes.noConfusion (Option.some.inj h)
  | cons c cs ih =>
    intro H s s1 h
    cases hc : f c s with
    | none =>
      simp only [chainCallList, hc] at h
      exact Option.noConfusion h
    | some r =>
      cases r with
      | failed s2 => exact H c (List.mem_cons_self c cs) s s2 hc
      | ok s2 =>
        simp only [chainCallList, hc] at h
        exact ih (fun c2 hc2 => H c2 (List.mem_cons_of_mem c hc2)) s2 s1 h

/-- Under an ".inc" top-level file, the call-validation pass never fails:
it either completes successfully or diverges. -/
theorem lint_call_inc_no_fail (env : Env) (fuel : Nat) (called : List String)
    (nn : String) (hsuf : g_str_has_suffix nn (".inc") = true) :
    ∀ t : tree_cell, ∀ s s1 : St,
      nasl_lint_call env fuel called nn t s ≠ some (DefRes.failed s1) := by
  intro t
  induction t with
  | nil =>
    intro s s1 h
    exact DefRes.noConfusion (Option.some.inj h)
  | node ty sv ln c0 c1 c2 c3 ih0 ih1 ih2 ih3 =>
    intro s s1 h
    by_cases hskip : ty = NODE_FUN_DEF ∧ memOpt sv called = false
    · obtain ⟨hty, hmem⟩ := hskip
      subst hty
      rw [nasl_lint_call_eq_skip env fuel called nn sv ln c0 c1 c2 c3 s hmem] at h
      exact DefRes.noConfusion (Option.some.inj h)
    · by_cases hconst : ty = CONST_DATA ∨ ty = CONST_STR
      · rw [nasl_lint_call_eq_const env fuel called nn ty sv ln c0 c1 c2 c3 s hconst] at h
        split at h
        · exact DefRes.noConfusion (Option.some.inj h)
        · exact DefRes.noConfusion (Option.some.inj h)
      · rw [nasl_lint_call_eq_node env fuel called nn ty sv ln c0 c1 c2 c3 s hskip hconst] at h
        cases hb : (if ty = NODE_FUN_CALL then nasl_lint_call_fn env fuel nn sv ln s
            else some (DefRes.ok s)) with
        | none =>
          simp only [hb] at h
          exact Option.noConfusion h
        | some r =>
          cases r with
          | failed s2 =>
            by_cases hcall : ty = NODE_FUN_CALL
            · rw [if_pos hcall] at hb
              exact call_fn_inc_no_fail env fuel nn sv ln s hsuf s2 hb
            · rw [if_neg hcall] at hb
              exact DefRes.noConfusion (Option.some.inj hb)
          | ok s2 =>
            simp only [hb] at h
            exact chainCallList_no_fail (nasl_lint_call env fuel called nn)
              [c0, c1, c2, c3]
              (by
                intro c hcm s3 s4
                simp only [List.mem_cons, List.not_mem_nil, or_false] at hcm
                rcases hcm with rfl | rfl | rfl | rfl
                · exact ih0 s3 s4
                · exact ih1 s3 s4
                · exact ih2 s3 s4
                · exact ih3 s3 s4) s2 s1 h

/-- C10: if the top-level translation unit's computed file name ends in
".inc", the reverse-reachability search never classifies any call site as
reachable from the program entry, and no completed analysis of such a
script carries an UndefinedFunction diagnostic, whatever undefined
functions it calls. -/
theorem C10_confirmed (env : Env) (fuel : Nat) (t : tree_cell)
    (F0 : List String) (st0 : Statics) (cf : String)
    (hsuf : g_str_has_suffix (nasl_get_filename env cf (rootSv t)) (".inc") = true) :
    (∀ (L : List func_info) (r : func_info) (n : Nat),
      reverse_search (nasl_get_filename env cf (rootSv t)) L n r ≠ some true) ∧
    (∀ out : LintOut, nasl_lint env fuel t F0 st0 cf = some out →
      ∀ d ∈ out.diags, diagIsUndef d = false) := by
  constructor
  · intro L r n
    exact rs_no_true (nasl_get_filename env cf (rootSv t)) L hsuf n r
  · intro out h d hd
    simp only [nasl_lint] at h
    cases hd1 : nasl_lint_def env 1 (make_call_func_list env [] t [])
        (nasl_get_filename env cf (rootSv t)) t none (initSt F0 st0 cf) with
    | failed s1 =>
      simp only [hd1] at h
      cases Option.some.inj h
      obtain ⟨d1, hdd, hp⟩ := (lint_def_diags_ext env 1
        (make_call_func_list env [] t []) (nasl_get_filename env cf (rootSv t))
        (Or.inr rfl) t none (initSt F0 st0 cf) s1).2 hd1
      have hd2 : d ∈ s1.diags := hd
      rw [hdd] at hd2
      rcases List.mem_cons.mp hd2 with rfl | hin
      · exact hp
      · exact absurd hin (List.not_mem_nil d)
    | ok s1 =>
      have h1d : s1.diags = [] := (lint_def_diags_ext env 1
        (make_call_func_list env [] t []) (nasl_get_filename env cf (rootSv t))
        (Or.inr rfl) t none (initSt F0 st0 cf) s1).1 hd1
      cases hc : nasl_lint_call env fuel (make_call_func_list env [] t [])
          (nasl_get_filename env cf (rootSv t)) t s1 with
      | none =>
        simp only [hd1, hc] at h
        exact Option.noConfusion h
      | some r =>
        cases r with
        | failed s2 =>
          exact absurd hc (lint_call_inc_no_fail env fuel
            (make_call_func_list env [] t [])
            (nasl_get_filename env cf (rootSv t)) hsuf t s1 s2)
        | ok s2 =>
          have h2d : s2.diags = [] := by
            rw [(lint_call_diags env fuel (make_call_func_list env [] t [])
              (nasl_get_filename env cf (rootSv t)) t s1 s2).1 hc, h1d]
          simp only [hd1, hc] at h
          by_cases hu : unusedOf s2.include_files ≠ []
          · rw [if_pos hu] at h
            cases Option.some.inj h
            have hd2 : d ∈ (unusedOf s2.include_files).map Diag.unusedInc
                ++ s2.diags := hd
            rcases List.mem_append.mp hd2 with hin | hin
            · obtain ⟨f, _, rfl⟩ := List.mem_map.mp hin
              rfl
            · rw [h2d] at hin
              exact absurd hin (List.not_mem_nil d)
          · rw [if_neg hu] at h
            cases hd0 : nasl_lint_def env 0 (make_call_func_list env [] t [])
                (nasl_get_filename env cf (rootSv t)) t none s2 with
            | failed s3 =>
              simp only [hd0] at h
              cases Option.some.inj h
              obtain ⟨d1, hdd, hp⟩ := (lint_def_diags_ext env 0
                (make_call_func_list env [] t [])
                (nasl_get_filename env cf (rootSv t))
                (Or.inl rfl) t none s2 s3).2 hd0
              have hd2 : d ∈ s3.diags := hd
              rw [hdd] at hd2
              rcases List.mem_cons.mp hd2 with rfl | hin
              · exact hp
              · rw [h2d] at hin
                exact absurd hin (List.not_mem_nil d)
            | ok s3 =>
              have h3d : s3.diags = [] := by
                rw [(lint_def_diags_ext env 0 (make_call_func_list env [] t [])
                  (nasl_get_filename env cf (rootSv t))
                  (Or.inl rfl) t none s2 s3).1 hd0, h2d]
              simp only [hd0] at h
              cases hdv : nasl_lint_defvar env (make_call_func_list env [] t [])
                  (nasl_get_filename env cf (rootSv t)) t
                  { s3 with defined_var := add_predef_varname env } with
              | failed s5 =>
                simp only [hdv] at h
                cases Option.some.inj h
                obtain ⟨d1, hdd, hp⟩ := (lint_defvar_diags_ext env
                  (make_call_func_list env [] t [])
                  (nasl_get_filename env cf (rootSv t)) t
                  { s3 with defined_var := add_predef_varname env } s5).2 hdv
                have hd2 : d ∈ s5.diags := hd
                rw [hdd] at hd2
                rcases List.mem_cons.mp hd2 with rfl | hin
                · exact hp
                · have hin2 : d ∈ s3.diags := hin
                  rw [h3d] at hin2
                  exact absurd hin2 (List.not_mem_nil d)
              | ok s5 =>
                simp only [hdv] at h
                cases Option.some.inj h
                have h5d : s5.diags = [] := by
                  rw [(lint_defvar_diags_ext env (make_call_func_list env [] t [])
                    (nasl_get_filename env cf (rootSv t)) t
                    { s3 with defined_var := add_predef_varname env } s5).1 hdv]
                  exact h3d
                have hd2 : d ∈ s5.diags := hd
                rw [h5d] at hd2
                exact absurd hd2 (List.not_mem_nil d)

/-- C10 witness: a top-level script `b();` analyzed as file "t.inc",
calling the undefined function b, still admits no UndefinedFunction. -/
theorem C10_confirmed_witness :
    g_str_has_suffix (nasl_get_filename envC7 ("t.inc")
      (rootSv (leaf NODE_FUN_CALL (some ("b")) 5))) (".inc") = true ∧
    ((∀ (L : List func_info) (r : func_info) (n : Nat),
      reverse_search (nasl_get_filename envC7 ("t.inc")
        (rootSv (leaf NODE_FUN_CALL (some ("b")) 5))) L n r ≠ some true) ∧
    (∀ out : LintOut,
      nasl_lint envC7 1 (leaf NODE_FUN_CALL (some ("b")) 5) [] initStatics
        ("t.inc") = some out →
      ∀ d ∈ out.diags, diagIsUndef d = false)) :=
  ⟨by decide,
   C10_confirmed envC7 1 (leaf NODE_FUN_CALL (some ("b")) 5) [] initStatics
     ("t.inc") (by decide)⟩

/-- A diagnostic that is not an UndefinedFunction report names no function. -/
theorem not_undef_not_names (b : String) (d : Diag)
    (h : diagIsUndef d = false) : diagNamesUndef b d = false := by
  cases d with
  | dupParam f l p fn => rfl
  | undefFunc f l n => exact Bool.noConfusion h
  | unusedInc f => rfl
  | undeclVar f l n => rfl
  | redefFunc n => rfl

/-- Everything `make_call_func_list` collects beyond its accumulator is
the name of some call node of the tree. -/
theorem make_call_mem (env : Env) (aux : List String) :
    ∀ t : tree_cell, ∀ (acc : List String) (x : String),
      x ∈ make_call_func_list env aux t acc →
      some x ∈ callNames t ∨ x ∈ acc := by
  intro t
  induction t with
  | nil =>
    intro acc x h
    exact Or.inr h
  | node ty sv ln c0 c1 c2 c3 ih0 ih1 ih2 ih3 =>
    intro acc x h
    have hlift : ∀ c ∈ [c0, c1, c2, c3], ∀ y : Option String,
        y ∈ callNames c → y ∈ callNames (tree_cell.node ty sv ln c0 c1 c2 c3) := by
      intro c hcm y hy
      simp only [callNames, List.mem_append]
      simp only [List.mem_cons, List.not_mem_nil, or_false] at hcm
      rcases hcm with rfl | rfl | rfl | rfl
      · exact Or.inl (Or.inl (Or.inl (Or.inr hy)))
      · exact Or.inl (Or.inl (Or.inr hy))
      · exact Or.inl (Or.inr hy)
      · exact Or.inr hy
    simp only [make_call_func_list] at h
    rcases ih3 _ x h with hc | h2
    · exact Or.inl (hlift c3 (by simp) (some x) hc)
    rcases ih2 _ x h2 with hc | h1
    · exact Or.inl (hlift c2 (by simp) (some x) hc)
    rcases ih1 _ x h1 with hc | h0
    · exact Or.inl (hlift c1 (by simp) (some x) hc)
    rcases ih0 _ x h0 with hc | hacc
    · exact Or.inl (hlift c0 (by simp) (some x) hc)
    by_cases hcall : ty = NODE_FUN_CALL
    · rw [if_pos hcall] at hacc
      cases hsv : sv with
      | none =>
        simp only [hsv] at hacc
        exact Or.inr hacc
      | some v =>
        simp only [hsv] at hacc
        by_cases hbi : get_func_ref_by_name env aux (some v) = true
        · rw [if_pos hbi] at hacc
          exact Or.inr hacc
        · rw [if_neg hbi] at hacc
          rcases List.mem_cons.mp hacc with rfl | hin
          · refine Or.inl ?_
            simp only [callNames, if_pos hcall, List.mem_append]
            exact Or.inl (Or.inl (Or.inl (Or.inl (by simp [hsv]))))
          · exact Or.inr hin
    · rw [if_neg hcall] at hacc
      exact Or.inr hacc

/-- When `a` is not in the called set, every call name the call pass
visits is reachable without entering a definition of `a`. -/
theorem visited_sub_notUnder (a : String) (called : List String)
    (hac : called.contains a = false) :
    ∀ t : tree_cell, ∀ v : Option String,
      v ∈ visitedCallNamesC called t → v ∈ callsNotUnderDef a t := by
  intro t
  induction t with
  | nil =>
    intro v hv
    exact absurd hv (List.not_mem_nil v)
  | node ty sv ln c0 c1 c2 c3 ih0 ih1 ih2 ih3 =>
    intro v hv
    by_cases hskip : ty = NODE_FUN_DEF ∧ memOpt sv called = false
    · rw [show visitedCallNamesC called (tree_cell.node ty sv ln c0 c1 c2 c3) = []
        from by simp [visitedCallNamesC, hskip]] at hv
      exact absurd hv (List.not_mem_nil v)
    · have hnotA : ¬ (ty = NODE_FUN_DEF ∧ sv = some a) := by
        rintro ⟨hty, hsv⟩
        exact hskip ⟨hty, by rw [hsv]; exact hac⟩
      by_cases hconst : ty = CONST_DATA ∨ ty = CONST_STR
      · rw [show visitedCallNamesC called (tree_cell.node ty sv ln c0 c1 c2 c3) = []
          from by simp [visitedCallNamesC, if_neg hskip, hconst]] at hv
        exact absurd hv (List.not_mem_nil v)
      · simp only [visitedCallNamesC, if_neg hskip, if_neg hconst,
          List.mem_append] at hv
        simp only [callsNotUnderDef, if_neg hnotA, List.mem_append]
        rcases hv with ((((h | h) | h) | h) | h)
        · exact Or.inl (Or.inl (Or.inl (Or.inl h)))
        · exact Or.inl (Or.inl (Or.inl (Or.inr (ih0 v h))))
        · exact Or.inl (Or.inl (Or.inr (ih1 v h)))
        · exact Or.inl (Or.inr (ih2 v h))
        · exact Or.inr (ih3 v h)

/-- C2: dead-code tolerance, amended.  If `a` is never called anywhere and
every call to `b` is nested inside a definition of `a`, then no completed
run emits an UndefinedFunction diagnostic naming `b` (though the verdict
need not be success, as other checks still apply); and on the spec's own
example, `function a() { b(); }` alone is accepted while adding a
top-level `a();` is rejected with UndefinedFunction naming `b`. -/
theorem C2_amended (env : Env) (fuel : Nat) (t : tree_cell) (F0 : List String)
    (st0 : Statics) (cf : String) (a b : String)
    (hna : (some a) ∉ callNames t)
    (hnb : (some b) ∉ callsNotUnderDef a t) :
    (∀ out : LintOut, nasl_lint env fuel t F0 st0 cf = some out →
      ∀ d ∈ out.diags, diagNamesUndef b d = false) ∧
    runSuccess (nasl_lint envP 1 Tex [] initStatics ("t.nasl")) = true ∧
    runSuccess (nasl_lint envP 1 TexCalled [] initStatics ("t.nasl")) = false ∧
    (runDiags (nasl_lint envP 1 TexCalled [] initStatics ("t.nasl"))).any
      (diagNamesUndef ("b")) = true := by
  refine ⟨?_, by decide, by decide, by decide⟩
  have hac : (make_call_func_list env [] t []).contains a = false := by
    refine contains_false_of_not_mem ?_
    intro hmem
    rcases make_call_mem env [] t [] a hmem with hcn | hnil
    · exact hna hcn
    · exact absurd hnil (List.not_mem_nil a)
  intro out h d hd
  simp only [nasl_lint] at h
  cases hd1 : nasl_lint_def env 1 (make_call_func_list env [] t [])
      (nasl_get_filename env cf (rootSv t)) t none (initSt F0 st0 cf) with
  | failed s1 =>
    simp only [hd1] at h
    cases Option.some.inj h
    obtain ⟨d1, hdd, hp⟩ := (lint_def_diags_ext env 1
      (make_call_func_list env [] t []) (nasl_get_filename env cf (rootSv t))
      (Or.inr rfl) t none (initSt F0 st0 cf) s1).2 hd1
    have hd2 : d ∈ s1.diags := hd
    rw [hdd] at hd2
    rcases List.mem_cons.mp hd2 with rfl | hin
    · exact not_undef_not_names b d hp
    · exact absurd hin (List.not_mem_nil d)
  | ok s1 =>
    have h1d : s1.diags = [] := (lint_def_diags_ext env 1
      (make_call_func_list env [] t []) (nasl_get_filename env cf (rootSv t))
      (Or.inr rfl) t none (initSt F0 st0 cf) s1).1 hd1
    cases hc : nasl_lint_call env fuel (make_call_func_list env [] t [])
        (nasl_get_filename env cf (rootSv t)) t s1 with
    | none =>
      simp only [hd1, hc] at h
      exact Option.noConfusion h
    | some r =>
      cases r with
      | failed s2 =>
        simp only [hd1, hc] at h
        cases Option.some.inj h
        obtain ⟨f, l, v, hdd, hv⟩ := (lint_call_diags env fuel
          (make_call_func_list env [] t [])
          (nasl_get_filename env cf (rootSv t)) t s1 s2).2 hc
        have hvn : v ≠ some b := by
          intro hvb
          rw [hvb] at hv
          exact hnb (visited_sub_notUnder a (make_call_func_list env [] t [])
            hac t (some b) hv)
        have hd2 : d ∈ s2.diags := hd
        rw [hdd] at hd2
        rcases List.mem_cons.mp hd2 with rfl | hin
        · simp [diagNamesUndef, hvn]
        · rw [h1d] at hin
          exact absurd hin (List.not_mem_nil d)
      | ok s2 =>
        have h2d : s2.diags = [] := by
          rw [(lint_call_diags env fuel (make_call_func_list env [] t [])
            (nasl_get_filename env cf (rootSv t)) t s1 s2).1 hc, h1d]
        simp only [hd1, hc] at h
        by_cases hu : unusedOf s2.include_files ≠ []
        · rw [if_pos hu] at h
          cases Option.some.inj h
          have hd2 : d ∈ (unusedOf s2.include_files).map Diag.unusedInc
              ++ s2.diags := hd
          rcases List.mem_append.mp hd2 with hin | hin
          · obtain ⟨f, _, rfl⟩ := List.mem_map.mp hin
            rfl
          · rw [h2d] at hin
            exact absurd hin (List.not_mem_nil d)
        · rw [if_neg hu] at h
          cases hd0 : nasl_lint_def env 0 (make_call_func_list env [] t [])
              (nasl_get_filename env cf (rootSv t)) t none s2 with
          | failed s3 =>
            simp only [hd0] at h
            cases Option.some.inj h
            obtain ⟨d1, hdd, hp⟩ := (lint_def_diags_ext env 0
              (make_call_func_list env [] t [])
              (nasl_get_filename env cf (rootSv t))
              (Or.inl rfl) t none s2 s3).2 hd0
            have hd2 : d ∈ s3.diags := hd
            rw [hdd] at hd2
            rcases List.mem_cons.mp hd2 with rfl | hin
            · exact not_undef_not_names b d hp
            · rw [h2d] at hin
              exact absurd hin (List.not_mem_nil d)
          | ok s3 =>
            have h3d : s3.diags = [] := by
              rw [(lint_def_diags_ext env 0 (make_call_func_list env [] t [])
                (nasl_get_filename env cf (rootSv t))
                (Or.inl rfl) t none s2 s3).1 hd0, h2d]
            simp only [hd0] at h
            cases hdv : nasl_lint_defvar env (make_call_func_list env [] t [])
                (nasl_get_filename env cf (rootSv t)) t
                { s3 with defined_var := add_predef_varname env } with
            | failed s5 =>
              simp only [hdv] at h
              cases Option.some.inj h
              obtain ⟨d1, hdd, hp⟩ := (lint_defvar_diags_ext env
                (make_call_func_list env [] t [])
                (nasl_get_filename env cf (rootSv t)) t
                { s3 with defined_var := add_predef_varname env } s5).2 hdv
              have hd2 : d ∈ s5.diags := hd
              rw [hdd] at hd2
              rcases List.mem_cons.mp hd2 with rfl | hin
              · exact not_undef_not_names b d hp
              · have hin2 : d ∈ s3.diags := hin
                rw [h3d] at hin2
                exact absurd hin2 (List.not_mem_nil d)
            | ok s5 =>
              simp only [hdv] at h
              cases Option.some.inj h
              have h5d : s5.diags = [] := by
                rw [(lint_defvar_diags_ext env (make_call_func_list env [] t [])
                  (nasl_get_filename env cf (rootSv t)) t
                  { s3 with defined_var := add_predef_varname env } s5).1 hdv]
                exact h3d
              have hd2 : d ∈ s5.diags := hd
              rw [h5d] at hd2
              exact absurd hd2 (List.not_mem_nil d)

/-- C2 witness: on the spec's example tree extended with an unrelated
undeclared-variable read (so the hypotheses hold concretely), no completed
run reports `b` undefined, the plain example is accepted, and the
`a();`-extended example is rejected naming `b`. -/
theorem C2_amended_witness :
    ((some ("a")) ∉ callNames TexBad ∧
      (some ("b")) ∉ callsNotUnderDef ("a") TexBad) ∧
    ((∀ out : LintOut,
        nasl_lint envP 1 TexBad [] initStatics ("script.nasl") = some out →
        ∀ d ∈ out.diags, diagNamesUndef ("b") d = false) ∧
      runSuccess (nasl_lint envP 1 Tex [] initStatics ("t.nasl")) = true ∧
      runSuccess (nasl_lint envP 1 TexCalled [] initStatics ("t.nasl")) = false ∧
      (runDiags (nasl_lint envP 1 TexCalled [] initStatics ("t.nasl"))).any
        (diagNamesUndef ("b")) = true) :=
  ⟨⟨by decide, by decide⟩,
   C2_amended envP 1 TexBad [] initStatics ("script.nasl") ("a") ("b")
     (by decide) (by decide)⟩

/-- The filename switch changes only the current file. -/
theorem call_fn_setfile_fields (sv : Option String) (s : St) :
    (call_fn_setfile sv s).diags = s.diags ∧
      (call_fn_setfile sv s).aux_funcs = s.aux_funcs ∧
      (call_fn_setfile sv s).def_func_tree = s.def_func_tree ∧
      (call_fn_setfile sv s).defined_flag = s.defined_flag := by
  cases sv with
  | none => exact ⟨rfl, rfl, rfl, rfl⟩
  | some v =>
    cases hl : hash_lookup s.func_fnames_tab v with
    | none => simp [call_fn_setfile, hl]
    | some o =>
      cases o with
      | none => simp [call_fn_setfile, hl]
      | some f => simp [call_fn_setfile, hl]

/-- A recorded callee is found by `find_custom1`, and the found record is
one of the list's records. -/
theorem find_custom1_of_mem (d : String) :
    ∀ L : List func_info, (∃ r ∈ L, r.func_name = some d) →
      ∃ r2, find_custom1 L (some d) = some r2 ∧ r2 ∈ L := by
  intro L
  induction L with
  | nil =>
    intro h
    obtain ⟨r, hr, -⟩ := h
    exact absurd hr (List.not_mem_nil r)
  | cons r L ih =>
    intro h
    by_cases hr : r.func_name = some d
    · refine ⟨r, ?_, List.mem_cons_self r L⟩
      simp [find_custom1, List.find?, hr]
    · obtain ⟨r1, hr1, hn1⟩ := h
      rcases List.mem_cons.mp hr1 with rfl | hin
      · exact absurd hn1 hr
      · obtain ⟨r2, hf2, hm2⟩ := ih ⟨r1, hin, hn1⟩
        refine ⟨r2, ?_, List.mem_cons_of_mem r hm2⟩
        simp only [find_custom1] at hf2 ⊢
        rw [List.find?]
        rw [show decide (r.func_name = some d) = false from by simp [hr]]
        exact hf2

/-- Call names visible to the call pass are also visible to the
definition pass (which does not stop at constants). -/
theorem topC_sub_topD :
    ∀ t : tree_cell, ∀ v : Option String,
      v ∈ topCallNamesC t → v ∈ topCallNamesD t := by
  intro t
  induction t with
  | nil =>
    intro v hv
    exact absurd hv (List.not_mem_nil v)
  | node ty sv ln c0 c1 c2 c3 ih0 ih1 ih2 ih3 =>
    intro v hv
    by_cases hdef : ty = NODE_FUN_DEF
    · rw [show topCallNamesC (tree_cell.node ty sv ln c0 c1 c2 c3) = []
        from by simp [topCallNamesC, hdef]] at hv
      exact absurd hv (List.not_mem_nil v)
    · by_cases hconst : ty = CONST_DATA ∨ ty = CONST_STR
      · rw [show topCallNamesC (tree_cell.node ty sv ln c0 c1 c2 c3) = []
          from by simp [topCallNamesC, hdef, hconst]] at hv
        exact absurd hv (List.not_mem_nil v)
      · simp only [topCallNamesC, if_neg hdef, if_neg hconst,
          List.mem_append] at hv
        simp only [topCallNamesD, if_neg hdef, List.mem_append]
        rcases hv with ((((h | h) | h) | h) | h)
        · exact Or.inl (Or.inl (Or.inl (Or.inl h)))
        · exact Or.inl (Or.inl (Or.inl (Or.inr (ih0 v h))))
        · exact Or.inl (Or.inl (Or.inr (ih1 v h)))
        · exact Or.inl (Or.inr (ih2 v h))
        · exact Or.inr (ih3 v h)

/-- Call names of a child that the call pass descends into are call names
of the node. -/
theorem topC_sub_child (ty : NodeType) (sv : Option String) (ln : Nat)
    (c0 c1 c2 c3 : tree_cell)
    (hdef : ty ≠ NODE_FUN_DEF) (hconst : ¬ (ty = CONST_DATA ∨ ty = CONST_STR)) :
    ∀ c ∈ [c0, c1, c2, c3], ∀ v : Option String,
      v ∈ topCallNamesC c →
      v ∈ topCallNamesC (tree_cell.node ty sv ln c0 c1 c2 c3) := by
  intro c hcm v hv
  simp only [topCallNamesC, if_neg hdef, if_neg hconst, List.mem_append]
  simp only [List.mem_cons, List.not_mem_nil, or_false] at hcm
  rcases hcm with rfl | rfl | rfl | rfl
  · exact Or.inl (Or.inl (Or.inl (Or.inr hv)))
  · exact Or.inl (Or.inl (Or.inr hv))
  · exact Or.inl (Or.inr hv)
  · exact Or.inr hv

/-- `topDefsSkipped` of a non-definition node passes to the children. -/
theorem topDefsSkipped_child (called : List String) (ty : NodeType)
    (sv : Option String) (ln : Nat) (c0 c1 c2 c3 : tree_cell)
    (hdef : ty ≠ NODE_FUN_DEF)
    (h : topDefsSkipped called (tree_cell.node ty sv ln c0 c1 c2 c3) = true) :
    ∀ c ∈ [c0, c1, c2, c3], topDefsSkipped called c = true := by
  intro c hcm
  simp only [topDefsSkipped, if_neg hdef, Bool.and_eq_true] at h
  simp only [List.mem_cons, List.not_mem_nil, or_false] at hcm
  rcases hcm with rfl | rfl | rfl | rfl
  · exact h.1.1.1
  · exact h.1.1.2
  · exact h.1.2
  · exact h.2

/-- Fields through a successful mode-1 call registration: only the
filename table and the call-site tree change, and the new record carries
the static caller marker and the effective file. -/
theorem def_call1_fields (env : Env) (nn : String) (sv : Option String)
    (ln : Nat) (c0 : tree_cell) (err : Option String) (s sb : St)
    (h : nasl_lint_def_call env 1 nn sv ln c0 err s = DefRes.ok sb) :
    sb.aux_funcs = s.aux_funcs ∧ sb.defined_flag = s.defined_flag ∧
      sb.cur_file = s.cur_file ∧
      sb.def_func_tree =
        (⟨sv, s.current_fun_def, err.getD nn⟩ : func_info) :: s.def_func_tree := by
  simp only [nasl_lint_def_call] at h
  by_cases hpf : get_func_ref_by_name env (ctx_funcs 1 s) sv = true
  · simp only [hpf, if_true] at h
    cases hsc : scan_params c0 [] with
    | some p =>
      simp only [hsc] at h
      exact DefRes.noConfusion h
    | none =>
      simp only [hsc] at h
      cases DefRes.ok.inj h
      exact ⟨rfl, rfl, rfl, rfl⟩
  · simp only [Bool.not_eq_true] at hpf
    simp only [hpf, if_false] at h
    cases hsv : sv with
    | none =>
      simp only [hsv] at h
      cases hsc : scan_params c0 [] with
      | some p =>
        simp only [hsc] at h
        exact DefRes.noConfusion h
      | none =>
        simp only [hsc] at h
        cases DefRes.ok.inj h
        exact ⟨rfl, rfl, rfl, rfl⟩
    | some v =>
      simp only [hsv] at h
      cases hsc : scan_params c0 [] with
      | some p =>
        simp only [hsc] at h
        exact DefRes.noConfusion h
      | none =>
        simp only [hsc] at h
        cases DefRes.ok.inj h
        exact ⟨rfl, rfl, rfl, rfl⟩

/-- The mode-1 definition pass on a tree whose every definition is
uncalled (hence skipped): the context, static flag and current file are
untouched, call-site records are only prepended and each new record
carries the effective file, and every call name visible to the pass gets a
record. -/
theorem lint_def1_skipped (env : Env) (called : List String) (nn : String) :
    ∀ t : tree_cell, topDefsSkipped called t = true →
      ∀ (err : Option String) (s s1 : St),
        nasl_lint_def env 1 called nn t err s = DefRes.ok s1 →
        s1.aux_funcs = s.aux_funcs ∧
        s1.defined_flag = s.defined_flag ∧
        s1.cur_file = s.cur_file ∧
        (∀ r ∈ s1.def_func_tree,
          r ∈ s.def_func_tree ∨ r.caller_file = err.getD nn) ∧
        (∀ r ∈ s.def_func_tree, r ∈ s1.def_func_tree) ∧
        (∀ v : Option String, v ∈ topCallNamesD t →
          ∃ r, r ∈ s1.def_func_tree ∧ r.func_name = v) := by
  intro t
  induction t with
  | nil =>
    intro hsk err s s1 h
    cases DefRes.ok.inj h
    exact ⟨rfl, rfl, rfl, fun r hr => Or.inl hr, fun r hr => hr,
      fun v hv => absurd hv (List.not_mem_nil v)⟩
  | node ty sv ln c0 c1 c2 c3 ih0 ih1 ih2 ih3 =>
    intro hsk err s s1 h
    by_cases hdef : ty = NODE_FUN_DEF
    · subst hdef
      have hmem : memOpt sv called = false := by
        simp only [topDefsSkipped, if_pos rfl, if_true, Bool.not_eq_true'] at hsk
        exact hsk
      rw [nasl_lint_def_eq_def1_skip env called nn sv ln c0 c1 c2 c3 err s hmem] at h
      cases DefRes.ok.inj h
      refine ⟨rfl, rfl, rfl, fun r hr => Or.inl hr, fun r hr => hr, ?_⟩
      intro v hv
      rw [show topCallNamesD (tree_cell.node NODE_FUN_DEF sv ln c0 c1 c2 c3) = []
        from by simp [topCallNamesD]] at hv
      exact absurd hv (List.not_mem_nil v)
    · have hsk4 := topDefsSkipped_child called ty sv ln c0 c1 c2 c3 hdef hsk
      rw [nasl_lint_def_eq_default env 1 called nn ty sv ln c0 c1 c2 c3 err s hdef] at h
      cases hb : (if ty = NODE_FUN_CALL then
          nasl_lint_def_call env 1 nn sv ln c0 err s else DefRes.ok s) with
      | failed sb =>
        simp only [hb] at h
        exact DefRes.noConfusion h
      | ok sb =>
        simp only [hb] at h
        rw [chainDef_eq_chainList] at h
        have hblock : sb.aux_funcs = s.aux_funcs ∧ sb.defined_flag = s.defined_flag ∧
            sb.cur_file = s.cur_file ∧
            (sb.def_func_tree =
              (⟨sv, s.current_fun_def, err.getD nn⟩ : func_info) :: s.def_func_tree ∨
             sb.def_func_tree = s.def_func_tree) ∧
            (ty = NODE_FUN_CALL →
              ∃ r, r ∈ sb.def_func_tree ∧ r.func_name = sv) := by
          by_cases hcall : ty = NODE_FUN_CALL
          · rw [if_pos hcall] at hb
            obtain ⟨h1, h2, h3, h4⟩ := def_call1_fields env nn sv ln c0 err s sb hb
            exact ⟨h1, h2, h3, Or.inl h4,
              fun _ => ⟨_, by rw [h4]; exact List.mem_cons_self _ _, rfl⟩⟩
          · rw [if_neg hcall] at hb
            cases DefRes.ok.inj hb
            exact ⟨rfl, rfl, rfl, Or.inr rfl, fun hc => absurd hc hcall⟩
        have hmono_b : ∀ r ∈ s.def_func_tree, r ∈ sb.def_func_tree := by
          intro r hr
          rcases hblock.2.2.2.1 with ht | ht
          · rw [ht]; exact List.mem_cons_of_mem _ hr
          · rw [ht]; exact hr
        have hrec_b : ∀ r ∈ sb.def_func_tree,
            r ∈ s.def_func_tree ∨ r.caller_file = err.getD nn := by
          intro r hr
          rcases hblock.2.2.2.1 with ht | ht
          · rw [ht] at hr
            rcases List.mem_cons.mp hr with rfl | hin
            · exact Or.inr rfl
            · exact Or.inl hin
          · rw [ht] at hr
            exact Or.inl hr
        simp only [chainList] at h
        cases h0 : nasl_lint_def env 1 called nn c0 err sb with
        | failed s2 =>
          simp only [h0] at h
          exact DefRes.noConfusion h
        | ok s2 =>
        simp only [h0] at h
        cases h1 : nasl_lint_def env 1 called nn c1 err s2 with
        | failed s3 =>
          simp only [h1] at h
          exact DefRes.noConfusion h
        | ok s3 =>
        simp only [h1] at h
        cases h2 : nasl_lint_def env 1 called nn c2 err s3 with
        | failed s4 =>
          simp only [h2] at h
          exact DefRes.noConfusion h
        | ok s4 =>
        simp only [h2] at h
        cases h3 : nasl_lint_def env 1 called nn c3 err s4 with
        | failed s5 =>
          simp only [h3] at h
          exact DefRes.noConfusion h
        | ok s5 =>
        simp only [h3] at h
        obtain ⟨a0, f0, c0f, r0, m0, v0⟩ :=
          ih0 (hsk4 c0 (by simp)) err sb s2 h0
        obtain ⟨a1, f1, c1f, r1, m1, v1⟩ :=
          ih1 (hsk4 c1 (by simp)) err s2 s3 h1
        obtain ⟨a2, f2, c2f, r2, m2, v2⟩ :=
          ih2 (hsk4 c2 (by simp)) err s3 s4 h2
        obtain ⟨a3, f3, c3f, r3, m3, v3⟩ :=
          ih3 (hsk4 c3 (by simp)) err s4 s5 h3
        cases DefRes.ok.inj h
        refine ⟨by rw [a3, a2, a1, a0, hblock.1],
          by rw [f3, f2, f1, f0, hblock.2.1],
          by rw [c3f, c2f, c1f, c0f, hblock.2.2.1], ?_, ?_, ?_⟩
        · intro r hr
          rcases r3 r hr with hr4 | hp
          · rcases r2 r hr4 with hr3 | hp
            · rcases r1 r hr3 with hr2 | hp
              · rcases r0 r hr2 with hrb | hp
                · exact hrec_b r hrb
                · exact Or.inr hp
              · exact Or.inr hp
            · exact Or.inr hp
          · exact Or.inr hp
        · intro r hr
          exact m3 r (m2 r (m1 r (m0 r (hmono_b r hr))))
        · intro v hv
          simp only [topCallNamesD, if_neg hdef, List.mem_append] at hv
          rcases hv with ((((hh | hh) | hh) | hh) | hh)
          · have hcall : ty = NODE_FUN_CALL := by
              by_contra hnc
              rw [if_neg hnc] at hh
              exact absurd hh (List.not_mem_nil v)
            rw [if_pos hcall] at hh
            rcases List.mem_cons.mp hh with rfl | hin
            · obtain ⟨r, hrm, hrn⟩ := hblock.2.2.2.2 hcall
              exact ⟨r, m3 r (m2 r (m1 r (m0 r hrm))), hrn⟩
            · exact absurd hin (List.not_mem_nil v)
          · obtain ⟨r, hrm, hrn⟩ := v0 v hh
            exact ⟨r, m3 r (m2 r (m1 r hrm)), hrn⟩
          · obtain ⟨r, hrm, hrn⟩ := v1 v hh
            exact ⟨r, m3 r (m2 r hrm), hrn⟩
          · obtain ⟨r, hrm, hrn⟩ := v2 v hh
            exact ⟨r, m3 r hrm, hrn⟩
          · obtain ⟨r, hrm, hrn⟩ := v3 v hh
            exact ⟨r, hrm, hrn⟩

/-- The state invariant of the call pass on a fully-skipped-definitions
run: a fixed context, the `defined_func` flag down, and every call-site
record attributed to the effective top-level file. -/
def callInv (A : List String) (nn : String) (s : St) : Prop :=
  s.aux_funcs = A ∧ s.defined_flag = false ∧
    (∀ r ∈ s.def_func_tree, r.caller_file = nn)

/-- The fields a successful step of that run leaves untouched. -/
def callPres (s s' : St) : Prop :=
  s'.aux_funcs = s.aux_funcs ∧ s'.defined_flag = s.defined_flag ∧
    s'.def_func_tree = s.def_func_tree ∧ s'.diags = s.diags

/-- `callPres` transports the invariant. -/
theorem callInv_pres {A : List String} {nn : String} {s s' : St}
    (hi : callInv A nn s) (hp : callPres s s') : callInv A nn s' := by
  obtain ⟨h1, h2, h3⟩ := hi
  obtain ⟨p1, p2, p3, p4⟩ := hp
  exact ⟨by rw [p1, h1], by rw [p2, h2], by rw [p3]; exact h3⟩

/-- The behaviour of the call pass on one subtree of such a run: if the
subtree holds no visible call to `b` the pass succeeds preserving the
state, and if it does (and `b` has a call-site record) the pass fails
with an UndefinedFunction naming `b`. -/
def callB (env : Env) (fuel : Nat) (called : List String) (nn b : String)
    (A : List String) (c : tree_cell) : Prop :=
  ∀ s : St, callInv A nn s →
    ((some b ∉ topCallNamesC c →
      ∃ s', nasl_lint_call env fuel called nn c s = some (DefRes.ok s') ∧
        callPres s s') ∧
     (some b ∈ topCallNamesC c →
      (∃ r ∈ s.def_func_tree, r.func_name = some b) →
      ∃ s' f l, nasl_lint_call env fuel called nn c s = some (DefRes.failed s') ∧
        s'.diags = Diag.undefFunc f l (some b) :: s.diags))

/-- `callB` lifted over a child chain. -/
theorem chain_callB (env : Env) (fuel : Nat) (called : List String)
    (nn b : String) (A : List String) :
    ∀ cs : List tree_cell,
      (∀ c ∈ cs, callB env fuel called nn b A c) →
      ∀ s : St, callInv A nn s →
        ((∀ c ∈ cs, some b ∉ topCallNamesC c) →
          ∃ s', chainCallList (nasl_lint_call env fuel called nn) cs s =
            some (DefRes.ok s') ∧ callPres s s') ∧
        ((∃ c ∈ cs, some b ∈ topCallNamesC c) →
          (∃ r ∈ s.def_func_tree, r.func_name = some b) →
          ∃ s' f l, chainCallList (nasl_lint_call env fuel called nn) cs s =
            some (DefRes.failed s') ∧
            s'.diags = Diag.undefFunc f l (some b) :: s.diags) := by
  intro cs
  induction cs with
  | nil =>
    intro H s hi
    constructor
    · intro hnb
      exact ⟨s, rfl, rfl, rfl, rfl, rfl⟩
    · intro hex hrec
      obtain ⟨c, hc, -⟩ := hex
      exact absurd hc (List.not_mem_nil c)
  | cons c cs ih =>
    intro H s hi
    have Hc := H c (List.mem_cons_self c cs)
    have Hcs := ih (fun c2 hc2 => H c2 (List.mem_cons_of_mem c hc2))
    constructor
    · intro hnb
      obtain ⟨s2, hs2, hp2⟩ := (Hc s hi).1 (hnb c (List.mem_cons_self c cs))
      obtain ⟨s3, hs3, hp3⟩ := (Hcs s2 (callInv_pres hi hp2)).1
        (fun c2 hc2 => hnb c2 (List.mem_cons_of_mem c hc2))
      refine ⟨s3, ?_, ?_⟩
      · simp only [chainCallList, hs2]
        exact hs3
      · obtain ⟨a1, b1, c1, d1⟩ := hp2
        obtain ⟨a2, b2, c2, d2⟩ := hp3
        exact ⟨by rw [a2, a1], by rw [b2, b1], by rw [c2, c1], by rw [d2, d1]⟩
    · intro hex hrec
      by_cases hcb : some b ∈ topCallNamesC c
      · obtain ⟨s', f, l, hf, hd⟩ := (Hc s hi).2 hcb hrec
        refine ⟨s', f, l, ?_, hd⟩
        simp only [chainCallList, hf]
      · obtain ⟨s2, hs2, hp2⟩ := (Hc s hi).1 hcb
        have hrec2 : ∃ r ∈ s2.def_func_tree, r.func_name = some b := by
          obtain ⟨r, hr, hn⟩ := hrec
          exact ⟨r, by rw [hp2.2.2.1]; exact hr, hn⟩
        have hex2 : ∃ c2 ∈ cs, some b ∈ topCallNamesC c2 := by
          obtain ⟨c2, hc2, hm2⟩ := hex
          rcases List.mem_cons.mp hc2 with rfl | hin
          · exact absurd hm2 hcb
          · exact ⟨c2, hin, hm2⟩
        obtain ⟨s', f, l, hf, hd⟩ :=
          (Hcs s2 (callInv_pres hi hp2)).2 hex2 hrec2
        refine ⟨s', f, l, ?_, by rw [hd, hp2.2.2.2]⟩
        simp only [chainCallList, hs2]
        exact hf

/-- Lemma B: on a tree whose definitions are all skipped, whose other
visible calls all resolve against the fixed context, and which never calls
`defined_func`, the call pass satisfies `callB`: it fails with
UndefinedFunction naming `b` exactly on the subtrees holding a visible
call to `b`. -/
theorem lint_call_b (env : Env) (fuel : Nat) (called : List String)
    (nn b : String) (A : List String)
    (hsuf : g_str_has_suffix nn (".inc") = false)
    (hfuel : 1 ≤ fuel)
    (hbA : get_func_ref_by_name env A (some b) = false) :
    ∀ t : tree_cell, topDefsSkipped called t = true →
      (∀ v : String, some v ∈ topCallNamesC t →
        v = b ∨ get_func_ref_by_name env A (some v) = true) →
      (some ("defined_func")) ∉ topCallNamesC t →
      callB env fuel called nn b A t := by
  intro t
  induction t with
  | nil =>
    intro hsk hvis hnd s hi
    constructor
    · intro hnb
      exact ⟨s, rfl, rfl, rfl, rfl, rfl⟩
    · intro hmem hrec
      exact absurd hmem (List.not_mem_nil (some b))
  | node ty sv ln c0 c1 c2 c3 ih0 ih1 ih2 ih3 =>
    intro hsk hvis hnd s hi
    by_cases hdef : ty = NODE_FUN_DEF
    · subst hdef
      have hmem : memOpt sv called = false := by
        simp only [topDefsSkipped, if_pos rfl, if_true, Bool.not_eq_true'] at hsk
        exact hsk
      constructor
      · intro hnb
        exact ⟨s, nasl_lint_call_eq_skip env fuel called nn sv ln c0 c1 c2 c3 s hmem,
          rfl, rfl, rfl, rfl⟩
      · intro hmemb hrec
        rw [show topCallNamesC (tree_cell.node NODE_FUN_DEF sv ln c0 c1 c2 c3) = []
          from by simp [topCallNamesC]] at hmemb
        exact absurd hmemb (List.not_mem_nil (some b))
    · by_cases hconst : ty = CONST_DATA ∨ ty = CONST_STR
      · have hres : nasl_lint_call env fuel called nn
            (tree_cell.node ty sv ln c0 c1 c2 c3) s = some (DefRes.ok s) := by
          rw [nasl_lint_call_eq_const env fuel called nn ty sv ln c0 c1 c2 c3 s hconst]
          rw [if_neg (by simp [hi.2.1])]
        constructor
        · intro hnb
          exact ⟨s, hres, rfl, rfl, rfl, rfl⟩
        · intro hmemb hrec
          rw [show topCallNamesC (tree_cell.node ty sv ln c0 c1 c2 c3) = []
            from by simp [topCallNamesC, hdef, hconst]] at hmemb
          exact absurd hmemb (List.not_mem_nil (some b))
      · have hskip : ¬ (ty = NODE_FUN_DEF ∧ memOpt sv called = false) := by
          rintro ⟨hty, -⟩
          exact hdef hty
        have hcb : ∀ c ∈ [c0, c1, c2, c3], callB env fuel called nn b A c := by
          intro c hcm
          have hsk2 := topDefsSkipped_child called ty sv ln c0 c1 c2 c3 hdef hsk c hcm
          have hvis2 : ∀ v : String, some v ∈ topCallNamesC c →
              v = b ∨ get_func_ref_by_name env A (some v) = true :=
            fun v hv => hvis v
              (topC_sub_child ty sv ln c0 c1 c2 c3 hdef hconst c hcm (some v) hv)
          have hnd2 : (some ("defined_func")) ∉ topCallNamesC c := fun hv =>
            hnd (topC_sub_child ty sv ln c0 c1 c2 c3 hdef hconst c hcm _ hv)
          simp only [List.mem_cons, List.not_mem_nil, or_false] at hcm
          rcases hcm with rfl | rfl | rfl | rfl
          · exact ih0 hsk2 hvis2 hnd2
          · exact ih1 hsk2 hvis2 hnd2
          · exact ih2 hsk2 hvis2 hnd2
          · exact ih3 hsk2 hvis2 hnd2
        have hchain := chain_callB env fuel called nn b A [c0, c1, c2, c3] hcb
        by_cases hcall : ty = NODE_FUN_CALL
        · by_cases hsvb : sv = some b
          · constructor
            · intro hnb
              exfalso
              apply hnb
              simp only [topCallNamesC, if_neg hdef, if_neg hconst,
                if_pos hcall, List.mem_append]
              exact Or.inl (Or.inl (Or.inl (Or.inl (by simp [hsvb]))))
            · intro hmemb hrec
              subst hsvb
              have hgf : get_func_ref_by_name env s.aux_funcs (some b) = false := by
                rw [hi.1]
                exact hbA
              obtain ⟨r2, hf2, hm2⟩ := find_custom1_of_mem b s.def_func_tree hrec
              have hcf2 : r2.caller_file = nn := hi.2.2 r2 hm2
              have hfind : find_custom1
                  (call_fn_setfile (some b) s).def_func_tree (some b) = some r2 := by
                rw [(call_fn_setfile_fields (some b) s).2.2.1]
                exact hf2
              have hrs : reverse_search nn
                  (call_fn_setfile (some b) s).def_func_tree fuel r2 = some true := by
                cases fuel with
                | zero => exact absurd hfuel (by omega)
                | succ k =>
                  rw [reverse_search_succ]
                  rw [if_pos ⟨hcf2, by simp [hsuf]⟩]
              have hchk : call_fn_check env fuel nn (some b) ln s =
                  some (DefRes.failed
                    { call_fn_setfile (some b) s with
                      diags := Diag.undefFunc (call_fn_setfile (some b) s).cur_file
                        ln (some b) :: (call_fn_setfile (some b) s).diags }) := by
                unfold call_fn_check
                rw [hgf]
                rw [if_neg (by simp)]
                simp only [hfind, hrs]
              have hfn : nasl_lint_call_fn env fuel nn (some b) ln s =
                  some (DefRes.failed
                    { call_fn_setfile (some b) s with
                      diags := Diag.undefFunc (call_fn_setfile (some b) s).cur_file
                        ln (some b) :: (call_fn_setfile (some b) s).diags }) := by
                simp only [nasl_lint_call_fn, hchk]
              refine ⟨{ call_fn_setfile (some b) s with diags := Diag.undefFunc (call_fn_setfile (some b) s).cur_file ln (some b) :: (call_fn_setfile (some b) s).diags }, (call_fn_setfile (some b) s).cur_file, ln, ?_, ?_⟩
              · rw [nasl_lint_call_eq_node env fuel called nn ty (some b) ln c0 c1 c2 c3 s
                  hskip hconst]
                simp only [if_pos hcall, hfn]
              · simp [(call_fn_setfile_fields (some b) s).1]
          · have hblock : ∃ s1,
                nasl_lint_call_fn env fuel nn sv ln s = some (DefRes.ok s1) ∧
                  callPres s s1 := by
              cases hsv : sv with
              | none =>
                refine ⟨s, ?_, rfl, rfl, rfl, rfl⟩
                simp [nasl_lint_call_fn, call_fn_check, get_func_ref_by_name,
                  call_fn_setfile, find_custom1, call_fn_mark, call_fn_flag]
              | some v =>
                have hvb : v ≠ b := by
                  intro hvb
                  rw [hvb] at hsv
                  exact hsvb hsv
                have hgf : get_func_ref_by_name env s.aux_funcs (some v) = true := by
                  rw [hi.1]
                  rcases hvis v (by
                    simp only [topCallNamesC, if_neg hdef, if_neg hconst,
                      if_pos hcall, List.mem_append]
                    exact Or.inl (Or.inl (Or.inl (Or.inl (by simp [hsv]))))) with hvv | ht
                  · exact absurd hvv hvb
                  · exact ht
                have hvd : v ≠ ("defined_func") := by
                  intro hvd
                  apply hnd
                  rw [← hvd]
                  simp only [topCallNamesC, if_neg hdef, if_neg hconst,
                    if_pos hcall, List.mem_append]
                  exact Or.inl (Or.inl (Or.inl (Or.inl (by simp [hsv]))))
                have hchk : call_fn_check env fuel nn (some v) ln s =
                    some (DefRes.ok s) := by
                  unfold call_fn_check
                  rw [hgf]
                  rw [if_pos rfl]
                have hflag : call_fn_flag (some v) (call_fn_mark env (some v) s) =
                    call_fn_mark env (some v) s := by
                  unfold call_fn_flag
                  rw [if_neg (by
                    intro hc
                    exact hvd (Option.some.inj hc))]
                refine ⟨call_fn_mark env (some v) s, ?_, ?_⟩
                · simp only [nasl_lint_call_fn, hchk, hflag]
                · obtain ⟨m1, m2, m3, -, m5, -⟩ := call_fn_mark_fields env (some v) s
                  exact ⟨m2, m5, m3, m1⟩
            obtain ⟨s1, hs1, hp1⟩ := hblock
            have hi1 := callInv_pres hi hp1
            have hnode : nasl_lint_call env fuel called nn
                (tree_cell.node ty sv ln c0 c1 c2 c3) s =
                chainCallList (nasl_lint_call env fuel called nn) [c0, c1, c2, c3] s1 := by
              rw [nasl_lint_call_eq_node env fuel called nn ty sv ln c0 c1 c2 c3 s
                hskip hconst]
              simp only [if_pos hcall, hs1]
            constructor
            · intro hnb
              have hnbc : ∀ c ∈ [c0, c1, c2, c3], some b ∉ topCallNamesC c := by
                intro c hcm hv
                exact hnb (topC_sub_child ty sv ln c0 c1 c2 c3 hdef hconst c hcm _ hv)
              obtain ⟨s', hs', hp'⟩ := (hchain s1 hi1).1 hnbc
              refine ⟨s', by rw [hnode]; exact hs', ?_⟩
              obtain ⟨a1, b1, c1', d1⟩ := hp1
              obtain ⟨a2, b2, c2', d2⟩ := hp'
              exact ⟨by rw [a2, a1], by rw [b2, b1], by rw [c2', c1'], by rw [d2, d1]⟩
            · intro hmemb hrec
              have hex : ∃ c ∈ [c0, c1, c2, c3], some b ∈ topCallNamesC c := by
                simp only [topCallNamesC, if_neg hdef, if_neg hconst,
                  if_pos hcall, List.mem_append] at hmemb
                rcases hmemb with ((((hh | hh) | hh) | hh) | hh)
                · rcases List.mem_cons.mp hh with hbb | hin
                  · exact absurd hbb.symm (by
                      intro hx
                      exact hsvb hx)
                  · exact absurd hin (List.not_mem_nil _)
                · exact ⟨c0, by simp, hh⟩
                · exact ⟨c1, by simp, hh⟩
                · exact ⟨c2, by simp, hh⟩
                · exact ⟨c3, by simp, hh⟩
              have hrec1 : ∃ r ∈ s1.def_func_tree, r.func_name = some b := by
                obtain ⟨r, hr, hn⟩ := hrec
                exact ⟨r, by rw [hp1.2.2.1]; exact hr, hn⟩
              obtain ⟨s', f, l, hf, hd⟩ := (hchain s1 hi1).2 hex hrec1
              exact ⟨s', f, l, by rw [hnode]; exact hf,
                by rw [hd, hp1.2.2.2]⟩
        · have hnode : nasl_lint_call env fuel called nn
              (tree_cell.node ty sv ln c0 c1 c2 c3) s =
              chainCallList (nasl_lint_call env fuel called nn) [c0, c1, c2, c3] s := by
            rw [nasl_lint_call_eq_node env fuel called nn ty sv ln c0 c1 c2 c3 s
              hskip hconst]
            rw [if_neg hcall]
          constructor
          · intro hnb
            have hnbc : ∀ c ∈ [c0, c1, c2, c3], some b ∉ topCallNamesC c := by
              intro c hcm hv
              exact hnb (topC_sub_child ty sv ln c0 c1 c2 c3 hdef hconst c hcm _ hv)
            obtain ⟨s', hs', hp'⟩ := (hchain s hi).1 hnbc
            exact ⟨s', by rw [hnode]; exact hs', hp'⟩
          · intro hmemb hrec
            have hex : ∃ c ∈ [c0, c1, c2, c3], some b ∈ topCallNamesC c := by
              simp only [topCallNamesC, if_neg hdef, if_neg hconst,
                if_neg hcall, List.mem_append] at hmemb
              rcases hmemb with ((((hh | hh) | hh) | hh) | hh)
              · exact absurd hh (List.not_mem_nil _)
              · exact ⟨c0, by simp, hh⟩
              · exact ⟨c1, by simp, hh⟩
              · exact ⟨c2, by simp, hh⟩
              · exact ⟨c3, by simp, hh⟩
            obtain ⟨s', f, l, hf, hd⟩ := (hchain s hi).2 hex hrec
            exact ⟨s', f, l, by rw [hnode]; exact hf, hd⟩

/-- Everything `make_call_func_list` collects beyond its accumulator did
not resolve against the given context. -/
theorem make_call_not_builtin (env : Env) (aux : List String) :
    ∀ t : tree_cell, ∀ (acc : List String) (x : String),
      x ∈ make_call_func_list env aux t acc →
      get_func_ref_by_name env aux (some x) = false ∨ x ∈ acc := by
  intro t
  induction t with
  | nil =>
    intro acc x h
    exact Or.inr h
  | node ty sv ln c0 c1 c2 c3 ih0 ih1 ih2 ih3 =>
    intro acc x h
    simp only [make_call_func_list] at h
    rcases ih3 _ x h with hc | h2
    · exact Or.inl hc
    rcases ih2 _ x h2 with hc | h1
    · exact Or.inl hc
    rcases ih1 _ x h1 with hc | h0
    · exact Or.inl hc
    rcases ih0 _ x h0 with hc | hacc
    · exact Or.inl hc
    by_cases hcall : ty = NODE_FUN_CALL
    · rw [if_pos hcall] at hacc
      cases hsv : sv with
      | none =>
        simp only [hsv] at hacc
        exact Or.inr hacc
      | some v =>
        simp only [hsv] at hacc
        by_cases hbi : get_func_ref_by_name env aux (some v) = true
        · rw [if_pos hbi] at hacc
          exact Or.inr hacc
        · rw [if_neg hbi] at hacc
          rcases List.mem_cons.mp hacc with rfl | hin
          · exact Or.inl (by
              cases hx : get_func_ref_by_name env aux (some x)
              · rfl
              · exact absurd hx hbi)
          · exact Or.inr hin
    · rw [if_neg hcall] at hacc
      exact Or.inr hacc

/-- Call names visible to the call pass are call names of the tree. -/
theorem topC_sub_callNames :
    ∀ t : tree_cell, ∀ v : Option String,
      v ∈ topCallNamesC t → v ∈ callNames t := by
  intro t
  induction t with
  | nil =>
    intro v hv
    exact absurd hv (List.not_mem_nil v)
  | node ty sv ln c0 c1 c2 c3 ih0 ih1 ih2 ih3 =>
    intro v hv
    by_cases hdef : ty = NODE_FUN_DEF
    · rw [show topCallNamesC (tree_cell.node ty sv ln c0 c1 c2 c3) = []
        from by simp [topCallNamesC, hdef]] at hv
      exact absurd hv (List.not_mem_nil v)
    · by_cases hconst : ty = CONST_DATA ∨ ty = CONST_STR
      · rw [show topCallNamesC (tree_cell.node ty sv ln c0 c1 c2 c3) = []
          from by simp [topCallNamesC, hdef, hconst]] at hv
        exact absurd hv (List.not_mem_nil v)
      · simp only [topCallNamesC, if_neg hdef, if_neg hconst,
          List.mem_append] at hv
        simp only [callNames, List.mem_append]
        rcases hv with ((((h | h) | h) | h) | h)
        · exact Or.inl (Or.inl (Or.inl (Or.inl h)))
        · exact Or.inl (Or.inl (Or.inl (Or.inr (ih0 v h))))
        · exact Or.inl (Or.inl (Or.inr (ih1 v h)))
        · exact Or.inl (Or.inr (ih2 v h))
        · exact Or.inr (ih3 v h)

/-- If no definition name of the tree is in the called set, every
definition is skipped. -/
theorem topDefsSkipped_of_defs (called : List String) :
    ∀ t : tree_cell,
      (∀ v : String, some v ∈ defNames t → called.contains v = false) →
      topDefsSkipped called t = true := by
  intro t
  induction t with
  | nil =>
    intro hd
    rfl
  | node ty sv ln c0 c1 c2 c3 ih0 ih1 ih2 ih3 =>
    intro hd
    have hsub : ∀ c ∈ [c0, c1, c2, c3], ∀ v : String,
        some v ∈ defNames c → some v ∈ defNames (tree_cell.node ty sv ln c0 c1 c2 c3) := by
      intro c hcm v hv
      simp only [defNames, List.mem_append]
      simp only [List.mem_cons, List.not_mem_nil, or_false] at hcm
      rcases hcm with rfl | rfl | rfl | rfl
      · exact Or.inl (Or.inl (Or.inl (Or.inr hv)))
      · exact Or.inl (Or.inl (Or.inr hv))
      · exact Or.inl (Or.inr hv)
      · exact Or.inr hv
    by_cases hdef : ty = NODE_FUN_DEF
    · simp only [topDefsSkipped, if_pos hdef, Bool.not_eq_true']
      cases hsv : sv with
      | none => rfl
      | some d =>
        refine hd d ?_
        simp only [defNames, if_pos hdef, List.mem_append]
        exact Or.inl (Or.inl (Or.inl (Or.inl (by simp [hsv]))))
    · simp only [topDefsSkipped, if_neg hdef, Bool.and_eq_true]
      exact ⟨⟨⟨ih0 (fun v hv => hd v (hsub c0 (by simp) v hv)),
        ih1 (fun v hv => hd v (hsub c1 (by simp) v hv))⟩,
        ih2 (fun v hv => hd v (hsub c2 (by simp) v hv))⟩,
        ih3 (fun v hv => hd v (hsub c3 (by simp) v hv))⟩

/-- With every definition skipped, freedom from duplicate parameters
outside definitions is freedom over all visited calls. -/
theorem noVisitedDup_of_dupFree (called : List String) :
    ∀ t : tree_cell, topDefsSkipped called t = true →
      dupFreeOutsideDefs t = true →
      hasVisitedDupCall called t = false := by
  intro t
  induction t with
  | nil =>
    intro hsk hdup
    rfl
  | node ty sv ln c0 c1 c2 c3 ih0 ih1 ih2 ih3 =>
    intro hsk hdup
    by_cases hdef : ty = NODE_FUN_DEF
    · have hmem : memOpt sv called = false := by
        simp only [topDefsSkipped, if_pos hdef, if_true, Bool.not_eq_true'] at hsk
        exact hsk
      simp [hasVisitedDupCall, hdef, hmem]
    · have hsk4 := topDefsSkipped_child called ty sv ln c0 c1 c2 c3 hdef hsk
      simp only [dupFreeOutsideDefs, if_neg hdef, Bool.and_eq_true] at hdup
      have hskip : ¬ (ty = NODE_FUN_DEF ∧ memOpt sv called = false) := by
        rintro ⟨hty, -⟩
        exact hdef hty
      simp only [hasVisitedDupCall, if_neg hskip, Bool.or_eq_false_iff]
      refine ⟨⟨⟨⟨?_, ih0 (hsk4 c0 (by simp)) hdup.1.1.1.2⟩,
        ih1 (hsk4 c1 (by simp)) hdup.1.1.2⟩,
        ih2 (hsk4 c2 (by simp)) hdup.1.2⟩,
        ih3 (hsk4 c3 (by simp)) hdup.2⟩
      by_cases hcall : ty = NODE_FUN_CALL
      · rw [if_pos hcall]
        have hnone := hdup.1.1.1.1
        rw [if_pos hcall] at hnone
        simp only [Option.isNone_iff_eq_none] at hnone
        simp [hnone]
      · rw [if_neg hcall]

/-- C1, amended: a reachable call to an unresolvable name makes the
analysis fail with an UndefinedFunction naming it, provided the
`reverse_search` confounders are absent: the script's other calls all
resolve as builtins (so no definition is reachable and no dead caller
chain exists), `defined_func` is never invoked and its static flag is
down, and the effective file is not an include. -/
theorem C1_amended (env : Env) (fuel : Nat) (t : tree_cell) (F0 : List String)
    (st0 : Statics) (cf : String) (b : String)
    (hfuel : 1 ≤ fuel)
    (hflag : st0.defined_flag = false)
    (hsuf : g_str_has_suffix (nasl_get_filename env cf (rootSv t)) (".inc") = false)
    (hbi : env.builtins b = false)
    (hbdef : (some b) ∉ defNames t)
    (hbtop : (some b) ∈ topCallNamesC t)
    (hcalls : ∀ v : String, some v ∈ callNames t → v = b ∨ env.builtins v = true)
    (hnd : (some ("defined_func")) ∉ callNames t)
    (hdup : dupFreeOutsideDefs t = true) :
    ∃ (out : LintOut) (f : String) (l : Nat),
      nasl_lint env fuel t F0 st0 cf = some out ∧
      out.success = false ∧
      out.diags = [Diag.undefFunc f l (some b)] := by
  have hgf0 : get_func_ref_by_name env [] (some b) = false := by
    simp [get_func_ref_by_name, hbi]
  have hdefs : ∀ v : String, some v ∈ defNames t →
      (make_call_func_list env [] t []).contains v = false := by
    intro v hv
    refine contains_false_of_not_mem ?_
    intro hmem
    rcases make_call_not_builtin env [] t [] v hmem with hnb | hnil
    · rcases make_call_mem env [] t [] v hmem with hcn | hnil
      · rcases hcalls v hcn with rfl | hbi2
        · exact hbdef hv
        · simp [get_func_ref_by_name, hbi2] at hnb
      · exact absurd hnil (List.not_mem_nil v)
    · exact absurd hnil (List.not_mem_nil v)
  have hsk : topDefsSkipped (make_call_func_list env [] t []) t = true :=
    topDefsSkipped_of_defs (make_call_func_list env [] t []) t hdefs
  have hnodup : hasVisitedDupCall (make_call_func_list env [] t []) t = false :=
    noVisitedDup_of_dupFree (make_call_func_list env [] t []) t hsk hdup
  obtain ⟨s1, hd1⟩ := (lint_def1_dup env (make_call_func_list env [] t [])
    (nasl_get_filename env cf (rootSv t)) t none (initSt F0 st0 cf)).2 hnodup
  have h1d : s1.diags = [] := (lint_def_diags_ext env 1
    (make_call_func_list env [] t []) (nasl_get_filename env cf (rootSv t))
    (Or.inr rfl) t none (initSt F0 st0 cf) s1).1 hd1
  obtain ⟨a1, f1, c1f, r1, m1, v1⟩ := lint_def1_skipped env
    (make_call_func_list env [] t []) (nasl_get_filename env cf (rootSv t))
    t hsk none (initSt F0 st0 cf) s1 hd1
  have hinv : callInv [] (nasl_get_filename env cf (rootSv t)) s1 := by
    refine ⟨by rw [a1]; rfl, by rw [f1]; exact hflag, ?_⟩
    intro r hr
    rcases r1 r hr with hin | hcf
    · exact absurd hin (List.not_mem_nil r)
    · exact hcf
  obtain ⟨rb, hrbm, hrbn⟩ := v1 (some b) (topC_sub_topD t (some b) hbtop)
  have hvis : ∀ v : String, some v ∈ topCallNamesC t →
      v = b ∨ get_func_ref_by_name env [] (some v) = true := by
    intro v hv
    rcases hcalls v (topC_sub_callNames t (some v) hv) with rfl | hb2
    · exact Or.inl rfl
    · exact Or.inr (by simp [get_func_ref_by_name, hb2])
  have hnd2 : (some ("defined_func")) ∉ topCallNamesC t := fun hv =>
    hnd (topC_sub_callNames t _ hv)
  have hB := lint_call_b env fuel (make_call_func_list env [] t [])
    (nasl_get_filename env cf (rootSv t)) b [] hsuf hfuel hgf0 t hsk hvis hnd2 s1 hinv
  obtain ⟨s2, f, l, hc, hdg⟩ := hB.2 hbtop ⟨rb, hrbm, hrbn⟩
  refine ⟨mkOut false s2 (nasl_get_filename env cf (rootSv t)), f, l, ?_, rfl, ?_⟩
  · simp only [nasl_lint]
    simp only [hd1, hc]
  · show s2.diags = _
    rw [hdg, h1d]

/-- C1 witness: the one-line script `b();` with no builtins, analyzed as
"t.nasl", fails with UndefinedFunction naming `b`. -/
theorem C1_amended_witness :
    (1 ≤ 1 ∧ initStatics.defined_flag = false ∧
      g_str_has_suffix (nasl_get_filename envP ("t.nasl")
        (rootSv (leaf NODE_FUN_CALL (some ("b")) 7))) (".inc") = false ∧
      envP.builtins ("b") = false ∧
      (some ("b")) ∉ defNames (leaf NODE_FUN_CALL (some ("b")) 7) ∧
      (some ("b")) ∈ topCallNamesC (leaf NODE_FUN_CALL (some ("b")) 7) ∧
      (some ("defined_func")) ∉ callNames (leaf NODE_FUN_CALL (some ("b")) 7) ∧
      dupFreeOutsideDefs (leaf NODE_FUN_CALL (some ("b")) 7) = true) ∧
    (∃ (out : LintOut) (f : String) (l : Nat),
      nasl_lint envP 1 (leaf NODE_FUN_CALL (some ("b")) 7) [] initStatics
        ("t.nasl") = some out ∧
      out.success = false ∧
      out.diags = [Diag.undefFunc f l (some ("b"))]) :=
  ⟨by decide,
   C1_amended envP 1 (leaf NODE_FUN_CALL (some ("b")) 7) [] initStatics
     ("t.nasl") ("b") (by decide) (by decide) (by decide) (by decide)
     (by decide) (by decide)
     (by
       intro v hv
       refine Or.inl ?_
       have hv2 : some v = some ("b") := by simpa [leaf, callNames] using hv
       exact Option.some.inj hv2)
     (by decide) (by decide)⟩

/-- The fuel-indexed approximations of `reverse_search` are monotone: a
result reached within a recursion bound persists at every larger bound. -/
theorem rs_mono (nn : String) (L : List func_info) :
    ∀ (n : Nat) (r : func_info) (b : Bool),
      reverse_search nn L n r = some b →
      ∀ m : Nat, n ≤ m → reverse_search nn L m r = some b := by
  intro n
  induction n with
  | zero =>
    intro r b h
    exact absurd h (by simp [reverse_search])
  | succ n ih =>
    intro r b h m hnm
    obtain ⟨m2, rfl⟩ : ∃ m2, m = m2 + 1 := ⟨m - 1, by omega⟩
    have hnm2 : n ≤ m2 := by omega
    rw [reverse_search_succ] at h ⊢
    by_cases h1 : r.caller_file = nn ∧ ¬ g_str_has_suffix nn (".inc")
    · rw [if_pos h1] at h ⊢
      exact h
    · rw [if_neg h1] at h ⊢
      by_cases h2 : r.func_name = r.caller_func
      · rw [if_pos h2] at h ⊢
        exact h
      · rw [if_neg h2] at h ⊢
        cases hf : find_custom1 L r.caller_func with
        | none =>
          rw [hf] at h
          exact h
        | some f2 =>
          rw [hf] at h
          exact ih f2 b h m2 hnm2

/-- C9, amended: the tree traversals are structural and complete, but the
reverse-reachability search does not always terminate.  Its fuel-indexed
results are monotone — so exceeding every recursion bound is genuine
divergence — and the two-hop caller cycle of `LC9`, among helpers not
reached from the program entry, exceeds every bound. -/
theorem C9_amended (nn : String) (L : List func_info) (r : func_info)
    (n m : Nat) (b : Bool) (hnm : n ≤ m)
    (h : reverse_search nn L n r = some b) :
    reverse_search nn L m r = some b ∧ rsDiverges ("t.nasl") LC9 recF :=
  ⟨rs_mono nn L n r b h m hnm, fun k => (rs_cycle_aux k).1⟩

/-- C9 witness: a self-referencing record resolves to `false` at bound 1
and keeps that result at bound 2, while the cyclic list diverges. -/
theorem C9_amended_witness :
    (1 ≤ 2 ∧ reverse_search ("t.nasl") []
      1 (⟨some ("z"), some ("z"), ("x.inc")⟩ : func_info) = some false) ∧
    (reverse_search ("t.nasl") []
      2 (⟨some ("z"), some ("z"), ("x.inc")⟩ : func_info) = some false ∧
     rsDiverges ("t.nasl") LC9 recF) :=
  ⟨⟨by decide, by decide⟩,
   C9_amended ("t.nasl") [] (⟨some ("z"), some ("z"), ("x.inc")⟩ : func_info)
     1 2 false (by decide) (by decide)⟩
